import Mathlib

/-!
# Backup pull reactor: frame packer and pull state machine

A shallow embedding of `PullBackupReactor` (services/backup, file
`Reactors/server/PullBackupReactor.cpp`): the method `initialize`, the frame
packer `prepareDataChunkWithPadding`, the per-frame step `writeResponse` with
`nextLog` and `initializeGetReactor`, and the write loop that drives them.

Strings are lists of bytes, and `size_t` values are natural numbers (string
sizes never reach `2^64`). The one `size_t` sum that takes a value chosen by
the caller, `chunk.size() + padding` in the frame packer, is also given with
its wrap-around, as `prepareDataChunkWithPadding64`, which agrees with
`prepareDataChunkWithPadding` whenever the sum stays below `2^64`. The
reactor's mutable fields are an explicit record that every operation takes and
returns.

The blob source runs on another thread. The embedding fixes the schedule in
which a source has enqueued everything by the time the reactor reads next:
`initializeGetReactor` appends the source's chunks and then the empty
sentinel to the queue and records the source's final status, `blockingRead`
pops the head of the queue, and a read from the empty queue is the outcome
`blocked`, because nothing is left that could ever be enqueued. The values
that successive reads return do not depend on the schedule (one producer at a
time, first in first out); the capacity of the queue (100) plays no part.
-/

namespace PullBackup

/-- A byte string (`std::string`); the code never inspects a byte's value. -/
abbrev Bytes := List Nat

/-- The exceptions thrown by the reactor: its `runtime_error` messages, and the
`out_of_range` of `std::vector::at`. -/
inductive Error where
  /-- Message "no user id provided". -/
  | noUserID
  /-- Message "no backup id provided". -/
  | noBackupID
  /-- Message "no backup found for provided parameters: user id [u], backup id
  [b]", with the two ids of the request. -/
  | noBackupFound (userID backupID : Bytes)
  /-- The `std::out_of_range` of `logs.at(currentLogIndex)`. -/
  | atOutOfRange
  /-- Message "get reactor cannot be initialized when backup item is missing". -/
  | backupItemMissing
  /-- Message "dangling data discovered after reading compaction". -/
  | danglingCompaction
  /-- Message "dangling data discovered after reading logs". -/
  | danglingLogs
  /-- Message "log index out of bound". -/
  | logIndexOutOfBound
  /-- Message "received data chunk bigger than the chunk limit". -/
  | chunkBiggerThanLimit
  /-- Message "new data chunk incorrectly calculated". -/
  | incorrectlyCalculated
  /-- The error message of the blob source's non-ok status. -/
  | upstream (message : Bytes)
  deriving DecidableEq, Repr

/-- The phase enum `State` of the reactor: the two values its code uses. -/
inductive State where
  | COMPACTION
  | LOGS
  deriving DecidableEq, Repr

/-- The record `database::BackupItem`, with the getters the reactor calls. -/
structure BackupItem where
  backupID : Bytes
  attachmentHolders : Bytes
  compactionHolder : Bytes
  deriving DecidableEq, Repr

/-- The record `database::LogItem`, with the getters the reactor calls. -/
structure LogItem where
  backupID : Bytes
  logID : Bytes
  persistedInBlob : Bool
  value : Bytes
  attachmentHolders : Bytes
  deriving DecidableEq, Repr

/-- The message `backup::PullBackupResponse`: one frame of the stream. -/
structure PullBackupResponse where
  backupID : Bytes
  logID : Bytes
  attachmentHolders : Bytes
  compactionChunk : Bytes
  logChunk : Bytes
  deriving DecidableEq, Repr

/-- A fresh response object: every field empty. -/
def PullBackupResponse.fresh : PullBackupResponse :=
  { backupID := [], logID := [], attachmentHolders := [], compactionChunk := [], logChunk := [] }

/-- Modelled from the spec: what the blob source (`BlobGetClientReactor`, not in
this file) does for one holder: the byte chunks it enqueues, in order, before
the empty sentinel, and the final status it reports (`none` is ok, `some m` is
a non-ok status with error message `m`). -/
structure Blob where
  chunks : List Bytes
  status : Option Bytes
  deriving DecidableEq, Repr

/-- The constants the reactor reads from headers that are not part of this
file (`chunkLimit`, the `FIELD_*` names of `BackupItem` and `LogItem`) and the
blob store the get reactor reads from. -/
structure Env where
  chunkLimit : Nat
  FIELD_BACKUP_ID : Bytes
  FIELD_ATTACHMENT_HOLDERS : Bytes
  FIELD_LOG_ID : Bytes
  LOG_FIELD_ATTACHMENT_HOLDERS : Bytes
  blobGet : Bytes → Blob

/-- The handle `getReactor`: the holder it was created for and the status its
status holder reports. -/
structure GetReactor where
  holder : Bytes
  status : Option Bytes
  deriving DecidableEq, Repr

/-- The mutable fields of `PullBackupReactor`. -/
structure Reactor where
  backupItem : Option BackupItem
  logs : List LogItem
  state : State
  getReactor : Option GetReactor
  dataChunks : List Bytes
  internalBuffer : Bytes
  currentLogIndex : Nat
  currentLog : Option LogItem
  previousLogID : Bytes
  endOfQueue : Bool
  deriving DecidableEq, Repr

/-- Modelled from the spec: the reactor as a successful `initialize` leaves it,
with the records loaded and every other field at the default that the header
(not part of this file) declares: phase `COMPACTION`, no blob source, empty
queue and internal buffer, log index 0, no current log, end of queue false. -/
def Reactor.initial (item : BackupItem) (logs : List LogItem) : Reactor :=
  { backupItem := some item, logs := logs, state := State.COMPACTION, getReactor := none,
    dataChunks := [], internalBuffer := [], currentLogIndex := 0, currentLog := none,
    previousLogID := [], endOfQueue := false }

/-- What `prepareDataChunkWithPadding` produces: a body, a thrown error, or
`outOfRange` where the source forms the iterator `chunk.end() - bytesToStash`
with `bytesToStash > chunk.size()`, which C++ leaves undefined (the `resize`
that follows is then asked for `chunk.size() - bytesToStash`, which wraps
around in `size_t`): no body is returned. -/
inductive Prepared where
  | chunk (body : Bytes)
  | thrown (e : Error)
  | outOfRange
  deriving DecidableEq, Repr

/-- The frame packer `prepareDataChunkWithPadding(dataChunk, padding)`, on the
internal buffer `internalBuffer`; returns the result and the new internal
buffer. The sum `chunk.size() + padding` is taken in the natural numbers: this
is the packer on the sizes for which the sum stays below `2^64`, as it does
for the paddings that `writeResponse` passes (sums of the sizes of field names
and values); `prepareDataChunkWithPadding64` is the packer on every `size_t`
padding. -/
def prepareDataChunkWithPadding (chunkLimit : Nat) (internalBuffer dataChunk : Bytes)
    (padding : Nat) : Prepared × Bytes :=
  if dataChunk.length > chunkLimit then
    (Prepared.thrown Error.chunkBiggerThanLimit, internalBuffer)
  else
    let chunk := internalBuffer ++ dataChunk
    let realSize := chunk.length + padding
    if realSize ≤ chunkLimit then
      (Prepared.chunk chunk, [])
    else
      let bytesToStash := realSize - chunkLimit
      if bytesToStash > chunk.length then
        (Prepared.outOfRange, [])
      else
        let stash := chunk.drop (chunk.length - bytesToStash)
        let resized := chunk.take (chunk.length - bytesToStash)
        if resized.length > chunkLimit then
          (Prepared.thrown Error.incorrectlyCalculated, stash)
        else
          (Prepared.chunk resized, stash)

/-- The frame packer `prepareDataChunkWithPadding(dataChunk, padding)` with the
arithmetic of `size_t` (64 bits): `realSize = chunk.size() + padding` wraps
around at `2^64`. The arguments `chunkLimit` and `padding` and the sizes of
the strings are `size_t` values, below `2^64`. The subtractions
`realSize - chunkLimit` and `chunk.size() - bytesToStash` are taken where the
left side is the larger and do not wrap. -/
def prepareDataChunkWithPadding64 (chunkLimit : Nat) (internalBuffer dataChunk : Bytes)
    (padding : Nat) : Prepared × Bytes :=
  if dataChunk.length > chunkLimit then
    (Prepared.thrown Error.chunkBiggerThanLimit, internalBuffer)
  else
    let chunk := internalBuffer ++ dataChunk
    let realSize := (chunk.length + padding) % 2 ^ 64
    if realSize ≤ chunkLimit then
      (Prepared.chunk chunk, [])
    else
      let bytesToStash := realSize - chunkLimit
      if bytesToStash > chunk.length then
        (Prepared.outOfRange, [])
      else
        let stash := chunk.drop (chunk.length - bytesToStash)
        let resized := chunk.take (chunk.length - bytesToStash)
        if resized.length > chunkLimit then
          (Prepared.thrown Error.incorrectlyCalculated, stash)
        else
          (Prepared.chunk resized, stash)

/-- What one call of `writeResponse` does: returns `nullptr` with the response
filled in (the frame is then written), returns the status OK, throws, blocks
for ever in `blockingRead`, or dereferences a null pointer or runs the packer
out of range (`undefined`). -/
inductive Outcome where
  | nullptr (response : PullBackupResponse)
  | statusOK
  | thrown (e : Error)
  | blocked
  | undefined
  deriving DecidableEq, Repr

/-- The method `initializeGetReactor(holder)`: throws when the backup item is
missing; otherwise replaces the get reactor by one for `holder`, whose blob
source enqueues its chunks and then the empty sentinel and reports its
status. -/
def initializeGetReactor (env : Env) (s : Reactor) (holder : Bytes) : Except Error Reactor :=
  match s.backupItem with
  | none => Except.error Error.backupItemMissing
  | some _ =>
    Except.ok { s with
      getReactor := some { holder := holder, status := (env.blobGet holder).status },
      dataChunks := s.dataChunks ++ (env.blobGet holder).chunks ++ [[]] }

/-- The method `nextLog()`; `none` when `currentLog` is null. -/
def nextLog (s : Reactor) : Option Reactor :=
  match s.currentLog with
  | none => none
  | some log =>
    some { s with
      currentLogIndex := s.currentLogIndex + 1,
      previousLogID := log.logID,
      currentLog := none,
      endOfQueue := false }

/-- Lines 156 to 170 of `writeResponse`, after the queue read: the end-of-queue
flag, the packer, the status check of the blob source, and the frame or the
advance to the next log. -/
def packLogChunk (env : Env) (response : PullBackupResponse) (extraBytesNeeded : Nat)
    (dataChunk : Bytes) (s : Reactor) : Outcome × Reactor :=
  let s := { s with endOfQueue := s.endOfQueue || dataChunk.length == 0 }
  match prepareDataChunkWithPadding env.chunkLimit s.internalBuffer dataChunk
      extraBytesNeeded with
  | (Prepared.thrown e, buffer) => (Outcome.thrown e, { s with internalBuffer := buffer })
  | (Prepared.outOfRange, buffer) => (Outcome.undefined, { s with internalBuffer := buffer })
  | (Prepared.chunk body, buffer) =>
    let s := { s with internalBuffer := buffer }
    match s.getReactor with
    | none => (Outcome.undefined, s)
    | some reactor =>
      match reactor.status with
      | some message => (Outcome.thrown (Error.upstream message), s)
      | none =>
        if body = [] then
          match nextLog s with
          | none => (Outcome.undefined, s)
          | some s => (Outcome.nullptr response, s)
        else
          (Outcome.nullptr { response with logChunk := body }, s)

/-- Lines 148 to 155 of `writeResponse`, then `packLogChunk`: the frame of a
blob-backed log. The queue is read unless the internal buffer has reached the
chunk limit or the end of the queue was seen. -/
def writeLogChunk (env : Env) (response : PullBackupResponse) (extraBytesNeeded : Nat)
    (log : LogItem) (s : Reactor) : Outcome × Reactor :=
  let response := { response with backupID := log.backupID, logID := log.logID }
  if s.internalBuffer.length < env.chunkLimit ∧ s.endOfQueue = false then
    match s.dataChunks with
    | [] => (Outcome.blocked, s)
    | dataChunk :: rest =>
      packLogChunk env response extraBytesNeeded dataChunk { s with dataChunks := rest }
  else
    packLogChunk env response extraBytesNeeded [] s

/-- The block `if (this->state == State::LOGS)` of `writeResponse` (lines 93 to
171), entered with the response and the extra bytes accumulated so far. -/
def writeLogs (env : Env) (response : PullBackupResponse) (extraBytesNeeded : Nat)
    (s : Reactor) : Outcome × Reactor :=
  if s.logs = [] then
    (Outcome.statusOK, s)
  else if s.currentLogIndex = s.logs.length then
    if s.dataChunks ≠ [] then
      (Outcome.thrown Error.danglingLogs, s)
    else if s.internalBuffer ≠ [] then
      (Outcome.nullptr { response with logID := s.previousLogID, logChunk := s.internalBuffer },
        { s with internalBuffer := [] })
    else
      (Outcome.statusOK, s)
  else if s.currentLogIndex > s.logs.length then
    (Outcome.thrown Error.logIndexOutOfBound, s)
  else
    match s.currentLog with
    | none =>
      match s.logs[s.currentLogIndex]? with
      | none => (Outcome.thrown Error.atOutOfRange, s)
      | some log =>
        let s := { s with currentLog := some log }
        let extraBytesNeeded := extraBytesNeeded + env.FIELD_LOG_ID.length + log.logID.length
        let response := { response with attachmentHolders := log.attachmentHolders }
        let extraBytesNeeded := extraBytesNeeded + env.LOG_FIELD_ATTACHMENT_HOLDERS.length
          + log.attachmentHolders.length
        if log.persistedInBlob then
          match initializeGetReactor env s log.value with
          | Except.error e => (Outcome.thrown e, s)
          | Except.ok s => writeLogChunk env response extraBytesNeeded log s
        else
          match nextLog s with
          | none => (Outcome.undefined, s)
          | some s =>
            (Outcome.nullptr { response with logID := log.logID, logChunk := log.value }, s)
    | some log =>
      let extraBytesNeeded := extraBytesNeeded + env.FIELD_LOG_ID.length + log.logID.length
      writeLogChunk env response extraBytesNeeded log s

/-- Lines 72 to 92 of `writeResponse`, after the queue read of the compaction
phase: a packed compaction frame, or the end of the compaction (queue and
status checks, the move to `LOGS`, the flush of the internal buffer, or the
fall through into the `LOGS` block). -/
def packCompaction (env : Env) (response : PullBackupResponse) (extraBytesNeeded : Nat)
    (dataChunk : Bytes) (s : Reactor) : Outcome × Reactor :=
  if dataChunk ≠ [] ∨ s.internalBuffer.length + extraBytesNeeded ≥ env.chunkLimit then
    match prepareDataChunkWithPadding env.chunkLimit s.internalBuffer dataChunk
        extraBytesNeeded with
    | (Prepared.thrown e, buffer) => (Outcome.thrown e, { s with internalBuffer := buffer })
    | (Prepared.outOfRange, buffer) => (Outcome.undefined, { s with internalBuffer := buffer })
    | (Prepared.chunk body, buffer) =>
      (Outcome.nullptr { response with compactionChunk := body },
        { s with internalBuffer := buffer })
  else if s.dataChunks ≠ [] then
    (Outcome.thrown Error.danglingCompaction, s)
  else
    match s.getReactor with
    | none => (Outcome.undefined, s)
    | some reactor =>
      match reactor.status with
      | some message => (Outcome.thrown (Error.upstream message), s)
      | none =>
        let s := { s with state := State.LOGS }
        if s.internalBuffer ≠ [] then
          (Outcome.nullptr { response with compactionChunk := s.internalBuffer },
            { s with internalBuffer := [] })
        else
          writeLogs env response extraBytesNeeded s

/-- Lines 68 to 71 of `writeResponse`, then `packCompaction`: the queue is read
when the internal buffer is below the chunk limit. -/
def readCompaction (env : Env) (response : PullBackupResponse) (extraBytesNeeded : Nat)
    (s : Reactor) : Outcome × Reactor :=
  if s.internalBuffer.length < env.chunkLimit then
    match s.dataChunks with
    | [] => (Outcome.blocked, s)
    | dataChunk :: rest =>
      packCompaction env response extraBytesNeeded dataChunk { s with dataChunks := rest }
  else
    packCompaction env response extraBytesNeeded [] s

/-- The block `if (this->state == State::COMPACTION)` of `writeResponse` (lines
57 to 92). -/
def writeCompaction (env : Env) (s : Reactor) : Outcome × Reactor :=
  match s.backupItem with
  | none => (Outcome.undefined, s)
  | some item =>
    let response := { PullBackupResponse.fresh with backupID := item.backupID }
    let extraBytesNeeded := env.FIELD_BACKUP_ID.length + item.backupID.length
    match s.getReactor with
    | none =>
      let extraBytesNeeded := extraBytesNeeded + env.FIELD_ATTACHMENT_HOLDERS.length
        + item.attachmentHolders.length
      let response := { response with attachmentHolders := item.attachmentHolders }
      match initializeGetReactor env s item.compactionHolder with
      | Except.error e => (Outcome.thrown e, s)
      | Except.ok s => readCompaction env response extraBytesNeeded s
    | some _ => readCompaction env response extraBytesNeeded s

/-- The method `writeResponse(response)` on a fresh response object. -/
def writeResponse (env : Env) (s : Reactor) : Outcome × Reactor :=
  match s.state with
  | State.COMPACTION => writeCompaction env s
  | State.LOGS => writeLogs env PullBackupResponse.fresh 0 s

/-- How a run of the write loop ends: with the status OK, with a thrown error,
blocked for ever in a queue read, in undefined behaviour, or still running
when the bound on the number of calls is reached. -/
inductive Termination where
  | ok
  | error (e : Error)
  | blocked
  | undefined
  | running
  deriving DecidableEq, Repr

/-- Modelled from the spec: the transport's write loop (the base class
`ServerWriteReactorBase`, not in this file), which calls `writeResponse` on a
fresh response, writes the frame and calls again on "continue", and ends the
call on a terminal status; at most `calls` calls are made. Returns the frames
written, how the run ended and the reactor's last state. -/
def writeLoop (env : Env) : (calls : Nat) → Reactor → List PullBackupResponse × Termination × Reactor
  | 0, s => ([], Termination.running, s)
  | calls + 1, s =>
    match writeResponse env s with
    | (Outcome.nullptr response, s) =>
      let rest := writeLoop env calls s
      (response :: rest.1, rest.2)
    | (Outcome.statusOK, s) => ([], Termination.ok, s)
    | (Outcome.thrown e, s) => ([], Termination.error e, s)
    | (Outcome.blocked, s) => ([], Termination.blocked, s)
    | (Outcome.undefined, s) => ([], Termination.undefined, s)

/-! ## What a client reassembles, and the size of a frame -/

/-- The compaction a client reassembles: the `compaction_chunk` fields of the
frames, concatenated in emission order. -/
def compactionChunks (frames : List PullBackupResponse) : Bytes :=
  (frames.map (fun f => f.compactionChunk)).flatten

/-- The log a client reassembles for one log id: the `log_chunk` fields of the
frames carrying that `log_id`, concatenated in emission order. -/
def logChunksOf (logID : Bytes) (frames : List PullBackupResponse) : Bytes :=
  ((frames.filter (fun f => decide (f.logID = logID))).map (fun f => f.logChunk)).flatten

/-- The bytes a metadata field adds to a frame: nothing when the field is not
populated, else the length of its name plus the length of its value. -/
def fieldSize (name value : Bytes) : Nat :=
  if value = [] then 0 else name.length + value.length

/-- The metadata overhead of a frame: the sum of `fieldSize` over `backup_id`,
`log_id` and `attachment_holders`; `attachmentName` is the name of the
attachment holders field (that of the backup item or that of the log item). -/
def metadataOverhead (env : Env) (attachmentName : Bytes) (f : PullBackupResponse) : Nat :=
  fieldSize env.FIELD_BACKUP_ID f.backupID + fieldSize env.FIELD_LOG_ID f.logID
    + fieldSize attachmentName f.attachmentHolders

/-- A frame that carries a `log_id` or a `log_chunk`. -/
def isLogFrame (f : PullBackupResponse) : Bool :=
  decide (f.logID ≠ []) || decide (f.logChunk ≠ [])

/-- The index of the log that the frames of the next call belong to: the
current log index, or the last log once the index has moved past it. -/
def servedLogIndex (s : Reactor) : Nat :=
  min s.currentLogIndex (s.logs.length - 1)

/-- The invariant of the log cursor: the index is within the collection, a
non-null `currentLog` is the log at the index, and `previousLogID` is the id
of the log before the index. -/
def LogCursorInv (s : Reactor) : Prop :=
  s.currentLogIndex ≤ s.logs.length ∧
  (∀ log, s.currentLog = some log → s.logs[s.currentLogIndex]? = some log) ∧
  (0 < s.currentLogIndex →
    ∃ log, s.logs[s.currentLogIndex - 1]? = some log ∧ s.previousLogID = log.logID)

/-- The reactor is reading the compaction of `item`: phase `COMPACTION`, a blob
source active, `queue` still to be read and `size` bytes in the internal
buffer. -/
def ReadingCompaction (item : BackupItem) (size : Nat) (queue : List Bytes) (s : Reactor) :
    Prop :=
  s.state = State.COMPACTION ∧ s.backupItem = some item ∧ s.getReactor ≠ none ∧
    s.dataChunks = queue ∧ s.internalBuffer.length = size

/-- The reactor is reading the blob-backed log `log` at index `index`: phase
`LOGS`, the log open, its blob source active with ok status, `queue` still to
be read, `size` bytes in the internal buffer and the end-of-queue flag
`flag`. -/
def ReadingLog (log : LogItem) (index size : Nat) (queue : List Bytes) (flag : Bool)
    (s : Reactor) : Prop :=
  s.state = State.LOGS ∧ s.currentLogIndex = index ∧ index < s.logs.length ∧
    s.currentLog = some log ∧ (∃ g, s.getReactor = some g ∧ g.status = none) ∧
    s.dataChunks = queue ∧ s.internalBuffer.length = size ∧ s.endOfQueue = flag

/-- The message `backup::PullBackupRequest`. -/
structure PullBackupRequest where
  userID : Bytes
  backupID : Bytes
  deriving DecidableEq, Repr

/-- The two lookups of the backup service's `database::DatabaseManager` that
`initialize` calls; the manager is not part of this file. -/
structure DatabaseManager where
  findBackupItem : Bytes → Bytes → Option BackupItem
  findLogItemsForBackup : Bytes → List LogItem

/-- A call made to the database manager. -/
inductive Lookup where
  | findBackupItem (userID backupID : Bytes)
  | findLogItemsForBackup (backupID : Bytes)
  deriving DecidableEq, Repr

/-- Modelled from the spec: the reactor as its constructor leaves it, every
field at the default that the header (not part of this file) declares: no
backup item, no logs, phase `COMPACTION`, no blob source, empty queue and
internal buffer, log index 0, no current log, end of queue false. -/
def Reactor.constructed : Reactor :=
  { backupItem := none, logs := [], state := State.COMPACTION, getReactor := none,
    dataChunks := [], internalBuffer := [], currentLogIndex := 0, currentLog := none,
    previousLogID := [], endOfQueue := false }

/-- What a call of `initialize` did: the exception it threw, if any, the reactor
it left, and the lookups it made, in order. -/
structure Initialized where
  thrown : Option Error
  reactor : Reactor
  lookups : List Lookup
  deriving DecidableEq, Repr

/-- The method `initialize()` (`initialize` is a reserved word here). -/
def initializeReactor (db : DatabaseManager) (request : PullBackupRequest) (s : Reactor) :
    Initialized :=
  if request.userID = [] then
    { thrown := some Error.noUserID, reactor := s, lookups := [] }
  else if request.backupID = [] then
    { thrown := some Error.noBackupID, reactor := s, lookups := [] }
  else
    match db.findBackupItem request.userID request.backupID with
    | none =>
      { thrown := some (Error.noBackupFound request.userID request.backupID),
        reactor := { s with backupItem := none },
        lookups := [Lookup.findBackupItem request.userID request.backupID] }
    | some item =>
      { thrown := none,
        reactor := { s with
          backupItem := some item,
          logs := db.findLogItemsForBackup request.backupID },
        lookups := [Lookup.findBackupItem request.userID request.backupID,
          Lookup.findLogItemsForBackup request.backupID] }

/-- Modelled from the spec: one call of the transport (the base class
`ServerWriteReactorBase`, not in this file): the reactor is constructed and
initialized; when `initialize` throws, the call ends with that error and no
frame; otherwise the write loop runs. -/
def pullBackup (db : DatabaseManager) (env : Env) (request : PullBackupRequest)
    (calls : Nat) : List PullBackupResponse × Termination × Reactor :=
  match (initializeReactor db request Reactor.constructed).thrown with
  | some e => ([], Termination.error e, (initializeReactor db request Reactor.constructed).reactor)
  | none => writeLoop env calls (initializeReactor db request Reactor.constructed).reactor

/-- The extra bytes of the first frame of a log: the sizes of its log id and
attachment holders fields (name and value). -/
def logExtraBytes (env : Env) (log : LogItem) : Nat :=
  env.FIELD_LOG_ID.length + log.logID.length
    + env.LOG_FIELD_ATTACHMENT_HOLDERS.length + log.attachmentHolders.length

/-- The largest value `extraBytesNeeded` can take in a call: the sizes of the
backup id and attachment holders fields of the backup item, plus the largest
`logExtraBytes` of a log. -/
def maxExtraBytes (env : Env) (item : BackupItem) (logs : List LogItem) : Nat :=
  env.FIELD_BACKUP_ID.length + item.backupID.length
    + env.FIELD_ATTACHMENT_HOLDERS.length + item.attachmentHolders.length
    + (logs.map (logExtraBytes env)).foldr max 0

/-- The invariant of the phases: the records are the loaded ones, no log is
open and the log index is 0 while the compaction is read, and a blob source
exists once the phase is `LOGS`. -/
def PhaseInv (item : BackupItem) (logs : List LogItem) (s : Reactor) : Prop :=
  s.backupItem = some item ∧ s.logs = logs ∧
  (s.state = State.COMPACTION → s.currentLog = none ∧ s.currentLogIndex = 0) ∧
  (s.state = State.LOGS → s.getReactor ≠ none)

/-! ## Concrete inputs

A chunk limit of 40 bytes, with the field names "backupID", "logID" and
"attachmentHolders" of the backup service's database entities. -/

/-- An environment with chunk limit 40 over the given blob store. -/
def smallEnv (blobGet : Bytes → Blob) : Env :=
  { chunkLimit := 40,
    FIELD_BACKUP_ID := [98, 97, 99, 107, 117, 112, 73, 68],
    FIELD_ATTACHMENT_HOLDERS :=
      [97, 116, 116, 97, 99, 104, 109, 101, 110, 116, 72, 111, 108, 100, 101, 114, 115],
    FIELD_LOG_ID := [108, 111, 103, 73, 68],
    LOG_FIELD_ATTACHMENT_HOLDERS :=
      [97, 116, 116, 97, 99, 104, 109, 101, 110, 116, 72, 111, 108, 100, 101, 114, 115],
    blobGet := blobGet }

/-- A backup item with a one-byte backup id and no attachment holders; its
compaction is the blob at holder `[100]`. -/
def smallItem : BackupItem :=
  { backupID := [1], attachmentHolders := [], compactionHolder := [100] }

/-- A log stored in the blob store at holder `[holder]`. -/
def blobLog (id holder : Nat) : LogItem :=
  { backupID := [1], logID := [id], persistedInBlob := true, value := [holder],
    attachmentHolders := [] }

/-- A log stored inline. -/
def inlineLog (id : Nat) (value : Bytes) : LogItem :=
  { backupID := [1], logID := [id], persistedInBlob := false, value := value,
    attachmentHolders := [] }

/-- A blob store whose compaction blob is the 80 bytes 0..79, delivered as two
chunks of 40 bytes, with ok status. -/
def strandingStore : Bytes → Blob := fun _ =>
  { chunks := [List.range 40, List.map (fun b => b + 40) (List.range 40)], status := none }

/-- A blob store whose compaction blob is 80 zero bytes, delivered as two chunks
of 40 bytes, with ok status. -/
def zeroStore : Bytes → Blob := fun _ =>
  { chunks := List.replicate 2 (List.replicate 40 0), status := none }

/-- A blob store with the one-byte compaction `[0]` at holder `[100]` and, at
every other holder, three chunks of 40 zero bytes followed by a chunk of one
byte, all with ok status. -/
def spillStore : Bytes → Blob := fun holder =>
  if holder = [100] then { chunks := [[0]], status := none }
  else { chunks := List.replicate 3 (List.replicate 40 0) ++ [[0]], status := none }

/-- A blob store with a one-byte compaction at holder `[100]`, the 123 bytes
0..122 at holder `[101]` (three chunks of 40 bytes and one of 3 bytes) and the
two bytes 200, 201 at every other holder, all with ok status. -/
def logStore : Bytes → Blob := fun holder =>
  if holder = [100] then { chunks := [[7]], status := none }
  else if holder = [101] then
    { chunks := [List.range 40, List.map (fun b => b + 40) (List.range 40),
        List.map (fun b => b + 80) (List.range 40), [120, 121, 122]],
      status := none }
  else { chunks := [[200, 201]], status := none }

/-- A database with one backup, of user `[7]` and id `[1]`, and one inline log. -/
def smallDatabase : DatabaseManager :=
  { findBackupItem := fun userID backupID =>
      if userID = [7] ∧ backupID = [1] then some smallItem else none,
    findLogItemsForBackup := fun backupID =>
      if backupID = [1] then [inlineLog 1 [5]] else [] }

/-- A blob store whose compaction blob is two chunks of 40 zero bytes and whose
source ends with a non-ok status of message "BOOM". -/
def failingStore : Bytes → Blob := fun _ =>
  { chunks := List.replicate 2 (List.replicate 40 0), status := some [66, 79, 79, 77] }

/-- A backup item with attachment holders `[9]`; its compaction is the blob at
holder `[100]`. -/
def holderItem : BackupItem :=
  { backupID := [1], attachmentHolders := [9], compactionHolder := [100] }

/-- A log with attachment holders `[8]`, stored in the blob store at holder
`[holder]`. -/
def holderLog (holder : Nat) : LogItem :=
  { backupID := [1], logID := [1], persistedInBlob := true, value := [holder],
    attachmentHolders := [8] }

/-! ## The frame packer -/

theorem prepare_of_big (chunkLimit : Nat) (internalBuffer dataChunk : Bytes) (padding : Nat)
    (h : chunkLimit < dataChunk.length) :
    prepareDataChunkWithPadding chunkLimit internalBuffer dataChunk padding
      = (Prepared.thrown Error.chunkBiggerThanLimit, internalBuffer) := by
  simp [prepareDataChunkWithPadding, h]

theorem prepare_of_fit (chunkLimit : Nat) (internalBuffer dataChunk : Bytes) (padding : Nat)
    (hd : dataChunk.length ≤ chunkLimit)
    (h : internalBuffer.length + dataChunk.length + padding ≤ chunkLimit) :
    prepareDataChunkWithPadding chunkLimit internalBuffer dataChunk padding
      = (Prepared.chunk (internalBuffer ++ dataChunk), []) := by
  simp [prepareDataChunkWithPadding, Nat.not_lt.mpr hd, h]

theorem prepare_of_range (chunkLimit : Nat) (internalBuffer dataChunk : Bytes) (padding : Nat)
    (hd : dataChunk.length ≤ chunkLimit)
    (h : ¬ internalBuffer.length + dataChunk.length + padding ≤ chunkLimit)
    (hp : chunkLimit < padding) :
    prepareDataChunkWithPadding chunkLimit internalBuffer dataChunk padding
      = (Prepared.outOfRange, []) := by
  have h3 : internalBuffer.length + dataChunk.length
      < internalBuffer.length + dataChunk.length + padding - chunkLimit := by omega
  simp [prepareDataChunkWithPadding, Nat.not_lt.mpr hd, h, h3]

theorem prepare_of_stash (chunkLimit : Nat) (internalBuffer dataChunk : Bytes) (padding : Nat)
    (hd : dataChunk.length ≤ chunkLimit)
    (h : ¬ internalBuffer.length + dataChunk.length + padding ≤ chunkLimit)
    (hp : padding ≤ chunkLimit) :
    prepareDataChunkWithPadding chunkLimit internalBuffer dataChunk padding
      = (Prepared.chunk ((internalBuffer ++ dataChunk).take (chunkLimit - padding)),
          (internalBuffer ++ dataChunk).drop (chunkLimit - padding)) := by
  have h3 : ¬ internalBuffer.length + dataChunk.length
      < internalBuffer.length + dataChunk.length + padding - chunkLimit := by omega
  have h4 : internalBuffer.length + dataChunk.length
      - (internalBuffer.length + dataChunk.length + padding - chunkLimit)
      = chunkLimit - padding := by omega
  simp [prepareDataChunkWithPadding, Nat.not_lt.mpr hd, h, h3, h4]

theorem prepare64_eq (chunkLimit : Nat) (internalBuffer dataChunk : Bytes) (padding : Nat)
    (h : internalBuffer.length + dataChunk.length + padding < 2 ^ 64) :
    prepareDataChunkWithPadding64 chunkLimit internalBuffer dataChunk padding
      = prepareDataChunkWithPadding chunkLimit internalBuffer dataChunk padding := by
  have hmod : ((internalBuffer ++ dataChunk).length + padding) % 2 ^ 64
      = (internalBuffer ++ dataChunk).length + padding := by
    rw [List.length_append]
    exact Nat.mod_eq_of_lt h
  simp only [prepareDataChunkWithPadding64, prepareDataChunkWithPadding, hmod]

theorem prepare64_of_wrap (chunkLimit : Nat) (internalBuffer dataChunk : Bytes)
    (padding : Nat) (hd : dataChunk.length ≤ chunkLimit) (hl : chunkLimit < 2 ^ 64)
    (hp : padding < 2 ^ 64) (hc : internalBuffer.length + dataChunk.length < 2 ^ 64)
    (h : 2 ^ 64 ≤ internalBuffer.length + dataChunk.length + padding) :
    (prepareDataChunkWithPadding64 chunkLimit internalBuffer dataChunk padding
        = (Prepared.chunk (internalBuffer ++ dataChunk), []) ∧
      chunkLimit < (internalBuffer ++ dataChunk).length + padding) ∨
    (prepareDataChunkWithPadding64 chunkLimit internalBuffer dataChunk padding).1
      = Prepared.thrown Error.incorrectlyCalculated := by
  have hmod : ((internalBuffer ++ dataChunk).length + padding) % 2 ^ 64
      = internalBuffer.length + dataChunk.length + padding - 2 ^ 64 := by
    rw [List.length_append]
    omega
  by_cases hfit : internalBuffer.length + dataChunk.length + padding - 2 ^ 64 ≤ chunkLimit
  · refine Or.inl ⟨?_, ?_⟩
    · simp only [prepareDataChunkWithPadding64, hmod, Nat.not_lt.mpr hd, if_false, hfit,
        if_true, gt_iff_lt]
    · rw [List.length_append]
      omega
  · refine Or.inr ?_
    have h3 : ¬ internalBuffer.length + dataChunk.length + padding - 2 ^ 64 - chunkLimit
        > (internalBuffer ++ dataChunk).length := by
      rw [List.length_append]
      omega
    have h4 : ((internalBuffer ++ dataChunk).take ((internalBuffer ++ dataChunk).length
        - (internalBuffer.length + dataChunk.length + padding - 2 ^ 64 - chunkLimit))).length
        > chunkLimit := by
      rw [List.length_take, List.length_append]
      omega
    simp only [prepareDataChunkWithPadding64, hmod, Nat.not_lt.mpr hd, if_false, hfit,
      h3, h4, if_true, gt_iff_lt]

/-- C8 as stated fails where the sum `chunk.size() + padding` wraps around in
`size_t`. With chunk limit 10: an empty buffer, the chunk `[1, 2]` and padding
`2^64 - 1` give the body `[1, 2]`, whose length plus padding exceeds the chunk
limit; a buffer of 20 bytes, an empty chunk and padding `2^64 - 5` give the
error "new data chunk incorrectly calculated". -/
theorem prepare_size_fails_on_wrap :
    ([1, 2] : Bytes).length ≤ 10 ∧ 2 ^ 64 - 1 < 2 ^ 64 ∧
    prepareDataChunkWithPadding64 10 [] [1, 2] (2 ^ 64 - 1) = (Prepared.chunk [1, 2], []) ∧
    ¬ ([1, 2] : Bytes).length + (2 ^ 64 - 1) ≤ 10 ∧
    ([] : Bytes).length ≤ 10 ∧ 2 ^ 64 - 5 < 2 ^ 64 ∧
    prepareDataChunkWithPadding64 10 (List.range 20) [] (2 ^ 64 - 5)
      = (Prepared.thrown Error.incorrectlyCalculated, [15, 16, 17, 18, 19]) := by
  refine ⟨by decide, by decide, by decide, by decide, by decide, by decide, by decide⟩

/-- C8, amended: for every internal buffer, every incoming chunk no longer than
the chunk limit and every padding for which the sum of the sizes of buffer and
chunk and the padding stays below `2^64` (the sum does not wrap around in
`size_t`), a body returned by the packer satisfies body length plus padding at
most the chunk limit and body length at most the chunk limit, and the error
"new data chunk incorrectly calculated" is not the result. -/
theorem prepare_size_postcondition (chunkLimit : Nat) (internalBuffer dataChunk : Bytes)
    (padding : Nat) (hd : dataChunk.length ≤ chunkLimit)
    (hsum : internalBuffer.length + dataChunk.length + padding < 2 ^ 64) :
    (∀ body buffer,
        prepareDataChunkWithPadding64 chunkLimit internalBuffer dataChunk padding
          = (Prepared.chunk body, buffer) →
        body.length + padding ≤ chunkLimit ∧ body.length ≤ chunkLimit) ∧
    (prepareDataChunkWithPadding64 chunkLimit internalBuffer dataChunk padding).1
      ≠ Prepared.thrown Error.incorrectlyCalculated := by
  rw [prepare64_eq _ _ _ _ hsum]
  by_cases h : internalBuffer.length + dataChunk.length + padding ≤ chunkLimit
  · rw [prepare_of_fit _ _ _ _ hd h]
    refine ⟨fun body buffer hb => ?_, by simp⟩
    simp only [Prod.mk.injEq, Prepared.chunk.injEq] at hb
    rw [← hb.1, List.length_append]
    omega
  · by_cases hp : padding ≤ chunkLimit
    · rw [prepare_of_stash _ _ _ _ hd h hp]
      refine ⟨fun body buffer hb => ?_, by simp⟩
      simp only [Prod.mk.injEq, Prepared.chunk.injEq] at hb
      rw [← hb.1, List.length_take, List.length_append]
      omega
    · rw [prepare_of_range _ _ _ _ hd h (by omega)]
      exact ⟨fun body buffer hb => by simp at hb, by simp⟩

/-- C8, amended (witness): chunk limit 10, buffer of 3 bytes, chunk of 7 bytes,
padding 4: the sum 14 does not wrap, and the body is the first 6 bytes. -/
theorem prepare_size_postcondition_witness :
    ([4, 5, 6, 7, 8, 9, 10] : Bytes).length ≤ 10 ∧
    ([1, 2, 3] : Bytes).length + ([4, 5, 6, 7, 8, 9, 10] : Bytes).length + 4 < 2 ^ 64 ∧
    prepareDataChunkWithPadding64 10 [1, 2, 3] [4, 5, 6, 7, 8, 9, 10] 4
      = (Prepared.chunk [1, 2, 3, 4, 5, 6], [7, 8, 9, 10]) ∧
    ([1, 2, 3, 4, 5, 6] : Bytes).length + 4 ≤ 10 ∧ ([1, 2, 3, 4, 5, 6] : Bytes).length ≤ 10 :=
  ⟨by decide, by decide, by decide,
    (prepare_size_postcondition 10 [1, 2, 3] [4, 5, 6, 7, 8, 9, 10] 4 (by decide)
      (by decide)).1 [1, 2, 3, 4, 5, 6] [7, 8, 9, 10] (by decide)⟩

/-- C9: for an incoming chunk and a padding no larger than the chunk limit,
`prepareDataChunkWithPadding` returns a body and leaves a buffer whose
concatenation is the old buffer followed by the chunk; when everything fits
the body is all of it and the buffer is empty, otherwise the buffer holds the
overflow and the body has chunk limit minus padding bytes. -/
theorem prepare_conserves_bytes (chunkLimit : Nat) (internalBuffer dataChunk : Bytes)
    (padding : Nat) (hd : dataChunk.length ≤ chunkLimit) (hp : padding ≤ chunkLimit) :
    ∃ body buffer,
      prepareDataChunkWithPadding chunkLimit internalBuffer dataChunk padding
        = (Prepared.chunk body, buffer) ∧
      body ++ buffer = internalBuffer ++ dataChunk ∧
      (internalBuffer.length + dataChunk.length + padding ≤ chunkLimit →
        body = internalBuffer ++ dataChunk ∧ buffer = []) ∧
      (¬ internalBuffer.length + dataChunk.length + padding ≤ chunkLimit →
        buffer.length = internalBuffer.length + dataChunk.length + padding - chunkLimit ∧
        body.length = chunkLimit - padding) := by
  by_cases h : internalBuffer.length + dataChunk.length + padding ≤ chunkLimit
  · exact ⟨_, _, prepare_of_fit _ _ _ _ hd h, by simp, fun _ => ⟨rfl, rfl⟩, fun h2 => absurd h h2⟩
  · refine ⟨_, _, prepare_of_stash _ _ _ _ hd h hp, List.take_append_drop _ _,
      fun h2 => absurd h2 h, fun _ => ?_⟩
    simp only [List.length_drop, List.length_take, List.length_append]
    omega

/-- C9 (witness): chunk limit 10, buffer of 3 bytes, chunk of 7 bytes, padding
4. -/
theorem prepare_conserves_bytes_witness :
    ∃ body buffer,
      prepareDataChunkWithPadding 10 [1, 2, 3] [4, 5, 6, 7, 8, 9, 10] 4
        = (Prepared.chunk body, buffer) ∧
      body ++ buffer = [1, 2, 3] ++ [4, 5, 6, 7, 8, 9, 10] ∧
      (([1, 2, 3] : Bytes).length + ([4, 5, 6, 7, 8, 9, 10] : Bytes).length + 4 ≤ 10 →
        body = [1, 2, 3] ++ [4, 5, 6, 7, 8, 9, 10] ∧ buffer = []) ∧
      (¬ ([1, 2, 3] : Bytes).length + ([4, 5, 6, 7, 8, 9, 10] : Bytes).length + 4 ≤ 10 →
        buffer.length
          = ([1, 2, 3] : Bytes).length + ([4, 5, 6, 7, 8, 9, 10] : Bytes).length + 4 - 10 ∧
        body.length = 10 - 4) :=
  prepare_conserves_bytes 10 [1, 2, 3] [4, 5, 6, 7, 8, 9, 10] 4 (by decide) (by decide)

theorem prepare_of_small (chunkLimit : Nat) (internalBuffer dataChunk : Bytes) (padding : Nat)
    (hd : dataChunk.length ≤ chunkLimit) :
    (∃ body, (prepareDataChunkWithPadding chunkLimit internalBuffer dataChunk padding).1
        = Prepared.chunk body) ∨
    (prepareDataChunkWithPadding chunkLimit internalBuffer dataChunk padding).1
        = Prepared.outOfRange := by
  by_cases h : internalBuffer.length + dataChunk.length + padding ≤ chunkLimit
  · exact Or.inl ⟨_, by rw [prepare_of_fit _ _ _ _ hd h]⟩
  · by_cases hp : padding ≤ chunkLimit
    · exact Or.inl ⟨_, by rw [prepare_of_stash _ _ _ _ hd h hp]⟩
    · exact Or.inr (by rw [prepare_of_range _ _ _ _ hd h (by omega)])

/-- C10: `prepareDataChunkWithPadding` throws "received data chunk bigger than
the chunk limit" exactly when the incoming chunk is longer than the chunk
limit, whatever the internal buffer, and then leaves the internal buffer
unchanged. -/
theorem prepare_rejects_big_chunk (chunkLimit : Nat) (internalBuffer dataChunk : Bytes)
    (padding : Nat) :
    ((prepareDataChunkWithPadding chunkLimit internalBuffer dataChunk padding).1
        = Prepared.thrown Error.chunkBiggerThanLimit ↔ chunkLimit < dataChunk.length) ∧
    (chunkLimit < dataChunk.length →
      (prepareDataChunkWithPadding chunkLimit internalBuffer dataChunk padding).2
        = internalBuffer) := by
  refine ⟨⟨fun h => ?_, fun h => by rw [prepare_of_big _ _ _ _ h]⟩,
    fun h => by rw [prepare_of_big _ _ _ _ h]⟩
  by_contra hd
  rcases prepare_of_small chunkLimit internalBuffer dataChunk padding (Nat.not_lt.mp hd) with
    ⟨body, hb⟩ | hr
  · rw [hb] at h
    exact Prepared.noConfusion h
  · rw [hr] at h
    exact Prepared.noConfusion h

/-- C10 (witness): chunk limit 2 and a chunk of 3 bytes: the error is thrown and
the one-byte buffer is kept. -/
theorem prepare_rejects_big_chunk_witness :
    (prepareDataChunkWithPadding 2 [7] [1, 2, 3] 0).1
        = Prepared.thrown Error.chunkBiggerThanLimit ∧
      (prepareDataChunkWithPadding 2 [7] [1, 2, 3] 0).2 = [7] :=
  ⟨(prepare_rejects_big_chunk 2 [7] [1, 2, 3] 0).1.mpr (by decide),
    (prepare_rejects_big_chunk 2 [7] [1, 2, 3] 0).2 (by decide)⟩

/-! ## What one call of `writeResponse` can have done when it returns `nullptr` -/

theorem packLogChunk_nullptr {env : Env} {r : PullBackupResponse} {e : Nat} {d : Bytes}
    {s : Reactor} {f : PullBackupResponse} {s' : Reactor}
    (h : packLogChunk env r e d s = (Outcome.nullptr f, s')) :
    ∃ body buffer,
      prepareDataChunkWithPadding env.chunkLimit s.internalBuffer d e
        = (Prepared.chunk body, buffer) ∧
      ((body = [] ∧ f = r ∧ ∃ log, s.currentLog = some log ∧
          s' = { s with endOfQueue := false, internalBuffer := buffer,
                        currentLogIndex := s.currentLogIndex + 1,
                        previousLogID := log.logID, currentLog := none }) ∨
       (body ≠ [] ∧ f = { r with logChunk := body } ∧
          s' = { s with endOfQueue := s.endOfQueue || d.length == 0,
                        internalBuffer := buffer })) := by
  simp only [packLogChunk, nextLog] at h
  rcases hp : prepareDataChunkWithPadding env.chunkLimit s.internalBuffer d e with ⟨p, buffer⟩
  rw [hp] at h
  cases p with
  | thrown e => simp at h
  | outOfRange => simp at h
  | chunk body =>
    refine ⟨body, buffer, rfl, ?_⟩
    cases hg : s.getReactor with
    | none => simp [hg] at h
    | some g =>
      cases hs : g.status with
      | some m => simp [hg, hs] at h
      | none =>
        cases hc : s.currentLog with
        | none =>
          by_cases hb : body = [] <;> simp [hg, hs, hc, hb] at h
          exact Or.inr ⟨hb, h.1.symm, h.2.symm⟩
        | some log =>
          by_cases hb : body = [] <;> simp [hg, hs, hc, hb] at h
          · exact Or.inl ⟨hb, h.1.symm, log, rfl, h.2.symm⟩
          · exact Or.inr ⟨hb, h.1.symm, by rw [← h.2]⟩


theorem writeLogChunk_nullptr {env : Env} {r : PullBackupResponse} {e : Nat} {log : LogItem}
    {s : Reactor} {f : PullBackupResponse} {s' : Reactor}
    (h : writeLogChunk env r e log s = (Outcome.nullptr f, s')) :
    ∃ d s1,
      ((s.internalBuffer.length < env.chunkLimit ∧ s.endOfQueue = false ∧
          ∃ rest, s.dataChunks = d :: rest ∧ s1 = { s with dataChunks := rest }) ∨
       (¬ (s.internalBuffer.length < env.chunkLimit ∧ s.endOfQueue = false) ∧
          d = [] ∧ s1 = s)) ∧
      packLogChunk env { r with backupID := log.backupID, logID := log.logID } e d s1
        = (Outcome.nullptr f, s') := by
  simp only [writeLogChunk] at h
  split at h
  · rename_i hc
    cases hq : s.dataChunks with
    | nil => simp [hq] at h
    | cons d rest =>
      simp only [hq] at h
      exact ⟨d, _, Or.inl ⟨hc.1, hc.2, rest, rfl, rfl⟩, h⟩
  · rename_i hc
    exact ⟨[], s, Or.inr ⟨hc, rfl, rfl⟩, h⟩

theorem writeLogs_nullptr {env : Env} {r : PullBackupResponse} {e : Nat}
    {s : Reactor} {f : PullBackupResponse} {s' : Reactor}
    (h : writeLogs env r e s = (Outcome.nullptr f, s')) :
    s.logs ≠ [] ∧
    ((s.currentLogIndex = s.logs.length ∧ s.dataChunks = [] ∧ s.internalBuffer ≠ [] ∧
        f = { r with logID := s.previousLogID, logChunk := s.internalBuffer } ∧
        s' = { s with internalBuffer := [] }) ∨
     (s.currentLogIndex < s.logs.length ∧ s.currentLog = none ∧
        ∃ log, s.logs[s.currentLogIndex]? = some log ∧ log.persistedInBlob = false ∧
          f = { r with attachmentHolders := log.attachmentHolders, logID := log.logID,
                       logChunk := log.value } ∧
          s' = { s with currentLogIndex := s.currentLogIndex + 1, previousLogID := log.logID,
                        currentLog := none, endOfQueue := false }) ∨
     (s.currentLogIndex < s.logs.length ∧ s.currentLog = none ∧
        ∃ log s1, s.logs[s.currentLogIndex]? = some log ∧ log.persistedInBlob = true ∧
          initializeGetReactor env { s with currentLog := some log } log.value = Except.ok s1 ∧
          writeLogChunk env { r with attachmentHolders := log.attachmentHolders }
            (e + env.FIELD_LOG_ID.length + log.logID.length
              + env.LOG_FIELD_ATTACHMENT_HOLDERS.length + log.attachmentHolders.length)
            log s1 = (Outcome.nullptr f, s')) ∨
     (s.currentLogIndex < s.logs.length ∧
        ∃ log, s.currentLog = some log ∧
          writeLogChunk env r (e + env.FIELD_LOG_ID.length + log.logID.length) log s
            = (Outcome.nullptr f, s'))) := by
  simp only [writeLogs] at h
  by_cases h0 : s.logs = []
  · simp [h0] at h
  refine ⟨h0, ?_⟩
  simp only [h0, if_false] at h
  by_cases h1 : s.currentLogIndex = s.logs.length
  · rw [if_pos h1] at h
    by_cases h2 : s.dataChunks = []
    · by_cases h3 : s.internalBuffer = []
      · simp [h2, h3] at h
      · rw [if_neg (not_not.mpr h2), if_pos h3] at h
        simp only [Prod.mk.injEq, Outcome.nullptr.injEq] at h
        exact Or.inl ⟨h1, h2, h3, h.1.symm, h.2.symm⟩
    · simp [h2] at h
  · simp only [h1, if_false] at h
    by_cases h2 : s.currentLogIndex > s.logs.length
    · simp [h2] at h
    · simp only [h2, if_false] at h
      have hlt : s.currentLogIndex < s.logs.length := by omega
      cases hc : s.currentLog with
      | some log =>
        simp only [hc] at h
        exact Or.inr (Or.inr (Or.inr ⟨hlt, log, rfl, h⟩))
      | none =>
        simp only [hc] at h
        cases hl : s.logs[s.currentLogIndex]? with
        | none => simp [hl] at h
        | some log =>
          simp only [hl] at h
          cases hp : log.persistedInBlob with
          | true =>
            simp only [hp, if_true] at h
            split at h
            · simp at h
            · rename_i s1 hi
              exact Or.inr (Or.inr (Or.inl ⟨hlt, rfl, log, s1, rfl, hp, hi, h⟩))
          | false =>
            simp only [hp, nextLog] at h
            simp only [Bool.false_eq_true, if_false, Prod.mk.injEq, Outcome.nullptr.injEq] at h
            exact Or.inr (Or.inl ⟨hlt, rfl, log, rfl, hp, h.1.symm, h.2.symm⟩)


theorem initializeGetReactor_ok {env : Env} {s : Reactor} {holder : Bytes} {s1 : Reactor}
    (h : initializeGetReactor env s holder = Except.ok s1) :
    s.backupItem ≠ none ∧
    s1 = { s with
      getReactor := some { holder := holder, status := (env.blobGet holder).status },
      dataChunks := s.dataChunks ++ (env.blobGet holder).chunks ++ [[]] } := by
  simp only [initializeGetReactor] at h
  cases hb : s.backupItem with
  | none => simp [hb] at h
  | some item =>
    simp only [hb, Except.ok.injEq] at h
    exact ⟨by simp, by rw [← h]⟩

theorem packCompaction_nullptr {env : Env} {r : PullBackupResponse} {e : Nat} {d : Bytes}
    {s : Reactor} {f : PullBackupResponse} {s' : Reactor}
    (h : packCompaction env r e d s = (Outcome.nullptr f, s')) :
    ((d ≠ [] ∨ s.internalBuffer.length + e ≥ env.chunkLimit) ∧
      ∃ body buffer,
        prepareDataChunkWithPadding env.chunkLimit s.internalBuffer d e
          = (Prepared.chunk body, buffer) ∧
        f = { r with compactionChunk := body } ∧ s' = { s with internalBuffer := buffer }) ∨
    (¬ (d ≠ [] ∨ s.internalBuffer.length + e ≥ env.chunkLimit) ∧ s.dataChunks = [] ∧
      (∃ g, s.getReactor = some g ∧ g.status = none) ∧
      ((s.internalBuffer ≠ [] ∧ f = { r with compactionChunk := s.internalBuffer } ∧
          s' = { s with state := State.LOGS, internalBuffer := [] }) ∨
       (s.internalBuffer = [] ∧
          writeLogs env r e { s with state := State.LOGS } = (Outcome.nullptr f, s')))) := by
  simp only [packCompaction] at h
  by_cases hc : d ≠ [] ∨ s.internalBuffer.length + e ≥ env.chunkLimit
  · rw [if_pos hc] at h
    refine Or.inl ⟨hc, ?_⟩
    rcases hp : prepareDataChunkWithPadding env.chunkLimit s.internalBuffer d e with ⟨p, buffer⟩
    rw [hp] at h
    cases p with
    | thrown e => simp at h
    | outOfRange => simp at h
    | chunk body =>
      simp only [Prod.mk.injEq, Outcome.nullptr.injEq] at h
      exact ⟨body, buffer, rfl, h.1.symm, h.2.symm⟩
  · rw [if_neg hc] at h
    by_cases hq : s.dataChunks = []
    · rw [if_neg (not_not.mpr hq)] at h
      refine Or.inr ⟨hc, hq, ?_⟩
      cases hg : s.getReactor with
      | none => simp [hg] at h
      | some g =>
        cases hs : g.status with
        | some m => simp [hg, hs] at h
        | none =>
          refine ⟨⟨g, rfl, hs⟩, ?_⟩
          by_cases hb : s.internalBuffer = []
          · simp only [hg, hs, hb, ne_eq, not_true_eq_false, if_false] at h
            refine Or.inr ⟨hb, ?_⟩
            rw [← h, hb]
          · simp only [hg, hs] at h
            rw [if_pos hb] at h
            simp only [Prod.mk.injEq, Outcome.nullptr.injEq] at h
            refine Or.inl ⟨hb, h.1.symm, ?_⟩
            rw [← h.2]
    · simp [hq] at h

theorem readCompaction_nullptr {env : Env} {r : PullBackupResponse} {e : Nat}
    {s : Reactor} {f : PullBackupResponse} {s' : Reactor}
    (h : readCompaction env r e s = (Outcome.nullptr f, s')) :
    ∃ d s1,
      ((s.internalBuffer.length < env.chunkLimit ∧
          ∃ rest, s.dataChunks = d :: rest ∧ s1 = { s with dataChunks := rest }) ∨
       (¬ s.internalBuffer.length < env.chunkLimit ∧ d = [] ∧ s1 = s)) ∧
      packCompaction env r e d s1 = (Outcome.nullptr f, s') := by
  simp only [readCompaction] at h
  split at h
  · rename_i hc
    cases hq : s.dataChunks with
    | nil => simp [hq] at h
    | cons d rest =>
      simp only [hq] at h
      exact ⟨d, _, Or.inl ⟨hc, rest, rfl, rfl⟩, h⟩
  · rename_i hc
    exact ⟨[], s, Or.inr ⟨hc, rfl, rfl⟩, h⟩

theorem writeCompaction_nullptr {env : Env}
    {s : Reactor} {f : PullBackupResponse} {s' : Reactor}
    (h : writeCompaction env s = (Outcome.nullptr f, s')) :
    ∃ item, s.backupItem = some item ∧
      ((s.getReactor = none ∧ ∃ s1,
          initializeGetReactor env s item.compactionHolder = Except.ok s1 ∧
          readCompaction env
            { PullBackupResponse.fresh with
              backupID := item.backupID, attachmentHolders := item.attachmentHolders }
            (env.FIELD_BACKUP_ID.length + item.backupID.length
              + env.FIELD_ATTACHMENT_HOLDERS.length + item.attachmentHolders.length) s1
            = (Outcome.nullptr f, s')) ∨
       (s.getReactor ≠ none ∧
          readCompaction env { PullBackupResponse.fresh with backupID := item.backupID }
            (env.FIELD_BACKUP_ID.length + item.backupID.length) s
            = (Outcome.nullptr f, s'))) := by
  simp only [writeCompaction] at h
  cases hb : s.backupItem with
  | none => simp [hb] at h
  | some item =>
    refine ⟨item, rfl, ?_⟩
    simp only [hb] at h
    cases hg : s.getReactor with
    | none =>
      simp only [hg] at h
      split at h
      · simp at h
      · rename_i s1 hi
        exact Or.inl ⟨rfl, s1, hi, h⟩
    | some g =>
      simp only [hg] at h
      exact Or.inr ⟨by simp, h⟩

theorem writeLogChunk_frame {env : Env} {r : PullBackupResponse} {e : Nat} {log : LogItem}
    {s : Reactor} {f : PullBackupResponse} {s' : Reactor}
    (h : writeLogChunk env r e log s = (Outcome.nullptr f, s')) :
    ∃ d queue body buffer,
      ((s.internalBuffer.length < env.chunkLimit ∧ s.endOfQueue = false ∧
          s.dataChunks = d :: queue) ∨
       (¬ (s.internalBuffer.length < env.chunkLimit ∧ s.endOfQueue = false) ∧
          d = [] ∧ queue = s.dataChunks)) ∧
      prepareDataChunkWithPadding env.chunkLimit s.internalBuffer d e
        = (Prepared.chunk body, buffer) ∧
      ((body = [] ∧ f = { r with backupID := log.backupID, logID := log.logID } ∧
          ∃ current, s.currentLog = some current ∧
            s' = { s with dataChunks := queue, endOfQueue := false, internalBuffer := buffer,
                          currentLogIndex := s.currentLogIndex + 1,
                          previousLogID := current.logID, currentLog := none }) ∨
       (body ≠ [] ∧
          f = { r with backupID := log.backupID, logID := log.logID, logChunk := body } ∧
          s' = { s with dataChunks := queue,
                        endOfQueue := s.endOfQueue || d.length == 0,
                        internalBuffer := buffer })) := by
  obtain ⟨d, s1, hread, hpack⟩ := writeLogChunk_nullptr h
  obtain ⟨body, buffer, hprep, hout⟩ := packLogChunk_nullptr hpack
  rcases hread with ⟨h1, h2, rest, hq, rfl⟩ | ⟨h1, rfl, rfl⟩
  · refine ⟨d, rest, body, buffer, Or.inl ⟨h1, h2, hq⟩, hprep, ?_⟩
    rcases hout with ⟨hb, hf, current, hc, hs⟩ | ⟨hb, hf, hs⟩
    · exact Or.inl ⟨hb, hf, current, hc, hs⟩
    · exact Or.inr ⟨hb, hf, hs⟩
  · refine ⟨[], s1.dataChunks, body, buffer, Or.inr ⟨h1, rfl, rfl⟩, hprep, ?_⟩
    rcases hout with ⟨hb, hf, current, hc, hs⟩ | ⟨hb, hf, hs⟩
    · exact Or.inl ⟨hb, hf, current, hc, hs⟩
    · exact Or.inr ⟨hb, hf, hs⟩

theorem servedLogIndex_of_lt {s : Reactor} (h : s.currentLogIndex < s.logs.length) :
    servedLogIndex s = s.currentLogIndex := by
  unfold servedLogIndex
  omega

theorem writeLogChunk_step {env : Env} {r : PullBackupResponse} {e : Nat} {log : LogItem}
    {s : Reactor} {f : PullBackupResponse} {s' : Reactor}
    (h : writeLogChunk env r e log s = (Outcome.nullptr f, s'))
    (hlt : s.currentLogIndex < s.logs.length)
    (hcur : s.currentLog = some log) (hlog : s.logs[s.currentLogIndex]? = some log)
    (hprev : 0 < s.currentLogIndex →
      ∃ l, s.logs[s.currentLogIndex - 1]? = some l ∧ s.previousLogID = l.logID) :
    LogCursorInv s' ∧ s'.logs = s.logs ∧ s'.state = s.state ∧
      s.currentLogIndex ≤ s'.currentLogIndex ∧ f.compactionChunk = r.compactionChunk ∧
      f.logID = log.logID := by
  obtain ⟨d, queue, body, buffer, -, -, hout⟩ := writeLogChunk_frame h
  rcases hout with ⟨-, rfl, current, hc, rfl⟩ | ⟨-, rfl, rfl⟩
  · rw [hcur] at hc
    cases hc
    refine ⟨⟨?_, ?_, ?_⟩, rfl, rfl, Nat.le_succ _, rfl, rfl⟩
    · exact hlt
    · intro l hl
      cases hl
    · intro _
      exact ⟨log, hlog, rfl⟩
  · exact ⟨⟨Nat.le_of_lt hlt, fun l hl => by rw [← hl]; exact hcur ▸ hlog, hprev⟩,
      rfl, rfl, Nat.le_refl _, rfl, rfl⟩


theorem logCursorInv_of_eq {s t : Reactor} (h : LogCursorInv s) (h1 : t.logs = s.logs)
    (h2 : t.currentLogIndex = s.currentLogIndex) (h3 : t.currentLog = s.currentLog)
    (h4 : t.previousLogID = s.previousLogID) : LogCursorInv t := by
  unfold LogCursorInv at *
  rw [h1, h2, h3, h4]
  exact h

theorem writeLogs_step {env : Env} {r : PullBackupResponse} {e : Nat}
    {s : Reactor} {f : PullBackupResponse} {s' : Reactor}
    (hinv : LogCursorInv s) (h : writeLogs env r e s = (Outcome.nullptr f, s')) :
    LogCursorInv s' ∧ s'.logs = s.logs ∧ s'.state = s.state ∧
      s.currentLogIndex ≤ s'.currentLogIndex ∧ f.compactionChunk = r.compactionChunk ∧
      ∃ log, s.logs[servedLogIndex s]? = some log ∧ f.logID = log.logID := by
  obtain ⟨h0, hcases⟩ := writeLogs_nullptr h
  obtain ⟨hle, hcur, hprev⟩ := hinv
  rcases hcases with ⟨hidx, -, -, rfl, rfl⟩ | ⟨hlt, hnone, log, hlog, -, rfl, rfl⟩ |
      ⟨hlt, hnone, log, s1, hlog, -, hinit, hchunk⟩ | ⟨hlt, log, hsome, hchunk⟩
  · have hpos : 0 < s.currentLogIndex := by
      rw [hidx]
      exact List.length_pos.mpr h0
    obtain ⟨l, hl, hid⟩ := hprev hpos
    refine ⟨⟨hle, hcur, hprev⟩, rfl, rfl, Nat.le_refl _, rfl, l, ?_, hid⟩
    have : servedLogIndex s = s.currentLogIndex - 1 := by
      unfold servedLogIndex
      omega
    rw [this]
    exact hl
  · refine ⟨⟨hlt, ?_, fun _ => ⟨log, hlog, rfl⟩⟩, rfl, rfl,
      Nat.le_succ _, rfl, log, ?_, rfl⟩
    · intro l hl
      cases hl
    · rw [servedLogIndex_of_lt hlt]
      exact hlog
  · obtain ⟨-, rfl⟩ := initializeGetReactor_ok hinit
    obtain ⟨hi, hl, hs, hm, hc, hid⟩ := writeLogChunk_step hchunk hlt rfl hlog hprev
    refine ⟨hi, hl, hs, hm, hc, log, ?_, hid⟩
    rw [servedLogIndex_of_lt hlt]
    exact hlog
  · obtain ⟨hi, hl, hs, hm, hc, hid⟩ :=
      writeLogChunk_step hchunk hlt hsome (hcur log hsome) hprev
    refine ⟨hi, hl, hs, hm, hc, log, ?_, hid⟩
    rw [servedLogIndex_of_lt hlt]
    exact hcur log hsome

theorem writeCompaction_step {env : Env}
    {s : Reactor} {f : PullBackupResponse} {s' : Reactor}
    (hinv : LogCursorInv s) (h : writeCompaction env s = (Outcome.nullptr f, s')) :
    LogCursorInv s' ∧ s'.logs = s.logs ∧ s.currentLogIndex ≤ s'.currentLogIndex ∧
      ((f.logID = [] ∧ f.logChunk = []) ∨
       (s'.state = State.LOGS ∧ f.compactionChunk = [] ∧
          ∃ log, s.logs[servedLogIndex s]? = some log ∧ f.logID = log.logID)) := by
  obtain ⟨item, -, hcases⟩ := writeCompaction_nullptr h
  have key : ∀ (r : PullBackupResponse) (e : Nat) (t : Reactor),
      readCompaction env r e t = (Outcome.nullptr f, s') →
      r.logID = [] → r.logChunk = [] → r.compactionChunk = [] →
      t.logs = s.logs → t.currentLogIndex = s.currentLogIndex →
      t.currentLog = s.currentLog → t.previousLogID = s.previousLogID →
      LogCursorInv s' ∧ s'.logs = s.logs ∧ s.currentLogIndex ≤ s'.currentLogIndex ∧
      ((f.logID = [] ∧ f.logChunk = []) ∨
       (s'.state = State.LOGS ∧ f.compactionChunk = [] ∧
          ∃ log, s.logs[servedLogIndex s]? = some log ∧ f.logID = log.logID)) := by
    intro r e t hread hr1 hr2 hr3 ht1 ht2 ht3 ht4
    obtain ⟨d, t1, hq, hpack⟩ := readCompaction_nullptr hread
    have ht1' : t1.logs = s.logs ∧ t1.currentLogIndex = s.currentLogIndex ∧
        t1.currentLog = s.currentLog ∧ t1.previousLogID = s.previousLogID := by
      rcases hq with ⟨-, rest, -, rfl⟩ | ⟨-, -, rfl⟩
      · exact ⟨ht1, ht2, ht3, ht4⟩
      · exact ⟨ht1, ht2, ht3, ht4⟩
    obtain ⟨hu1, hu2, hu3, hu4⟩ := ht1'
    rcases packCompaction_nullptr hpack with
      ⟨-, body, buffer, -, rfl, rfl⟩ | ⟨-, -, -, ⟨-, rfl, rfl⟩ | ⟨-, hlogs⟩⟩
    · exact ⟨logCursorInv_of_eq hinv hu1 hu2 hu3 hu4, hu1, Nat.le_of_eq hu2.symm,
        Or.inl ⟨hr1, hr2⟩⟩
    · exact ⟨logCursorInv_of_eq hinv hu1 hu2 hu3 hu4, hu1, Nat.le_of_eq hu2.symm,
        Or.inl ⟨hr1, hr2⟩⟩
    · have hinv1 : LogCursorInv { t1 with state := State.LOGS } :=
        logCursorInv_of_eq hinv hu1 hu2 hu3 hu4
      obtain ⟨hi, hl, hs, hm, hc, log, hlog, hid⟩ := writeLogs_step hinv1 hlogs
      have hserved : servedLogIndex { t1 with state := State.LOGS } = servedLogIndex s := by
        unfold servedLogIndex
        simp only [hu1, hu2]
      rw [hserved] at hlog
      refine ⟨hi, hl.trans hu1, ?_, Or.inr ⟨hs, hc.trans hr3, log, ?_, hid⟩⟩
      · exact hu2 ▸ hm
      · simpa only [hu1] using hlog
  rcases hcases with ⟨-, s1, hinit, hread⟩ | ⟨-, hread⟩
  · obtain ⟨-, rfl⟩ := initializeGetReactor_ok hinit
    exact key _ _ _ hread rfl rfl rfl rfl rfl rfl rfl
  · exact key _ _ _ hread rfl rfl rfl rfl rfl rfl rfl

theorem nextLog_some {s t : Reactor} (h : nextLog s = some t) :
    ∃ log, s.currentLog = some log ∧
      t = { s with currentLogIndex := s.currentLogIndex + 1, previousLogID := log.logID,
                   currentLog := none, endOfQueue := false } := by
  simp only [nextLog] at h
  cases hc : s.currentLog with
  | none => simp [hc] at h
  | some log =>
    simp only [hc, Option.some.injEq] at h
    exact ⟨log, rfl, h.symm⟩

theorem nextLog_state {s t : Reactor} (h : nextLog s = some t) : t.state = s.state := by
  obtain ⟨log, -, rfl⟩ := nextLog_some h
  rfl

theorem initializeGetReactor_state {env : Env} {s t : Reactor} {holder : Bytes}
    (h : initializeGetReactor env s holder = Except.ok t) : t.state = s.state := by
  obtain ⟨-, rfl⟩ := initializeGetReactor_ok h
  rfl

theorem packLogChunk_state (env : Env) (r : PullBackupResponse) (e : Nat) (d : Bytes)
    (s : Reactor) : (packLogChunk env r e d s).2.state = s.state := by
  simp only [packLogChunk]
  repeat' split
  all_goals first
    | rfl
    | (have hnext := nextLog_state (by assumption); exact hnext)

theorem writeLogChunk_state (env : Env) (r : PullBackupResponse) (e : Nat) (log : LogItem)
    (s : Reactor) : (writeLogChunk env r e log s).2.state = s.state := by
  simp only [writeLogChunk]
  split
  · split
    · rfl
    · rw [packLogChunk_state]
  · rw [packLogChunk_state]

theorem writeLogs_state (env : Env) (r : PullBackupResponse) (e : Nat)
    (s : Reactor) : (writeLogs env r e s).2.state = s.state := by
  simp only [writeLogs]
  repeat' split
  all_goals first
    | rfl
    | (have hnext := nextLog_state (by assumption); exact hnext)
    | (rw [writeLogChunk_state]
       try (have hinit := initializeGetReactor_state (by assumption); exact hinit))

theorem writeResponse_step {env : Env} {s : Reactor} {f : PullBackupResponse} {s' : Reactor}
    (hinv : LogCursorInv s) (h : writeResponse env s = (Outcome.nullptr f, s')) :
    LogCursorInv s' ∧ s'.logs = s.logs ∧ s.currentLogIndex ≤ s'.currentLogIndex ∧
      (s.state = State.LOGS → s'.state = State.LOGS ∧ f.compactionChunk = []) ∧
      ((f.logID = [] ∧ f.logChunk = []) ∨
       (s'.state = State.LOGS ∧ f.compactionChunk = [] ∧
          ∃ log, s.logs[servedLogIndex s]? = some log ∧ f.logID = log.logID)) := by
  simp only [writeResponse] at h
  cases hs : s.state with
  | COMPACTION =>
    simp only [hs] at h
    obtain ⟨h1, h2, h3, h4⟩ := writeCompaction_step hinv h
    exact ⟨h1, h2, h3, fun hc => State.noConfusion hc, h4⟩
  | LOGS =>
    simp only [hs] at h
    obtain ⟨h1, h2, h3, h4, h5, h6⟩ := writeLogs_step hinv h
    exact ⟨h1, h2, h4, fun _ => ⟨h3.trans hs, h5⟩, Or.inr ⟨h3.trans hs, h5, h6⟩⟩

/-! ## Runs of the write loop -/

theorem writeLoop_succ (env : Env) (n : Nat) (s : Reactor) :
    (writeLoop env (n + 1) s).1 = [] ∨
    ∃ f s', writeResponse env s = (Outcome.nullptr f, s') ∧
      (writeLoop env (n + 1) s).1 = f :: (writeLoop env n s').1 := by
  rcases hw : writeResponse env s with ⟨o, s'⟩
  cases o with
  | nullptr f => exact Or.inr ⟨f, s', rfl, by simp only [writeLoop, hw]⟩
  | statusOK => exact Or.inl (by simp only [writeLoop, hw])
  | thrown e => exact Or.inl (by simp only [writeLoop, hw])
  | blocked => exact Or.inl (by simp only [writeLoop, hw])
  | undefined => exact Or.inl (by simp only [writeLoop, hw])

theorem logs_run_no_compaction (env : Env) :
    ∀ (n : Nat) (s : Reactor), LogCursorInv s → s.state = State.LOGS →
      ∀ f ∈ (writeLoop env n s).1, f.compactionChunk = [] := by
  intro n
  induction n with
  | zero =>
    intro s _ _ f hf
    simp [writeLoop] at hf
  | succ n ih =>
    intro s hinv hs f hf
    rcases writeLoop_succ env n s with hnil | ⟨g, s', hw, hcons⟩
    · rw [hnil] at hf
      cases hf
    · rw [hcons] at hf
      obtain ⟨hinv', -, -, hlogs, -⟩ := writeResponse_step hinv hw
      rcases List.mem_cons.mp hf with rfl | hmem
      · exact (hlogs hs).2
      · exact ih s' hinv' (hlogs hs).1 f hmem

theorem run_compaction_first (env : Env) :
    ∀ (n : Nat) (s : Reactor), LogCursorInv s →
      List.Pairwise (fun a b => b.compactionChunk ≠ [] → a.logID = [] ∧ a.logChunk = [])
        (writeLoop env n s).1 := by
  intro n
  induction n with
  | zero =>
    intro s _
    simp [writeLoop]
  | succ n ih =>
    intro s hinv
    rcases writeLoop_succ env n s with hnil | ⟨g, s', hw, hcons⟩
    · rw [hnil]
      exact List.Pairwise.nil
    · rw [hcons]
      obtain ⟨hinv', -, -, -, hkind⟩ := writeResponse_step hinv hw
      refine List.Pairwise.cons ?_ (ih s' hinv')
      intro b hb hne
      rcases hkind with hcomp | ⟨hstate, -, -⟩
      · exact hcomp
      · exact absurd (logs_run_no_compaction env n s' hinv' hstate b hb) hne

theorem run_log_order (env : Env) :
    ∀ (n : Nat) (s : Reactor), LogCursorInv s →
      ∃ indices : List Nat,
        List.Pairwise (fun i j => i ≤ j) indices ∧
        (∀ i ∈ indices, servedLogIndex s ≤ i) ∧
        List.Forall₂ (fun f i => ∃ log, s.logs[i]? = some log ∧ f.logID = log.logID)
          ((writeLoop env n s).1.filter isLogFrame) indices := by
  intro n
  induction n with
  | zero =>
    intro s _
    refine ⟨[], List.Pairwise.nil, ?_, ?_⟩
    · intro i hi
      cases hi
    · simp [writeLoop]
  | succ n ih =>
    intro s hinv
    rcases writeLoop_succ env n s with hnil | ⟨g, s', hw, hcons⟩
    · rw [hnil]
      refine ⟨[], List.Pairwise.nil, ?_, ?_⟩
      · intro i hi
        cases hi
      · simp
    · rw [hcons]
      obtain ⟨hinv', hlogs, hidx, -, hkind⟩ := writeResponse_step hinv hw
      obtain ⟨indices, hsorted, hbound, hall⟩ := ih s' hinv'
      have hserved : servedLogIndex s ≤ servedLogIndex s' := by
        unfold servedLogIndex
        rw [hlogs]
        omega
      rw [hlogs] at hall
      by_cases hg : isLogFrame g = true
      · rcases hkind with ⟨h1, h2⟩ | ⟨-, -, log, hlog, hid⟩
        · simp [isLogFrame, h1, h2] at hg
        · refine ⟨servedLogIndex s :: indices, ?_, ?_, ?_⟩
          · exact List.Pairwise.cons (fun j hj => Nat.le_trans hserved (hbound j hj)) hsorted
          · intro i hi
            rcases List.mem_cons.mp hi with rfl | hmem
            · exact Nat.le_refl _
            · exact Nat.le_trans hserved (hbound i hmem)
          · rw [List.filter_cons_of_pos hg]
            exact List.Forall₂.cons ⟨log, hlog, hid⟩ hall
      · refine ⟨indices, hsorted, fun i hi => Nat.le_trans hserved (hbound i hi), ?_⟩
        rw [List.filter_cons_of_neg hg]
        exact hall

theorem logCursorInv_initial (item : BackupItem) (logs : List LogItem) :
    LogCursorInv (Reactor.initial item logs) := by
  refine ⟨Nat.zero_le _, ?_, ?_⟩
  · intro log h
    cases h
  · intro h
    exact absurd h (Nat.lt_irrefl 0)

/-- C5: a call in state `LOGS` leaves the state `LOGS`; in the frames of a run
from the initial state, no frame with a populated compaction chunk comes after
a frame carrying a log id or a log chunk; and the frames carrying a log id or
a log chunk can be assigned, in emission order, non-decreasing indices into
the logs such that each frame carries the id of the log at its index. -/
theorem pull_ordering (env : Env) (item : BackupItem) (logs : List LogItem) (n : Nat) :
    (∀ s : Reactor, s.state = State.LOGS → (writeResponse env s).2.state = State.LOGS) ∧
    List.Pairwise (fun a b => b.compactionChunk ≠ [] → a.logID = [] ∧ a.logChunk = [])
      (writeLoop env n (Reactor.initial item logs)).1 ∧
    ∃ indices : List Nat,
      List.Pairwise (fun i j => i ≤ j) indices ∧
      List.Forall₂ (fun f i => ∃ log, logs[i]? = some log ∧ f.logID = log.logID)
        ((writeLoop env n (Reactor.initial item logs)).1.filter isLogFrame) indices := by
  refine ⟨?_, run_compaction_first env n _ (logCursorInv_initial item logs), ?_⟩
  · intro s hs
    simp only [writeResponse, hs]
    rw [writeLogs_state, hs]
  · obtain ⟨indices, h1, -, h3⟩ := run_log_order env n _ (logCursorInv_initial item logs)
    exact ⟨indices, h1, h3⟩

/-! ## Frame bodies and frame sizes -/

theorem prepare_chunk_size {chunkLimit : Nat} {internalBuffer dataChunk : Bytes}
    {padding : Nat} {body buffer : Bytes}
    (h : prepareDataChunkWithPadding chunkLimit internalBuffer dataChunk padding
      = (Prepared.chunk body, buffer)) :
    body.length + padding ≤ chunkLimit := by
  by_cases hd : dataChunk.length ≤ chunkLimit
  · by_cases hf : internalBuffer.length + dataChunk.length + padding ≤ chunkLimit
    · rw [prepare_of_fit _ _ _ _ hd hf] at h
      simp only [Prod.mk.injEq, Prepared.chunk.injEq] at h
      rw [← h.1, List.length_append]
      exact hf
    · by_cases hp : padding ≤ chunkLimit
      · rw [prepare_of_stash _ _ _ _ hd hf hp] at h
        simp only [Prod.mk.injEq, Prepared.chunk.injEq] at h
        rw [← h.1, List.length_take, List.length_append]
        omega
      · rw [prepare_of_range _ _ _ _ hd hf (by omega)] at h
        simp at h
  · rw [prepare_of_big _ _ _ _ (by omega)] at h
    simp at h

theorem fieldSize_le (name value : Bytes) : fieldSize name value ≤ name.length + value.length := by
  unfold fieldSize
  split
  · exact Nat.zero_le _
  · exact Nat.le_refl _

theorem fieldSize_nil (name : Bytes) : fieldSize name [] = 0 := by
  simp [fieldSize]

theorem writeLogs_bodies {env : Env} {r : PullBackupResponse} {e : Nat}
    {s : Reactor} {f : PullBackupResponse} {s' : Reactor}
    (h : writeLogs env r e s = (Outcome.nullptr f, s')) :
    f.compactionChunk = r.compactionChunk ∧
    (r.logChunk = [] → f.logChunk = [] → s'.currentLogIndex = s.currentLogIndex + 1) := by
  obtain ⟨-, hcases⟩ := writeLogs_nullptr h
  rcases hcases with ⟨-, -, hbuf, rfl, rfl⟩ | ⟨-, -, log, -, -, rfl, rfl⟩ |
      ⟨-, -, log, s1, -, -, hinit, hchunk⟩ | ⟨-, log, -, hchunk⟩
  · exact ⟨rfl, fun _ hf => absurd hf hbuf⟩
  · exact ⟨rfl, fun _ _ => rfl⟩
  · obtain ⟨-, rfl⟩ := initializeGetReactor_ok hinit
    obtain ⟨d, queue, body, buffer, -, -, hout⟩ := writeLogChunk_frame hchunk
    rcases hout with ⟨-, rfl, current, -, rfl⟩ | ⟨hb, rfl, rfl⟩
    · exact ⟨rfl, fun _ _ => rfl⟩
    · exact ⟨rfl, fun _ hf => absurd hf hb⟩
  · obtain ⟨d, queue, body, buffer, -, -, hout⟩ := writeLogChunk_frame hchunk
    rcases hout with ⟨-, rfl, current, -, rfl⟩ | ⟨hb, rfl, rfl⟩
    · exact ⟨rfl, fun _ _ => rfl⟩
    · exact ⟨rfl, fun _ hf => absurd hf hb⟩

theorem writeLogChunk_cap {env : Env} {r : PullBackupResponse} {e : Nat} {log : LogItem}
    {s : Reactor} {f : PullBackupResponse} {s' : Reactor}
    (h : writeLogChunk env r e log s = (Outcome.nullptr f, s'))
    (he : env.FIELD_LOG_ID.length + log.logID.length
      + fieldSize env.LOG_FIELD_ATTACHMENT_HOLDERS r.attachmentHolders ≤ e)
    (hr : r.logChunk = []) :
    f.logChunk.length + fieldSize env.FIELD_LOG_ID f.logID
      + fieldSize env.LOG_FIELD_ATTACHMENT_HOLDERS f.attachmentHolders ≤ env.chunkLimit := by
  obtain ⟨d, queue, body, buffer, -, hprep, hout⟩ := writeLogChunk_frame h
  have hsize := prepare_chunk_size hprep
  have hid := fieldSize_le env.FIELD_LOG_ID log.logID
  rcases hout with ⟨-, rfl, -⟩ | ⟨-, rfl, -⟩
  · simp only [hr, List.length_nil]
    omega
  · simp only
    omega

theorem writeLogs_cap {env : Env} {r : PullBackupResponse} {e : Nat}
    {s : Reactor} {f : PullBackupResponse} {s' : Reactor}
    (h : writeLogs env r e s = (Outcome.nullptr f, s'))
    (hlt : s.currentLogIndex < s.logs.length)
    (hblob : s.currentLog = none →
      ∀ log, s.logs[s.currentLogIndex]? = some log → log.persistedInBlob = true)
    (hr1 : s.currentLog ≠ none → r.attachmentHolders = [])
    (hr2 : r.logChunk = []) :
    f.logChunk.length + fieldSize env.FIELD_LOG_ID f.logID
      + fieldSize env.LOG_FIELD_ATTACHMENT_HOLDERS f.attachmentHolders ≤ env.chunkLimit := by
  obtain ⟨-, hcases⟩ := writeLogs_nullptr h
  rcases hcases with ⟨hidx, -⟩ | ⟨-, hnone, log, hlog, hp, -⟩ |
      ⟨-, -, log, s1, -, -, -, hchunk⟩ | ⟨-, log, hsome, hchunk⟩
  · omega
  · rw [hblob hnone log hlog] at hp
    cases hp
  · refine writeLogChunk_cap hchunk ?_ hr2
    have := fieldSize_le env.LOG_FIELD_ATTACHMENT_HOLDERS log.attachmentHolders
    simp only
    omega
  · refine writeLogChunk_cap hchunk ?_ hr2
    rw [hr1 (by rw [hsome]; simp), fieldSize_nil]
    omega

theorem writeCompaction_frames {env : Env}
    {s : Reactor} {f : PullBackupResponse} {s' : Reactor}
    (h : writeCompaction env s = (Outcome.nullptr f, s')) :
    (f.compactionChunk = [] ∨ f.logChunk = []) ∧
    (f.compactionChunk = [] → f.logChunk = [] →
      s'.currentLogIndex = s.currentLogIndex + 1 ∨ s'.state = s.state) ∧
    (f.compactionChunk ≠ [] →
      f.compactionChunk.length + metadataOverhead env env.FIELD_ATTACHMENT_HOLDERS f
        ≤ env.chunkLimit) ∧
    (f.logChunk ≠ [] → s.currentLogIndex < s.logs.length → s.currentLog = none →
      (∀ log, s.logs[s.currentLogIndex]? = some log → log.persistedInBlob = true) →
      f.logChunk.length + fieldSize env.FIELD_LOG_ID f.logID
        + fieldSize env.LOG_FIELD_ATTACHMENT_HOLDERS f.attachmentHolders ≤ env.chunkLimit) := by
  obtain ⟨item, -, hcases⟩ := writeCompaction_nullptr h
  have key : ∀ (r : PullBackupResponse) (e : Nat) (t : Reactor),
      readCompaction env r e t = (Outcome.nullptr f, s') →
      r.logID = [] → r.logChunk = [] → r.compactionChunk = [] →
      fieldSize env.FIELD_BACKUP_ID r.backupID
        + fieldSize env.FIELD_ATTACHMENT_HOLDERS r.attachmentHolders ≤ e →
      t.logs = s.logs → t.currentLogIndex = s.currentLogIndex →
      t.currentLog = s.currentLog → t.state = s.state →
      (f.compactionChunk = [] ∨ f.logChunk = []) ∧
      (f.compactionChunk = [] → f.logChunk = [] →
        s'.currentLogIndex = s.currentLogIndex + 1 ∨ s'.state = s.state) ∧
      (f.compactionChunk ≠ [] →
        f.compactionChunk.length + metadataOverhead env env.FIELD_ATTACHMENT_HOLDERS f
          ≤ env.chunkLimit) ∧
      (f.logChunk ≠ [] → s.currentLogIndex < s.logs.length → s.currentLog = none →
        (∀ log, s.logs[s.currentLogIndex]? = some log → log.persistedInBlob = true) →
        f.logChunk.length + fieldSize env.FIELD_LOG_ID f.logID
          + fieldSize env.LOG_FIELD_ATTACHMENT_HOLDERS f.attachmentHolders
          ≤ env.chunkLimit) := by
    intro r e t hread hr1 hr2 hr3 hre ht1 ht2 ht3 ht4
    obtain ⟨d, t1, hq, hpack⟩ := readCompaction_nullptr hread
    have hu : t1.logs = s.logs ∧ t1.currentLogIndex = s.currentLogIndex ∧
        t1.currentLog = s.currentLog ∧ t1.state = s.state ∧
        t1.internalBuffer = t.internalBuffer := by
      rcases hq with ⟨-, rest, -, rfl⟩ | ⟨-, -, rfl⟩
      · exact ⟨ht1, ht2, ht3, ht4, rfl⟩
      · exact ⟨ht1, ht2, ht3, ht4, rfl⟩
    obtain ⟨hu1, hu2, hu3, hu4, -⟩ := hu
    rcases packCompaction_nullptr hpack with
      ⟨-, body, buffer, hprep, rfl, rfl⟩ | ⟨hcond, -, -, ⟨hbuf, rfl, rfl⟩ | ⟨-, hlogs⟩⟩
    · have hsize := prepare_chunk_size hprep
      refine ⟨Or.inr hr2, fun _ _ => Or.inr hu4, fun _ => ?_, fun hne => absurd hr2 hne⟩
      simp only [metadataOverhead, hr1, fieldSize_nil]
      omega
    · refine ⟨Or.inr hr2, fun hc _ => absurd hc hbuf, fun _ => ?_,
        fun hne => absurd hr2 hne⟩
      simp only [metadataOverhead, hr1, fieldSize_nil]
      push_neg at hcond
      omega
    · obtain ⟨hb1, hb2⟩ := writeLogs_bodies hlogs
      refine ⟨Or.inl (hb1.trans hr3), fun _ hl => Or.inl ?_,
        fun hne => absurd (hb1.trans hr3) hne, fun _ hlt hnone hblob => ?_⟩
      · rw [← hu2]
        exact hb2 hr2 hl
      · refine writeLogs_cap hlogs ?_ ?_ ?_ hr2
        · simp only [hu1, hu2]
          exact hlt
        · intro _ log hlog
          simp only [hu1, hu2] at hlog
          exact hblob log hlog
        · intro hsome
          simp only [hu3] at hsome
          exact absurd hnone hsome
  rcases hcases with ⟨-, s1, hinit, hread⟩ | ⟨-, hread⟩
  · obtain ⟨-, rfl⟩ := initializeGetReactor_ok hinit
    refine key _ _ _ hread rfl rfl rfl ?_ rfl rfl rfl rfl
    have h1 := fieldSize_le env.FIELD_BACKUP_ID item.backupID
    have h2 := fieldSize_le env.FIELD_ATTACHMENT_HOLDERS item.attachmentHolders
    simp only
    omega
  · refine key _ _ _ hread rfl rfl rfl ?_ rfl rfl rfl rfl
    have h1 := fieldSize_le env.FIELD_BACKUP_ID item.backupID
    simp only [PullBackupResponse.fresh, fieldSize_nil]
    omega

theorem writeResponse_eq {env : Env} {s : Reactor} {f : PullBackupResponse}
    (h : (writeResponse env s).1 = Outcome.nullptr f) :
    writeResponse env s = (Outcome.nullptr f, (writeResponse env s).2) := by
  rw [← h]

theorem writeResponse_dispatch (env : Env) (s : Reactor) :
    (s.state = State.COMPACTION ∧ writeResponse env s = writeCompaction env s) ∨
    (s.state = State.LOGS ∧
      writeResponse env s = writeLogs env PullBackupResponse.fresh 0 s) := by
  cases hs : s.state with
  | COMPACTION => exact Or.inl ⟨rfl, by simp only [writeResponse, hs]⟩
  | LOGS => exact Or.inr ⟨rfl, by simp only [writeResponse, hs]⟩

/-- C3 (counterexample): with chunk limit 40 and the logs "one inline byte, then
an inline value of 41 bytes", the run ends with the status OK and its third
frame carries the whole 41-byte value under the log id `[2]`: the body alone is
longer than the chunk limit. -/
theorem frame_cap_fails_for_inline_log :
    (writeLoop (smallEnv logStore) 4
        (Reactor.initial smallItem [inlineLog 1 [5], inlineLog 2 (List.range 41)])).2.1
      = Termination.ok ∧
    (writeLoop (smallEnv logStore) 4
        (Reactor.initial smallItem [inlineLog 1 [5], inlineLog 2 (List.range 41)])).1[2]?
      = some { backupID := [], logID := [2], attachmentHolders := [], compactionChunk := [],
               logChunk := List.range 41 } ∧
    ¬ ∀ f ∈ (writeLoop (smallEnv logStore) 4
          (Reactor.initial smallItem [inlineLog 1 [5], inlineLog 2 (List.range 41)])).1,
        f.compactionChunk.length + f.logChunk.length
            + metadataOverhead (smallEnv logStore)
                (smallEnv logStore).LOG_FIELD_ATTACHMENT_HOLDERS f
          ≤ (smallEnv logStore).chunkLimit :=
  ⟨rfl, rfl, by decide⟩

/-- C3 (amended): every frame with a populated compaction chunk (packed or
flushed from the internal buffer) satisfies body length plus metadata overhead
at most the chunk limit; every frame with a populated log chunk that a call
emits for a blob-backed log (index within the logs, no inline log being
opened) satisfies log chunk length plus the overhead of `log_id` and
`attachment_holders` at most the chunk limit. -/
theorem frame_cap_of_packed_frames (env : Env) (s : Reactor) (f : PullBackupResponse)
    (h : (writeResponse env s).1 = Outcome.nullptr f) :
    (f.compactionChunk ≠ [] →
      f.compactionChunk.length + metadataOverhead env env.FIELD_ATTACHMENT_HOLDERS f
        ≤ env.chunkLimit) ∧
    (f.logChunk ≠ [] → s.currentLogIndex < s.logs.length →
      (s.state = State.COMPACTION → s.currentLog = none) →
      (s.currentLog = none →
        ∀ log, s.logs[s.currentLogIndex]? = some log → log.persistedInBlob = true) →
      f.logChunk.length + fieldSize env.FIELD_LOG_ID f.logID
        + fieldSize env.LOG_FIELD_ATTACHMENT_HOLDERS f.attachmentHolders ≤ env.chunkLimit) := by
  have hw := writeResponse_eq h
  rcases writeResponse_dispatch env s with ⟨hs, hd⟩ | ⟨hs, hd⟩
  · rw [hd] at hw
    obtain ⟨-, -, h3, h4⟩ := writeCompaction_frames hw
    exact ⟨h3, fun hne hlt hcur hblob => h4 hne hlt (hcur hs) (hblob (hcur hs))⟩
  · rw [hd] at hw
    refine ⟨fun hne => absurd (writeLogs_bodies hw).1 hne, fun _ hlt _ hblob => ?_⟩
    exact writeLogs_cap hw hlt hblob (fun _ => rfl) rfl

/-- C3 (witness): the third call of the run over the 123-byte blob-backed log
emits a log chunk of 34 bytes under a six-byte log id overhead. -/
theorem frame_cap_of_packed_frames_witness :
    (List.map (fun b => b + 8) (List.range 34)).length
      + fieldSize (smallEnv logStore).FIELD_LOG_ID [1]
      + fieldSize (smallEnv logStore).LOG_FIELD_ATTACHMENT_HOLDERS [] ≤ 40 :=
  (frame_cap_of_packed_frames (smallEnv logStore)
    (writeLoop (smallEnv logStore) 2 (Reactor.initial smallItem [blobLog 1 101])).2.2
    { backupID := [1], logID := [1], attachmentHolders := [], compactionChunk := [],
      logChunk := List.map (fun b => b + 8) (List.range 34) }
    rfl).2 (by decide) (by decide) (fun hc => absurd hc (by decide))
    (fun hc => absurd hc (by decide))

/-- C6 (counterexample): in the run over a one-byte compaction and one
blob-backed log of two bytes, which ends with the status OK, the third frame,
on which the log ends, carries the log id and has neither `compaction_chunk`
nor `log_chunk` populated. -/
theorem exactly_one_body_fails_at_log_end :
    (writeLoop (smallEnv logStore) 4 (Reactor.initial smallItem [blobLog 2 102])).2.1
      = Termination.ok ∧
    (writeLoop (smallEnv logStore) 4 (Reactor.initial smallItem [blobLog 2 102])).1[2]?
      = some { backupID := [1], logID := [2], attachmentHolders := [], compactionChunk := [],
               logChunk := [] } ∧
    ¬ ∀ f ∈ (writeLoop (smallEnv logStore) 4
          (Reactor.initial smallItem [blobLog 2 102])).1,
        (f.compactionChunk ≠ [] ∧ f.logChunk = []) ∨
        (f.compactionChunk = [] ∧ f.logChunk ≠ []) :=
  ⟨rfl, rfl, by decide⟩

/-- C6 (amended): a frame never has both `compaction_chunk` and `log_chunk`
populated; when it has neither, the call advanced to the next log (the end of
a blob-backed log, or an inline log with an empty value) or it was a call of
the compaction phase whose packer returned an empty body. -/
theorem at_most_one_body (env : Env) (s : Reactor) (f : PullBackupResponse)
    (h : (writeResponse env s).1 = Outcome.nullptr f) :
    (f.compactionChunk = [] ∨ f.logChunk = []) ∧
    (f.compactionChunk = [] → f.logChunk = [] →
      (writeResponse env s).2.currentLogIndex = s.currentLogIndex + 1 ∨
      (s.state = State.COMPACTION ∧ (writeResponse env s).2.state = State.COMPACTION)) := by
  have hw := writeResponse_eq h
  rcases writeResponse_dispatch env s with ⟨hs, hd⟩ | ⟨hs, hd⟩
  · rw [hd] at hw
    obtain ⟨h1, h2, -, -⟩ := writeCompaction_frames hw
    refine ⟨h1, fun hc hl => ?_⟩
    rw [hd]
    rcases h2 hc hl with hidx | hstate
    · exact Or.inl hidx
    · exact Or.inr ⟨hs, hstate.trans hs⟩
  · rw [hd] at hw
    obtain ⟨h1, h2⟩ := writeLogs_bodies hw
    refine ⟨Or.inl h1, fun _ hl => Or.inl ?_⟩
    rw [hd]
    exact h2 rfl hl

/-- C6 (witness): the call that ends the two-byte blob-backed log emits a frame
with neither body and moves the log index from 0 to 1. -/
theorem at_most_one_body_witness :
    (writeResponse (smallEnv logStore)
        (writeLoop (smallEnv logStore) 2 (Reactor.initial smallItem [blobLog 2 102])).2.2).1
      = Outcome.nullptr
          { backupID := [1], logID := [2], attachmentHolders := [], compactionChunk := [],
            logChunk := [] } ∧
    (writeResponse (smallEnv logStore)
        (writeLoop (smallEnv logStore) 2 (Reactor.initial smallItem [blobLog 2 102])).2.2).2.currentLogIndex
      = 1 :=
  ⟨rfl, ((at_most_one_body (smallEnv logStore)
    (writeLoop (smallEnv logStore) 2 (Reactor.initial smallItem [blobLog 2 102])).2.2
    { backupID := [1], logID := [2], attachmentHolders := [], compactionChunk := [],
      logChunk := [] } rfl).2 rfl rfl).resolve_right (by decide)⟩

/-! ## The code at the failing inputs -/

/-- C1 (code at the failing input): chunk limit 40, no logs, a compaction of the
80 bytes 0..79 delivered as two non-empty chunks of 40 bytes and the sentinel,
with ok status. However many calls are made beyond three, the run has emitted
three frames whose compaction chunks concatenate to the first 76 bytes only,
and is blocked in the queue read of the fourth call with the last four bytes
in the internal buffer. -/
theorem compaction_bytes_stranded (n : Nat) :
    (∀ c ∈ (strandingStore smallItem.compactionHolder).chunks,
      c ≠ [] ∧ c.length ≤ (smallEnv strandingStore).chunkLimit) ∧
    (strandingStore smallItem.compactionHolder).status = none ∧
    (strandingStore smallItem.compactionHolder).chunks.flatten = List.range 80 ∧
    compactionChunks
        (writeLoop (smallEnv strandingStore) (n + 4) (Reactor.initial smallItem [])).1
      = List.range 76 ∧
    (writeLoop (smallEnv strandingStore) (n + 4) (Reactor.initial smallItem [])).2.1
      = Termination.blocked ∧
    (writeLoop (smallEnv strandingStore) (n + 4)
        (Reactor.initial smallItem [])).2.2.internalBuffer
      = [76, 77, 78, 79] :=
  ⟨by decide, rfl, rfl, rfl, rfl, rfl⟩

set_option maxRecDepth 100000 in
/-- C2 (code at the failing input): chunk limit 40, a one-byte compaction, and
two blob-backed logs with ids 1 and 2: the 123 bytes 0..122 (chunks of 40, 40,
40 and 3 bytes) and the two bytes 200, 201. The frames with log id 1
concatenate to the first 120 bytes only, the last three bytes of log 1 are
emitted under log id 2, the bytes of log 2 are never emitted, and the run ends
with the error "dangling data discovered after reading logs". -/
theorem log_bytes_misfiled (n : Nat) :
    (∀ holder, ∀ c ∈ (logStore holder).chunks,
      c ≠ [] ∧ c.length ≤ (smallEnv logStore).chunkLimit) ∧
    (logStore [101]).chunks.flatten = List.range 123 ∧
    (logStore [102]).chunks.flatten = [200, 201] ∧
    logChunksOf [1]
        (writeLoop (smallEnv logStore) (n + 10)
          (Reactor.initial smallItem [blobLog 1 101, blobLog 2 102])).1
      = List.range 120 ∧
    logChunksOf [2]
        (writeLoop (smallEnv logStore) (n + 10)
          (Reactor.initial smallItem [blobLog 1 101, blobLog 2 102])).1
      = [120, 121, 122] ∧
    (writeLoop (smallEnv logStore) (n + 10)
        (Reactor.initial smallItem [blobLog 1 101, blobLog 2 102])).2.1
      = Termination.error Error.danglingLogs := by
  refine ⟨?_, rfl, rfl, rfl, rfl, rfl⟩
  intro holder c hc
  unfold logStore at hc
  split_ifs at hc
  · revert c
    decide
  · revert c
    decide
  · revert c
    decide

/-! ## The read after the sentinel, for every chunk limit -/

theorem readingCompaction_full {env : Env} {item : BackupItem} {size : Nat}
    {chunk : Bytes} {queue : List Bytes} {s : Reactor}
    (hs : ReadingCompaction item size (chunk :: queue) s)
    (hsize : size < env.chunkLimit) (hchunk : chunk.length = env.chunkLimit)
    (hpos : 0 < env.FIELD_BACKUP_ID.length + item.backupID.length)
    (hle : env.FIELD_BACKUP_ID.length + item.backupID.length ≤ env.chunkLimit) :
    (∃ f, (writeResponse env s).1 = Outcome.nullptr f) ∧
      ReadingCompaction item (size + (env.FIELD_BACKUP_ID.length + item.backupID.length))
        queue (writeResponse env s).2 := by
  obtain ⟨h1, h2, h3, h4, h5⟩ := hs
  obtain ⟨g, hg⟩ := Option.ne_none_iff_exists'.mp h3
  have hne : chunk ≠ [] := by
    intro h
    rw [h] at hchunk
    simp only [List.length_nil] at hchunk
    omega
  have hprep := prepare_of_stash env.chunkLimit s.internalBuffer chunk
    (env.FIELD_BACKUP_ID.length + item.backupID.length) (by omega) (by omega) hle
  have hw : writeResponse env s
      = (Outcome.nullptr
          { PullBackupResponse.fresh with
            backupID := item.backupID,
            compactionChunk := (s.internalBuffer ++ chunk).take
              (env.chunkLimit - (env.FIELD_BACKUP_ID.length + item.backupID.length)) },
         { s with
            dataChunks := queue,
            internalBuffer := (s.internalBuffer ++ chunk).drop
              (env.chunkLimit - (env.FIELD_BACKUP_ID.length + item.backupID.length)) }) := by
    simp only [writeResponse, h1, writeCompaction, h2, hg, readCompaction, h5, hsize, if_true,
      h4, packCompaction, hne, ne_eq, not_false_eq_true, true_or, hprep]
  rw [hw]
  refine ⟨⟨_, rfl⟩, h1, h2, by simp [hg], rfl, ?_⟩
  simp only [List.length_drop, List.length_append]
  omega

theorem readingCompaction_sentinel {env : Env} {item : BackupItem} {size : Nat} {s : Reactor}
    (hs : ReadingCompaction item size [[]] s)
    (hsize : size < env.chunkLimit)
    (hfull : env.chunkLimit ≤ size + (env.FIELD_BACKUP_ID.length + item.backupID.length))
    (hle : env.FIELD_BACKUP_ID.length + item.backupID.length ≤ env.chunkLimit) :
    (∃ f, (writeResponse env s).1 = Outcome.nullptr f) ∧
      ∃ rest, rest < env.chunkLimit ∧
        ReadingCompaction item rest [] (writeResponse env s).2 := by
  obtain ⟨h1, h2, h3, h4, h5⟩ := hs
  obtain ⟨g, hg⟩ := Option.ne_none_iff_exists'.mp h3
  have hcond : env.chunkLimit
      ≤ s.internalBuffer.length + (env.FIELD_BACKUP_ID.length + item.backupID.length) := by
    omega
  by_cases hfit : s.internalBuffer.length + ([] : Bytes).length
      + (env.FIELD_BACKUP_ID.length + item.backupID.length) ≤ env.chunkLimit
  · have hprep := prepare_of_fit env.chunkLimit s.internalBuffer []
      (env.FIELD_BACKUP_ID.length + item.backupID.length) (Nat.zero_le _) hfit
    have hw : writeResponse env s
        = (Outcome.nullptr
            { PullBackupResponse.fresh with
              backupID := item.backupID, compactionChunk := s.internalBuffer ++ [] },
           { s with dataChunks := [], internalBuffer := [] }) := by
      simp only [writeResponse, h1, writeCompaction, h2, hg, readCompaction, h5, hsize,
        if_true, h4, packCompaction, ge_iff_le, hfull, or_true, hprep]
    rw [hw]
    exact ⟨⟨_, rfl⟩, 0, by omega, h1, h2, by simp [hg], rfl, rfl⟩
  · have hprep := prepare_of_stash env.chunkLimit s.internalBuffer []
      (env.FIELD_BACKUP_ID.length + item.backupID.length) (Nat.zero_le _) hfit hle
    have hw : writeResponse env s
        = (Outcome.nullptr
            { PullBackupResponse.fresh with
              backupID := item.backupID,
              compactionChunk := (s.internalBuffer ++ []).take
                (env.chunkLimit - (env.FIELD_BACKUP_ID.length + item.backupID.length)) },
           { s with
              dataChunks := [],
              internalBuffer := (s.internalBuffer ++ []).drop
                (env.chunkLimit - (env.FIELD_BACKUP_ID.length + item.backupID.length)) }) := by
      simp only [writeResponse, h1, writeCompaction, h2, hg, readCompaction, h5, hsize,
        if_true, h4, packCompaction, ge_iff_le, hfull, or_true, hprep]
    rw [hw]
    refine ⟨⟨_, rfl⟩, _, ?_, h1, h2, by simp [hg], rfl, rfl⟩
    simp only [List.length_drop, List.length_append, List.length_nil]
    omega

theorem readingCompaction_drained {env : Env} {item : BackupItem} {size : Nat} {s : Reactor}
    (hs : ReadingCompaction item size [] s) (hsize : size < env.chunkLimit) :
    writeResponse env s = (Outcome.blocked, s) := by
  obtain ⟨h1, h2, h3, h4, h5⟩ := hs
  obtain ⟨g, hg⟩ := Option.ne_none_iff_exists'.mp h3
  simp only [writeResponse, h1, writeCompaction, h2, hg, readCompaction, h5, hsize, if_true, h4]

theorem writeLoop_of_nullptr {env : Env} {s : Reactor} {f : PullBackupResponse} (n : Nat)
    (h : (writeResponse env s).1 = Outcome.nullptr f) :
    writeLoop env (n + 1) s
      = (f :: (writeLoop env n (writeResponse env s).2).1,
          (writeLoop env n (writeResponse env s).2).2) := by
  have hw := writeResponse_eq h
  rw [writeLoop, hw]

theorem writeLoop_of_blocked {env : Env} {s s' : Reactor} (n : Nat)
    (h : writeResponse env s = (Outcome.blocked, s')) :
    (writeLoop env (n + 1) s).2.1 = Termination.blocked := by
  rw [writeLoop, h]

theorem readingCompaction_blocks (env : Env) (item : BackupItem) (chunk : Bytes) (n : Nat)
    (hchunk : chunk.length = env.chunkLimit)
    (hpos : 0 < env.FIELD_BACKUP_ID.length + item.backupID.length)
    (hle : env.FIELD_BACKUP_ID.length + item.backupID.length ≤ env.chunkLimit) :
    ∀ (k size : Nat) (s : Reactor),
      ReadingCompaction item size (List.replicate k chunk ++ [[]]) s →
      size + k * (env.FIELD_BACKUP_ID.length + item.backupID.length) < env.chunkLimit →
      env.chunkLimit
        ≤ size + (k + 1) * (env.FIELD_BACKUP_ID.length + item.backupID.length) →
      (writeLoop env (k + 2 + n) s).2.1 = Termination.blocked := by
  intro k
  induction k with
  | zero =>
    intro size s hs h1 h2
    simp only [List.replicate_zero, List.nil_append] at hs
    simp only [Nat.zero_mul, Nat.add_zero, Nat.zero_add, Nat.one_mul] at h1 h2
    obtain ⟨⟨f, hf⟩, rest, hrest, hs'⟩ := readingCompaction_sentinel hs h1 h2 hle
    have hfuel : 0 + 2 + n = (n + 1) + 1 := by omega
    rw [hfuel, writeLoop_of_nullptr (n + 1) hf]
    exact writeLoop_of_blocked n (readingCompaction_drained hs' hrest)
  | succ k ih =>
    intro size s hs h1 h2
    rw [List.replicate_succ, List.cons_append] at hs
    have hsize : size < env.chunkLimit := by
      have : size ≤ size + (k + 1) * (env.FIELD_BACKUP_ID.length + item.backupID.length) :=
        Nat.le_add_right _ _
      omega
    obtain ⟨⟨f, hf⟩, hs'⟩ := readingCompaction_full hs hsize hchunk hpos hle
    have hfuel : k + 1 + 2 + n = (k + 2 + n) + 1 := by omega
    rw [hfuel, writeLoop_of_nullptr (k + 2 + n) hf]
    refine ih _ _ hs' ?_ ?_
    · have : (k + 1) * (env.FIELD_BACKUP_ID.length + item.backupID.length)
          = k * (env.FIELD_BACKUP_ID.length + item.backupID.length)
            + (env.FIELD_BACKUP_ID.length + item.backupID.length) := Nat.succ_mul _ _
      omega
    · have : (k + 1 + 1) * (env.FIELD_BACKUP_ID.length + item.backupID.length)
          = (k + 1) * (env.FIELD_BACKUP_ID.length + item.backupID.length)
            + (env.FIELD_BACKUP_ID.length + item.backupID.length) := Nat.succ_mul _ _
      omega

theorem initial_first_call {env : Env} {item : BackupItem} (logs : List LogItem)
    {chunk : Bytes} {queue : List Bytes}
    (hblob : env.blobGet item.compactionHolder = { chunks := chunk :: queue, status := none })
    (hchunk : chunk.length = env.chunkLimit)
    (hpos : 0 < env.FIELD_BACKUP_ID.length + item.backupID.length)
    (hlt : env.FIELD_BACKUP_ID.length + item.backupID.length
      + env.FIELD_ATTACHMENT_HOLDERS.length + item.attachmentHolders.length < env.chunkLimit) :
    (∃ f, (writeResponse env (Reactor.initial item logs)).1 = Outcome.nullptr f) ∧
      ReadingCompaction item
        (env.FIELD_BACKUP_ID.length + item.backupID.length
          + env.FIELD_ATTACHMENT_HOLDERS.length + item.attachmentHolders.length)
        (queue ++ [[]]) (writeResponse env (Reactor.initial item logs)).2 := by
  have hne : chunk ≠ [] := by
    intro h
    rw [h] at hchunk
    simp only [List.length_nil] at hchunk
    omega
  have hprep := prepare_of_stash env.chunkLimit [] chunk
    (env.FIELD_BACKUP_ID.length + item.backupID.length
      + env.FIELD_ATTACHMENT_HOLDERS.length + item.attachmentHolders.length)
    (by omega) (by simp only [List.length_nil]; omega) (by omega)
  have hw : writeResponse env (Reactor.initial item logs)
      = (Outcome.nullptr
          { PullBackupResponse.fresh with
            backupID := item.backupID,
            attachmentHolders := item.attachmentHolders,
            compactionChunk := ([] ++ chunk).take
              (env.chunkLimit - (env.FIELD_BACKUP_ID.length + item.backupID.length
                + env.FIELD_ATTACHMENT_HOLDERS.length + item.attachmentHolders.length)) },
         { Reactor.initial item logs with
            getReactor := some { holder := item.compactionHolder, status := none },
            dataChunks := queue ++ [[]],
            internalBuffer := ([] ++ chunk).drop
              (env.chunkLimit - (env.FIELD_BACKUP_ID.length + item.backupID.length
                + env.FIELD_ATTACHMENT_HOLDERS.length + item.attachmentHolders.length)) }) := by
    have hzero : 0 < env.chunkLimit := by omega
    simp only [writeResponse, Reactor.initial, writeCompaction, initializeGetReactor, hblob,
      readCompaction, List.length_nil, hzero, if_true, List.nil_append, List.cons_append,
      packCompaction, hne, ne_eq, not_false_eq_true, true_or, hprep]
  rw [hw]
  refine ⟨⟨_, rfl⟩, rfl, rfl, by simp, rfl, ?_⟩
  simp only [List.length_drop, List.length_append, List.length_nil]
  omega

/-- C4 (code at the failing inputs): the read after the sentinel is reached for
every chunk limit and all field names. With `b` the size of the backup id
field (name and value, positive) and `a` that of the backup id and attachment
holders fields together (below the chunk limit), a compaction delivered as
`(chunkLimit - a - 1) / b + 1` chunks of exactly `chunkLimit` bytes, then the
sentinel, with ok status, is well formed, and the run from the initial state
is blocked in `blockingRead` after `(chunkLimit - a - 1) / b + 2` frames,
however many calls are allowed. -/
theorem compaction_blocks_for_every_chunk_limit (env : Env) (item : BackupItem)
    (logs : List LogItem) (n : Nat)
    (hpos : 0 < env.FIELD_BACKUP_ID.length + item.backupID.length)
    (hlt : env.FIELD_BACKUP_ID.length + item.backupID.length
      + env.FIELD_ATTACHMENT_HOLDERS.length + item.attachmentHolders.length < env.chunkLimit)
    (hblob : env.blobGet item.compactionHolder
      = { chunks := List.replicate
            ((env.chunkLimit - (env.FIELD_BACKUP_ID.length + item.backupID.length
                + env.FIELD_ATTACHMENT_HOLDERS.length + item.attachmentHolders.length) - 1)
              / (env.FIELD_BACKUP_ID.length + item.backupID.length) + 1)
            (List.replicate env.chunkLimit 0),
          status := none }) :
    (∀ c ∈ (env.blobGet item.compactionHolder).chunks, c ≠ [] ∧ c.length ≤ env.chunkLimit) ∧
    (writeLoop env
        ((env.chunkLimit - (env.FIELD_BACKUP_ID.length + item.backupID.length
              + env.FIELD_ATTACHMENT_HOLDERS.length + item.attachmentHolders.length) - 1)
            / (env.FIELD_BACKUP_ID.length + item.backupID.length) + 3 + n)
        (Reactor.initial item logs)).2.1 = Termination.blocked := by
  generalize hb : env.FIELD_BACKUP_ID.length + item.backupID.length = b at *
  generalize ha : b + env.FIELD_ATTACHMENT_HOLDERS.length + item.attachmentHolders.length
    = a at *
  generalize hk : (env.chunkLimit - a - 1) / b = k at *
  have hmul : k * b ≤ env.chunkLimit - a - 1 := by
    rw [← hk]
    exact Nat.div_mul_le_self _ _
  have hsucc : env.chunkLimit - a - 1 < (k + 1) * b := by
    rw [← hk, Nat.mul_comm]
    exact Nat.lt_mul_div_succ _ hpos
  refine ⟨?_, ?_⟩
  · intro c hc
    rw [hblob] at hc
    have hc' := List.eq_of_mem_replicate hc
    rw [hc', List.length_replicate]
    refine ⟨?_, Nat.le_refl _⟩
    intro hnil
    have hlen := congrArg List.length hnil
    simp only [List.length_replicate, List.length_nil] at hlen
    omega
  · rw [List.replicate_succ] at hblob
    have hchunk : (List.replicate env.chunkLimit 0 : Bytes).length = env.chunkLimit :=
      List.length_replicate _ _
    have hfirst := initial_first_call logs hblob hchunk (by omega) (by omega)
    rw [hb, ha] at hfirst
    obtain ⟨⟨f, hf⟩, hs⟩ := hfirst
    have hfuel : k + 3 + n = (k + 2 + n) + 1 := by omega
    rw [hfuel, writeLoop_of_nullptr (k + 2 + n) hf]
    have hrun := readingCompaction_blocks env item (List.replicate env.chunkLimit 0) n hchunk
      (by omega) (by omega) k a _ hs
    rw [hb] at hrun
    refine hrun ?_ ?_
    · omega
    · omega

/-- C4 (witness): chunk limit 40, a one-byte backup id, no attachment holders,
and a compaction of two chunks of 40 bytes: after three frames the run is
blocked, with 4 calls allowed and with 1000. -/
theorem compaction_blocks_witness :
    (writeLoop (smallEnv zeroStore) 4 (Reactor.initial smallItem [])).2.1
        = Termination.blocked ∧
      (writeLoop (smallEnv zeroStore) 1000 (Reactor.initial smallItem [])).2.1
        = Termination.blocked :=
  ⟨(compaction_blocks_for_every_chunk_limit (smallEnv zeroStore) smallItem [] 0
      (by decide) (by decide) rfl).2,
    (compaction_blocks_for_every_chunk_limit (smallEnv zeroStore) smallItem [] 996
      (by decide) (by decide) rfl).2⟩

/-! ## The end of a log with chunks still queued, for every chunk limit -/

theorem take_ne_nil {l : Bytes} {k : Nat} (hk : 0 < k) (hl : 0 < l.length) :
    l.take k ≠ [] := by
  intro h
  have := congrArg List.length h
  simp only [List.length_take, List.length_nil] at this
  omega

theorem readingLog_call (env : Env) {log : LogItem} {index size : Nat} {queue : List Bytes}
    {flag : Bool} {s : Reactor} (hs : ReadingLog log index size queue flag s) :
    writeResponse env s
      = writeLogChunk env PullBackupResponse.fresh
          (0 + env.FIELD_LOG_ID.length + log.logID.length) log s := by
  obtain ⟨h1, h2, h3, h4, -, -, -, -⟩ := hs
  have hne : s.logs ≠ [] := by
    intro h
    rw [h] at h3
    exact absurd h3 (Nat.not_lt_zero _)
  have hidx : ¬ s.currentLogIndex = s.logs.length := by omega
  have hgt : ¬ s.currentLogIndex > s.logs.length := by omega
  simp only [writeResponse, h1, writeLogs, hne, if_false, hidx, hgt, h4]

theorem readingLog_full {env : Env} {log : LogItem} {index size : Nat}
    {chunk : Bytes} {queue : List Bytes} {s : Reactor}
    (hs : ReadingLog log index size (chunk :: queue) false s)
    (hsize : size < env.chunkLimit) (hchunk : chunk.length = env.chunkLimit)
    (hpos : 0 < env.FIELD_LOG_ID.length + log.logID.length)
    (hlt : env.FIELD_LOG_ID.length + log.logID.length < env.chunkLimit) :
    (∃ f, (writeResponse env s).1 = Outcome.nullptr f) ∧
      ReadingLog log index (size + (env.FIELD_LOG_ID.length + log.logID.length)) queue false
        (writeResponse env s).2 := by
  have hcall := readingLog_call env hs
  obtain ⟨h1, h2, h3, h4, ⟨g, hg, hst⟩, h6, h7, h8⟩ := hs
  have hprep := prepare_of_stash env.chunkLimit s.internalBuffer chunk
    (0 + env.FIELD_LOG_ID.length + log.logID.length) (by omega) (by omega) (by omega)
  have hbody : (s.internalBuffer ++ chunk).take
      (env.chunkLimit - (0 + env.FIELD_LOG_ID.length + log.logID.length)) ≠ [] :=
    take_ne_nil (by omega) (by rw [List.length_append]; omega)
  have hflag : (false || chunk.length == 0) = false := by
    simp only [Bool.false_or, beq_eq_false_iff_ne, ne_eq]
    omega
  have hw : writeResponse env s
      = (Outcome.nullptr
          { PullBackupResponse.fresh with
            backupID := log.backupID, logID := log.logID,
            logChunk := (s.internalBuffer ++ chunk).take
              (env.chunkLimit - (0 + env.FIELD_LOG_ID.length + log.logID.length)) },
         { s with
            dataChunks := queue, endOfQueue := false,
            internalBuffer := (s.internalBuffer ++ chunk).drop
              (env.chunkLimit - (0 + env.FIELD_LOG_ID.length + log.logID.length)) }) := by
    rw [hcall]
    simp only [writeLogChunk, h7, hsize, h8, and_self, if_true, h6, packLogChunk, hprep, hg,
      hst, hbody, if_false, hflag]
  rw [hw]
  refine ⟨⟨_, rfl⟩, h1, h2, h3, h4, ⟨g, hg, hst⟩, rfl, ?_, rfl⟩
  simp only [List.length_drop, List.length_append]
  omega

theorem readingLog_skip (env : Env) {log : LogItem} {index size : Nat}
    {queue : List Bytes} {flag : Bool} {s : Reactor}
    (hs : ReadingLog log index size queue flag s)
    (hskip : env.chunkLimit ≤ size ∨ flag = true) (hsize : 0 < size)
    (hlt : env.FIELD_LOG_ID.length + log.logID.length < env.chunkLimit) :
    (∃ f, (writeResponse env s).1 = Outcome.nullptr f) ∧
      ReadingLog log index (size + (env.FIELD_LOG_ID.length + log.logID.length)
          - env.chunkLimit) queue true
        (writeResponse env s).2 := by
  have hcall := readingLog_call env hs
  obtain ⟨h1, h2, h3, h4, ⟨g, hg, hst⟩, h6, h7, h8⟩ := hs
  have hcond : ¬ (s.internalBuffer.length < env.chunkLimit ∧ s.endOfQueue = false) := by
    rw [h7, h8]
    rintro ⟨hc1, hc2⟩
    rcases hskip with hk | hk
    · omega
    · rw [hk] at hc2
      cases hc2
  have hflag : (s.endOfQueue || ([] : Bytes).length == 0) = true := by
    simp
  by_cases hfit : s.internalBuffer.length + ([] : Bytes).length
      + (0 + env.FIELD_LOG_ID.length + log.logID.length) ≤ env.chunkLimit
  · have hprep := prepare_of_fit env.chunkLimit s.internalBuffer []
      (0 + env.FIELD_LOG_ID.length + log.logID.length) (Nat.zero_le _) hfit
    have hbody : s.internalBuffer ++ [] ≠ [] := by
      intro h
      have := congrArg List.length h
      simp only [List.length_append, List.length_nil] at this
      omega
    have hw : writeResponse env s
        = (Outcome.nullptr
            { PullBackupResponse.fresh with
              backupID := log.backupID, logID := log.logID,
              logChunk := s.internalBuffer ++ [] },
           { s with endOfQueue := true, internalBuffer := [] }) := by
      rw [hcall]
      simp only [writeLogChunk, hcond, if_false, packLogChunk, hprep, hg, hst, hbody, hflag]
    rw [hw]
    refine ⟨⟨_, rfl⟩, h1, h2, h3, h4, ⟨g, hg, hst⟩, h6, ?_, rfl⟩
    simp only [List.length_nil] at hfit ⊢
    omega
  · have hprep := prepare_of_stash env.chunkLimit s.internalBuffer []
      (0 + env.FIELD_LOG_ID.length + log.logID.length) (Nat.zero_le _) hfit (by omega)
    have hbody : (s.internalBuffer ++ []).take
        (env.chunkLimit - (0 + env.FIELD_LOG_ID.length + log.logID.length)) ≠ [] :=
      take_ne_nil (by omega) (by rw [List.length_append]; omega)
    have hw : writeResponse env s
        = (Outcome.nullptr
            { PullBackupResponse.fresh with
              backupID := log.backupID, logID := log.logID,
              logChunk := (s.internalBuffer ++ []).take
                (env.chunkLimit - (0 + env.FIELD_LOG_ID.length + log.logID.length)) },
           { s with
              endOfQueue := true,
              internalBuffer := (s.internalBuffer ++ []).drop
                (env.chunkLimit - (0 + env.FIELD_LOG_ID.length + log.logID.length)) }) := by
      rw [hcall]
      simp only [writeLogChunk, hcond, if_false, packLogChunk, hprep, hg, hst, hbody, hflag]
    rw [hw]
    refine ⟨⟨_, rfl⟩, h1, h2, h3, h4, ⟨g, hg, hst⟩, h6, ?_, rfl⟩
    simp only [List.length_drop, List.length_append, List.length_nil] at hfit ⊢
    omega

theorem readingLog_end {env : Env} {log : LogItem} {index : Nat}
    {queue : List Bytes} {s : Reactor}
    (hs : ReadingLog log index 0 queue true s)
    (hlt : env.FIELD_LOG_ID.length + log.logID.length < env.chunkLimit) :
    (∃ f, (writeResponse env s).1 = Outcome.nullptr f) ∧
      (writeResponse env s).2.currentLogIndex = index + 1 ∧
      (writeResponse env s).2.currentLog = none ∧
      (writeResponse env s).2.dataChunks = queue := by
  have hcall := readingLog_call env hs
  obtain ⟨h1, h2, h3, h4, ⟨g, hg, hst⟩, h6, h7, h8⟩ := hs
  have hnil : s.internalBuffer = [] := List.length_eq_zero.mp h7
  have hcond : ¬ (s.internalBuffer.length < env.chunkLimit ∧ s.endOfQueue = false) := by
    rw [h8]
    rintro ⟨-, hc2⟩
    cases hc2
  have hprep : prepareDataChunkWithPadding env.chunkLimit s.internalBuffer []
      (0 + env.FIELD_LOG_ID.length + log.logID.length) = (Prepared.chunk [], []) := by
    rw [prepare_of_fit _ _ _ _ (Nat.zero_le _)
      (by rw [h7]; simp only [List.length_nil]; omega), hnil]
    rfl
  have hw : writeResponse env s
      = (Outcome.nullptr
          { PullBackupResponse.fresh with backupID := log.backupID, logID := log.logID },
         { s with
            endOfQueue := false, internalBuffer := [],
            currentLogIndex := s.currentLogIndex + 1, previousLogID := log.logID,
            currentLog := none }) := by
    rw [hcall]
    simp only [writeLogChunk, hcond, if_false, packLogChunk, hprep, hg, hst, if_true, nextLog,
      h4]
  rw [hw]
  exact ⟨⟨_, rfl⟩, by rw [← h2], rfl, h6⟩

theorem writeLoop_running_succ {env : Env} {s t : Reactor} {f : PullBackupResponse} {m : Nat}
    (hf : (writeResponse env s).1 = Outcome.nullptr f)
    (h : (writeLoop env m (writeResponse env s).2).2 = (Termination.running, t)) :
    (writeLoop env (m + 1) s).2 = (Termination.running, t) := by
  rw [writeLoop_of_nullptr m hf]
  exact h

theorem writeLoop_running_trans {env : Env} {t u : Reactor} {n : Nat}
    (hn : (writeLoop env n t).2 = (Termination.running, u)) :
    ∀ (m : Nat) (s : Reactor), (writeLoop env m s).2 = (Termination.running, t) →
      (writeLoop env (m + n) s).2 = (Termination.running, u) := by
  intro m
  induction m with
  | zero =>
    intro s h
    simp only [writeLoop, Prod.mk.injEq, true_and] at h
    rw [Nat.zero_add, h]
    exact hn
  | succ m ih =>
    intro s h
    rcases hw : writeResponse env s with ⟨o, s'⟩
    cases o with
    | nullptr f =>
      have hf : (writeResponse env s).1 = Outcome.nullptr f := by rw [hw]
      have hs' : (writeResponse env s).2 = s' := by rw [hw]
      rw [writeLoop_of_nullptr m hf, hs'] at h
      have hfuel : m + 1 + n = (m + n) + 1 := by omega
      rw [hfuel, writeLoop_of_nullptr (m + n) hf, hs']
      exact ih s' h
    | statusOK => simp [writeLoop, hw] at h
    | thrown e => simp [writeLoop, hw] at h
    | blocked => simp [writeLoop, hw] at h
    | undefined => simp [writeLoop, hw] at h

theorem readingLog_fills (env : Env) (log : LogItem) (index : Nat) (chunk : Bytes)
    (queue : List Bytes)
    (hchunk : chunk.length = env.chunkLimit)
    (hpos : 0 < env.FIELD_LOG_ID.length + log.logID.length)
    (hlt : env.FIELD_LOG_ID.length + log.logID.length < env.chunkLimit) :
    ∀ (k size : Nat) (s : Reactor),
      ReadingLog log index size (List.replicate (k + 1) chunk ++ queue) false s →
      size + k * (env.FIELD_LOG_ID.length + log.logID.length) < env.chunkLimit →
      ∃ t, (writeLoop env (k + 1) s).2 = (Termination.running, t) ∧
        ReadingLog log index
          (size + (k + 1) * (env.FIELD_LOG_ID.length + log.logID.length)) queue false t := by
  intro k
  induction k with
  | zero =>
    intro size s hs hsize
    simp only [Nat.zero_add, List.replicate_one, List.singleton_append] at hs
    simp only [Nat.zero_mul, Nat.add_zero] at hsize
    obtain ⟨⟨f, hf⟩, hs'⟩ := readingLog_full hs hsize hchunk hpos hlt
    refine ⟨_, writeLoop_running_succ hf rfl, ?_⟩
    simpa only [Nat.zero_add, Nat.one_mul] using hs'
  | succ k ih =>
    intro size s hs hsize
    rw [List.replicate_succ, List.cons_append] at hs
    have hexp : (k + 1) * (env.FIELD_LOG_ID.length + log.logID.length)
        = k * (env.FIELD_LOG_ID.length + log.logID.length)
          + (env.FIELD_LOG_ID.length + log.logID.length) := Nat.succ_mul _ _
    have hexp2 : (k + 1 + 1) * (env.FIELD_LOG_ID.length + log.logID.length)
        = (k + 1) * (env.FIELD_LOG_ID.length + log.logID.length)
          + (env.FIELD_LOG_ID.length + log.logID.length) := Nat.succ_mul _ _
    obtain ⟨⟨f, hf⟩, hs'⟩ := readingLog_full hs (by omega) hchunk hpos hlt
    obtain ⟨t, hrun, ht⟩ := ih _ _ hs' (by omega)
    refine ⟨t, writeLoop_running_succ hf hrun, ?_⟩
    have hsz : size + (env.FIELD_LOG_ID.length + log.logID.length)
          + (k + 1) * (env.FIELD_LOG_ID.length + log.logID.length)
        = size + (k + 1 + 1) * (env.FIELD_LOG_ID.length + log.logID.length) := by omega
    rw [hsz] at ht
    exact ht

theorem readingLog_drains (env : Env) (log : LogItem) (index : Nat) (queue : List Bytes)
    (hlt : env.FIELD_LOG_ID.length + log.logID.length < env.chunkLimit) :
    ∀ (size : Nat) (s : Reactor), ReadingLog log index size queue true s →
      ∃ m t, (writeLoop env m s).2 = (Termination.running, t) ∧
        t.currentLogIndex = index + 1 ∧ t.currentLog = none ∧ t.dataChunks = queue := by
  intro size
  induction size using Nat.strong_induction_on with
  | _ size ih =>
    intro s hs
    by_cases hzero : size = 0
    · subst hzero
      obtain ⟨⟨f, hf⟩, h1, h2, h3⟩ := readingLog_end hs hlt
      exact ⟨1, _, writeLoop_running_succ hf rfl, h1, h2, h3⟩
    · obtain ⟨⟨f, hf⟩, hs'⟩ := readingLog_skip env hs (Or.inr rfl) (by omega) hlt
      obtain ⟨m, t, hrun, ht⟩ := ih _ (by omega) _ hs'
      exact ⟨m + 1, t, writeLoop_running_succ hf hrun, ht⟩

theorem initial_small_compaction {env : Env} {item : BackupItem} (logs : List LogItem)
    (hcomp : env.blobGet item.compactionHolder = { chunks := [[0]], status := none })
    (hfirst : 1 + (env.FIELD_BACKUP_ID.length + item.backupID.length
      + env.FIELD_ATTACHMENT_HOLDERS.length + item.attachmentHolders.length) ≤ env.chunkLimit) :
    (∃ f, (writeResponse env (Reactor.initial item logs)).1 = Outcome.nullptr f) ∧
      (writeResponse env (Reactor.initial item logs)).2
        = { Reactor.initial item logs with
            getReactor := some { holder := item.compactionHolder, status := none },
            dataChunks := [[]] } := by
  have hprep := prepare_of_fit env.chunkLimit [] [0]
    (env.FIELD_BACKUP_ID.length + item.backupID.length
      + env.FIELD_ATTACHMENT_HOLDERS.length + item.attachmentHolders.length)
    (by simp only [List.length_singleton]; omega)
    (by simp only [List.length_nil, List.length_singleton]; omega)
  have hzero : 0 < env.chunkLimit := by omega
  have hw : writeResponse env (Reactor.initial item logs)
      = (Outcome.nullptr
          { PullBackupResponse.fresh with
            backupID := item.backupID,
            attachmentHolders := item.attachmentHolders,
            compactionChunk := [] ++ [0] },
         { Reactor.initial item logs with
            getReactor := some { holder := item.compactionHolder, status := none },
            dataChunks := [[]] }) := by
    simp only [writeResponse, Reactor.initial, writeCompaction, initializeGetReactor, hcomp,
      readCompaction, List.length_nil, hzero, if_true, List.nil_append, List.cons_append,
      packCompaction, ne_eq, List.cons_ne_self, not_false_eq_true, true_or, hprep]
  rw [hw]
  exact ⟨⟨_, rfl⟩, rfl⟩

theorem first_log_opens {env : Env} (item : BackupItem) {log : LogItem}
    (moreLogs : List LogItem) {chunk : Bytes} {queue : List Bytes}
    (hpersist : log.persistedInBlob = true)
    (hlog : env.blobGet log.value = { chunks := chunk :: queue, status := none })
    (hchunk : chunk.length = env.chunkLimit)
    (hpos : 0 < env.FIELD_LOG_ID.length + log.logID.length)
    (hroom : env.FIELD_BACKUP_ID.length + item.backupID.length
      + env.FIELD_LOG_ID.length + log.logID.length
      + env.LOG_FIELD_ATTACHMENT_HOLDERS.length + log.attachmentHolders.length
      < env.chunkLimit) :
    (∃ f, (writeResponse env
        { Reactor.initial item (log :: moreLogs) with
          getReactor := some { holder := item.compactionHolder, status := none },
          dataChunks := [[]] }).1 = Outcome.nullptr f) ∧
      ReadingLog log 0
        (env.FIELD_BACKUP_ID.length + item.backupID.length
          + env.FIELD_LOG_ID.length + log.logID.length
          + env.LOG_FIELD_ATTACHMENT_HOLDERS.length + log.attachmentHolders.length)
        (queue ++ [[]]) false
        (writeResponse env
          { Reactor.initial item (log :: moreLogs) with
            getReactor := some { holder := item.compactionHolder, status := none },
            dataChunks := [[]] }).2 := by
  have hzero : 0 < env.chunkLimit := by omega
  have hsmall : ¬ env.chunkLimit ≤ env.FIELD_BACKUP_ID.length + item.backupID.length := by
    omega
  have hprep := prepare_of_stash env.chunkLimit [] chunk
    (env.FIELD_BACKUP_ID.length + item.backupID.length
      + env.FIELD_LOG_ID.length + log.logID.length
      + env.LOG_FIELD_ATTACHMENT_HOLDERS.length + log.attachmentHolders.length)
    (by omega) (by simp only [List.length_nil]; omega) (by omega)
  rw [List.nil_append] at hprep
  have hbody : chunk.take
      (env.chunkLimit - (env.FIELD_BACKUP_ID.length + item.backupID.length
        + env.FIELD_LOG_ID.length + log.logID.length
        + env.LOG_FIELD_ATTACHMENT_HOLDERS.length + log.attachmentHolders.length)) ≠ [] :=
    take_ne_nil (by omega) (by omega)
  have hflag : (false || chunk.length == 0) = false := by
    simp only [Bool.false_or, beq_eq_false_iff_ne, ne_eq]
    omega
  have hw : writeResponse env
        { Reactor.initial item (log :: moreLogs) with
          getReactor := some { holder := item.compactionHolder, status := none },
          dataChunks := [[]] }
      = (Outcome.nullptr
          { PullBackupResponse.fresh with
            backupID := log.backupID, logID := log.logID,
            attachmentHolders := log.attachmentHolders,
            logChunk := chunk.take
              (env.chunkLimit - (env.FIELD_BACKUP_ID.length + item.backupID.length
                + env.FIELD_LOG_ID.length + log.logID.length
                + env.LOG_FIELD_ATTACHMENT_HOLDERS.length + log.attachmentHolders.length)) },
         { Reactor.initial item (log :: moreLogs) with
            state := State.LOGS,
            getReactor := some { holder := log.value, status := none },
            dataChunks := queue ++ [[]],
            currentLog := some log,
            internalBuffer := chunk.drop
              (env.chunkLimit - (env.FIELD_BACKUP_ID.length + item.backupID.length
                + env.FIELD_LOG_ID.length + log.logID.length
                + env.LOG_FIELD_ATTACHMENT_HOLDERS.length + log.attachmentHolders.length)) }) := by
    simp only [writeResponse, Reactor.initial, writeCompaction, readCompaction,
      List.length_nil, hzero, if_true, packCompaction, ne_eq, not_true_eq_false, Nat.zero_add,
      ge_iff_le, hsmall, or_self, if_false, writeLogs, List.cons_ne_self, not_false_eq_true,
      List.length_cons, Nat.zero_ne_add_one, gt_iff_lt, Nat.not_lt_zero,
      List.getElem?_cons_zero, hpersist, initializeGetReactor, hlog, List.nil_append,
      List.cons_append, writeLogChunk, and_self, packLogChunk, hprep, hbody, hflag,
      List.cons_ne_nil log moreLogs]
  rw [hw]
  refine ⟨⟨_, rfl⟩, rfl, rfl, by simp [Reactor.initial], rfl, ⟨_, rfl, rfl⟩, rfl, ?_, rfl⟩
  simp only [List.length_drop]
  omega

/-- C7 (code at the failing inputs): a blob-backed log is ended with chunks still
queued, for every chunk limit and all field names. With `b` the size of the
log id field (name and value, positive) and `c` the size of the backup id, log
id and attachment holders fields of the log's first frame (below the chunk
limit), take a one-byte compaction and a first log delivered as
`(chunkLimit - c - 1) / b + 2` chunks of exactly `chunkLimit` bytes and a last
chunk of one byte, then the sentinel, with ok status. The chunks are well
formed, and after some number of calls, all returning "continue", the reactor
has advanced to log index 1 (`currentLog` null again) while the last chunk of
the log and its sentinel are still in the queue. -/
theorem log_ends_over_queued_chunks (env : Env) (item : BackupItem) (log : LogItem)
    (moreLogs : List LogItem)
    (hpersist : log.persistedInBlob = true)
    (hpos : 0 < env.FIELD_LOG_ID.length + log.logID.length)
    (hfirst : 1 + (env.FIELD_BACKUP_ID.length + item.backupID.length
      + env.FIELD_ATTACHMENT_HOLDERS.length + item.attachmentHolders.length) ≤ env.chunkLimit)
    (hroom : env.FIELD_BACKUP_ID.length + item.backupID.length
      + env.FIELD_LOG_ID.length + log.logID.length
      + env.LOG_FIELD_ATTACHMENT_HOLDERS.length + log.attachmentHolders.length
      < env.chunkLimit)
    (hcomp : env.blobGet item.compactionHolder = { chunks := [[0]], status := none })
    (hlog : env.blobGet log.value
      = { chunks := List.replicate
            ((env.chunkLimit - (env.FIELD_BACKUP_ID.length + item.backupID.length
                + env.FIELD_LOG_ID.length + log.logID.length
                + env.LOG_FIELD_ATTACHMENT_HOLDERS.length + log.attachmentHolders.length) - 1)
              / (env.FIELD_LOG_ID.length + log.logID.length) + 2)
            (List.replicate env.chunkLimit 0) ++ [[0]],
          status := none }) :
    (∀ c ∈ (env.blobGet log.value).chunks, c ≠ [] ∧ c.length ≤ env.chunkLimit) ∧
    ∃ m t, (writeLoop env m (Reactor.initial item (log :: moreLogs))).2
        = (Termination.running, t) ∧
      t.currentLogIndex = 1 ∧ t.currentLog = none ∧ t.dataChunks = [[0], []] := by
  generalize hb : env.FIELD_LOG_ID.length + log.logID.length = b at *
  have hroom' : env.FIELD_BACKUP_ID.length + item.backupID.length + b
      + env.LOG_FIELD_ATTACHMENT_HOLDERS.length + log.attachmentHolders.length
      < env.chunkLimit := by omega
  have hcb : env.FIELD_BACKUP_ID.length + item.backupID.length
      + env.FIELD_LOG_ID.length + log.logID.length
      + env.LOG_FIELD_ATTACHMENT_HOLDERS.length + log.attachmentHolders.length
      = env.FIELD_BACKUP_ID.length + item.backupID.length + b
      + env.LOG_FIELD_ATTACHMENT_HOLDERS.length + log.attachmentHolders.length := by omega
  rw [hcb] at hlog hroom
  generalize hc : env.FIELD_BACKUP_ID.length + item.backupID.length + b
      + env.LOG_FIELD_ATTACHMENT_HOLDERS.length + log.attachmentHolders.length = c at *
  generalize hk : (env.chunkLimit - c - 1) / b = k at *
  have hmul : k * b ≤ env.chunkLimit - c - 1 := by
    rw [← hk]
    exact Nat.div_mul_le_self _ _
  have hsucc : env.chunkLimit - c - 1 < (k + 1) * b := by
    rw [← hk, Nat.mul_comm]
    exact Nat.lt_mul_div_succ _ hpos
  have hblt : b < env.chunkLimit := by omega
  have hchunk : (List.replicate env.chunkLimit 0 : Bytes).length = env.chunkLimit :=
    List.length_replicate _ _
  refine ⟨?_, ?_⟩
  · intro d hd
    rw [hlog] at hd
    rcases List.mem_append.mp hd with hfull | hlast
    · rw [List.eq_of_mem_replicate hfull, List.length_replicate]
      refine ⟨?_, Nat.le_refl _⟩
      intro hnil
      have hlen := congrArg List.length hnil
      simp only [List.length_replicate, List.length_nil] at hlen
      omega
    · rw [List.mem_singleton.mp hlast]
      exact ⟨by simp, by simp only [List.length_singleton]; omega⟩
  · obtain ⟨⟨f1, hf1⟩, hs1⟩ :=
      initial_small_compaction (log :: moreLogs) hcomp hfirst
    rw [List.replicate_succ, List.cons_append] at hlog
    obtain ⟨⟨f2, hf2⟩, hs2⟩ := first_log_opens item moreLogs
      hpersist hlog hchunk (by omega) (by omega)
    rw [hcb, List.append_assoc] at hs2
    obtain ⟨t3, hrun3, hs3⟩ := readingLog_fills env log 0 (List.replicate env.chunkLimit 0)
      ([[0]] ++ [[]]) hchunk (by omega) (by omega) k c _ hs2 (by rw [hb]; omega)
    rw [hb] at hs3
    obtain ⟨⟨f4, hf4⟩, hs4⟩ := readingLog_skip env hs3 (Or.inl (by omega)) (by omega)
      (by omega)
    obtain ⟨m, t, hrun5, ht⟩ := readingLog_drains env log 0 ([[0]] ++ [[]]) (by omega) _ _ hs4
    refine ⟨(((m + 1) + (k + 1)) + 1) + 1, t, ?_, ht⟩
    refine writeLoop_running_succ hf1 ?_
    rw [hs1]
    refine writeLoop_running_succ hf2 ?_
    have h45 := writeLoop_running_succ hf4 hrun5
    have h345 := writeLoop_running_trans h45 (k + 1) _ hrun3
    rw [Nat.add_comm (k + 1) (m + 1)] at h345
    exact h345

/-- C7 (witness): chunk limit 40, a one-byte compaction, and one blob-backed log
of three chunks of 40 bytes and a chunk of one byte. After six calls the log
is still open at index 0; the seventh call ends it (index 1) with the log's
last chunk and its sentinel still queued. -/
theorem log_ends_over_queued_chunks_witness :
    (∃ m t, (writeLoop (smallEnv spillStore) m
          (Reactor.initial smallItem [blobLog 1 101])).2 = (Termination.running, t) ∧
        t.currentLogIndex = 1 ∧ t.currentLog = none ∧ t.dataChunks = [[0], []]) ∧
      (writeLoop (smallEnv spillStore) 6
          (Reactor.initial smallItem [blobLog 1 101])).2.2.currentLogIndex = 0 ∧
      (writeLoop (smallEnv spillStore) 6
          (Reactor.initial smallItem [blobLog 1 101])).2.2.dataChunks = [[0], []] ∧
      (writeLoop (smallEnv spillStore) 7
          (Reactor.initial smallItem [blobLog 1 101])).2.2.currentLogIndex = 1 ∧
      (writeLoop (smallEnv spillStore) 7
          (Reactor.initial smallItem [blobLog 1 101])).2.2.dataChunks = [[0], []] :=
  ⟨(log_ends_over_queued_chunks (smallEnv spillStore) smallItem (blobLog 1 101) []
      rfl (by decide) (by decide) (by decide) rfl rfl).2, rfl, rfl, rfl, rfl⟩

/-! ## The method initialize -/

theorem initialize_of_found {db : DatabaseManager} {request : PullBackupRequest}
    {item : BackupItem} (s : Reactor)
    (hu : request.userID ≠ []) (hb : request.backupID ≠ [])
    (hf : db.findBackupItem request.userID request.backupID = some item) :
    initializeReactor db request s
      = { thrown := none,
          reactor := { s with
            backupItem := some item,
            logs := db.findLogItemsForBackup request.backupID },
          lookups := [Lookup.findBackupItem request.userID request.backupID,
            Lookup.findLogItemsForBackup request.backupID] } := by
  simp only [initializeReactor, hu, hb, if_false, hf]

theorem initialize_of_missing {db : DatabaseManager} {request : PullBackupRequest}
    (s : Reactor)
    (hu : request.userID ≠ []) (hb : request.backupID ≠ [])
    (hf : db.findBackupItem request.userID request.backupID = none) :
    initializeReactor db request s
      = { thrown := some (Error.noBackupFound request.userID request.backupID),
          reactor := { s with backupItem := none },
          lookups := [Lookup.findBackupItem request.userID request.backupID] } := by
  simp only [initializeReactor, hu, hb, if_false, hf]

theorem pullBackup_of_thrown {db : DatabaseManager} {request : PullBackupRequest} {e : Error}
    (env : Env) (calls : Nat)
    (h : (initializeReactor db request Reactor.constructed).thrown = some e) :
    pullBackup db env request calls
      = ([], Termination.error e, (initializeReactor db request Reactor.constructed).reactor) := by
  simp only [pullBackup, h]

/-- The reactor that `Reactor.initial` describes is the one a successful
`initialize` leaves. -/
theorem initialize_initial {db : DatabaseManager} {request : PullBackupRequest}
    {item : BackupItem}
    (hu : request.userID ≠ []) (hb : request.backupID ≠ [])
    (hf : db.findBackupItem request.userID request.backupID = some item) :
    (initializeReactor db request Reactor.constructed).reactor
      = Reactor.initial item (db.findLogItemsForBackup request.backupID) := by
  rw [initialize_of_found _ hu hb hf]
  rfl

/-- C11: `initialize` throws "no user id provided" when the user id is empty
and, the user id not being empty, "no backup id provided" when the backup id
is empty; in both cases it has made no lookup and has left the reactor as it
was, so that the call, on the reactor as constructed, ends with that error,
emits no frame and leaves the backup item and the logs unset. -/
theorem initialize_validates (db : DatabaseManager) (request : PullBackupRequest)
    (s : Reactor) (env : Env) (calls : Nat) :
    (request.userID = [] →
      initializeReactor db request s = { thrown := some Error.noUserID, reactor := s, lookups := [] } ∧
      pullBackup db env request calls
        = ([], Termination.error Error.noUserID, Reactor.constructed)) ∧
    (request.userID ≠ [] → request.backupID = [] →
      initializeReactor db request s
        = { thrown := some Error.noBackupID, reactor := s, lookups := [] } ∧
      pullBackup db env request calls
        = ([], Termination.error Error.noBackupID, Reactor.constructed)) ∧
    Reactor.constructed.backupItem = none ∧ Reactor.constructed.logs = [] := by
  refine ⟨fun hu => ?_, fun hu hb => ?_, rfl, rfl⟩
  · have hi : ∀ t, initializeReactor db request t
        = { thrown := some Error.noUserID, reactor := t, lookups := [] } := by
      intro t
      simp only [initializeReactor, hu, if_true]
    refine ⟨hi s, ?_⟩
    rw [pullBackup_of_thrown env calls (by rw [hi])]
    rw [hi]
  · have hi : ∀ t, initializeReactor db request t
        = { thrown := some Error.noBackupID, reactor := t, lookups := [] } := by
      intro t
      simp only [initializeReactor, hu, hb, if_true, if_false]
    refine ⟨hi s, ?_⟩
    rw [pullBackup_of_thrown env calls (by rw [hi])]
    rw [hi]

/-- C11 (witness): a request with an empty user id on the small database. -/
theorem initialize_validates_witness :
    initializeReactor smallDatabase { userID := [], backupID := [1] } Reactor.constructed
        = { thrown := some Error.noUserID, reactor := Reactor.constructed, lookups := [] } ∧
      pullBackup smallDatabase (smallEnv logStore) { userID := [], backupID := [1] } 5
        = ([], Termination.error Error.noUserID, Reactor.constructed) :=
  (initialize_validates smallDatabase { userID := [], backupID := [1] } Reactor.constructed
    (smallEnv logStore) 5).1 rfl

/-- C12: for a request with non-empty user id and backup id, `initialize`
succeeds exactly when `findBackupItem` returns a record, and then holds the
record and the logs of the backup; when no record is returned it throws "no
backup found" with the two ids, has made the one lookup `findBackupItem`
only, leaves the logs as they were, and the call ends with that error and no
frame. -/
theorem initialize_not_found (db : DatabaseManager) (request : PullBackupRequest)
    (s : Reactor) (env : Env) (calls : Nat)
    (hu : request.userID ≠ []) (hb : request.backupID ≠ []) :
    ((initializeReactor db request s).thrown = none ↔
      db.findBackupItem request.userID request.backupID ≠ none) ∧
    (∀ item, db.findBackupItem request.userID request.backupID = some item →
      (initializeReactor db request s).reactor.backupItem = some item ∧
      (initializeReactor db request s).reactor.logs
        = db.findLogItemsForBackup request.backupID) ∧
    (db.findBackupItem request.userID request.backupID = none →
      (initializeReactor db request s).thrown
        = some (Error.noBackupFound request.userID request.backupID) ∧
      (initializeReactor db request s).lookups
        = [Lookup.findBackupItem request.userID request.backupID] ∧
      (initializeReactor db request s).reactor.logs = s.logs ∧
      (pullBackup db env request calls).1 = [] ∧
      (pullBackup db env request calls).2.1
        = Termination.error (Error.noBackupFound request.userID request.backupID) ∧
      (pullBackup db env request calls).2.2.logs = []) := by
  refine ⟨?_, ?_, ?_⟩
  · cases hf : db.findBackupItem request.userID request.backupID with
    | none =>
      rw [initialize_of_missing s hu hb hf]
      simp
    | some item =>
      rw [initialize_of_found s hu hb hf]
      simp
  · intro item hf
    rw [initialize_of_found s hu hb hf]
    exact ⟨rfl, rfl⟩
  · intro hf
    have hthrown : (initializeReactor db request Reactor.constructed).thrown
        = some (Error.noBackupFound request.userID request.backupID) := by
      rw [initialize_of_missing _ hu hb hf]
    rw [pullBackup_of_thrown env calls hthrown, initialize_of_missing s hu hb hf,
      initialize_of_missing _ hu hb hf]
    exact ⟨rfl, rfl, rfl, rfl, rfl, rfl⟩

/-- C12 (witness): the small database has no backup `[9]` for user `[7]`. -/
theorem initialize_not_found_witness :
    (initializeReactor smallDatabase { userID := [7], backupID := [9] }
        Reactor.constructed).thrown = some (Error.noBackupFound [7] [9]) ∧
      (pullBackup smallDatabase (smallEnv logStore) { userID := [7], backupID := [9] } 5).1
        = [] :=
  ⟨((initialize_not_found smallDatabase { userID := [7], backupID := [9] }
      Reactor.constructed (smallEnv logStore) 5 (by decide) (by decide)).2.2 rfl).1,
    ((initialize_not_found smallDatabase { userID := [7], backupID := [9] }
      Reactor.constructed (smallEnv logStore) 5 (by decide) (by decide)).2.2 rfl).2.2.2.1⟩

/-! ## Single calls: the inline log and the small compaction -/

/-- C14: in state `LOGS` with no current log, an empty internal buffer and an
inline log at the current index, one call returns "continue" with the frame
that carries the log's id, its whole value and its attachment holders (and
nothing else), advances the index by one, records the log's id as the previous
log id, leaves the current log null and the end-of-queue flag false, and
touches neither the blob source nor the queue. -/
theorem inline_log_step (env : Env) (s : Reactor) (log : LogItem)
    (hs : s.state = State.LOGS) (hc : s.currentLog = none) (hb : s.internalBuffer = [])
    (hl : s.logs[s.currentLogIndex]? = some log) (hp : log.persistedInBlob = false) :
    writeResponse env s
      = (Outcome.nullptr
          { backupID := [], logID := log.logID, attachmentHolders := log.attachmentHolders,
            compactionChunk := [], logChunk := log.value },
         { s with
            currentLogIndex := s.currentLogIndex + 1, previousLogID := log.logID,
            currentLog := none, endOfQueue := false }) ∧
    (writeResponse env s).2.getReactor = s.getReactor ∧
    (writeResponse env s).2.dataChunks = s.dataChunks ∧
    (writeResponse env s).2.internalBuffer = [] := by
  have hlt : s.currentLogIndex < s.logs.length := by
    obtain ⟨h, -⟩ := List.getElem?_eq_some_iff.mp hl
    exact h
  have hne : s.logs ≠ [] := by
    intro h
    rw [h] at hlt
    exact absurd hlt (Nat.not_lt_zero _)
  have hidx : ¬ s.currentLogIndex = s.logs.length := by omega
  have hgt : ¬ s.currentLogIndex > s.logs.length := by omega
  have hw : writeResponse env s
      = (Outcome.nullptr
          { backupID := [], logID := log.logID, attachmentHolders := log.attachmentHolders,
            compactionChunk := [], logChunk := log.value },
         { s with
            currentLogIndex := s.currentLogIndex + 1, previousLogID := log.logID,
            currentLog := none, endOfQueue := false }) := by
    simp only [writeResponse, hs, writeLogs, hne, if_false, hidx, hgt, hc, hl, hp, nextLog,
      PullBackupResponse.fresh, Bool.false_eq_true]
  rw [hw]
  exact ⟨rfl, rfl, rfl, hb⟩

/-- C14 (witness): after two calls of the run over a one-byte compaction and the
inline logs `[5]` and "hello", the reactor is in state `LOGS` at index 1; the
third call emits "hello" in one frame and moves to index 2. -/
theorem inline_log_step_witness :
    (writeResponse (smallEnv logStore)
        (writeLoop (smallEnv logStore) 2
          (Reactor.initial smallItem
            [inlineLog 1 [5], inlineLog 2 [104, 101, 108, 108, 111]])).2.2).1
      = Outcome.nullptr
          { backupID := [], logID := [2], attachmentHolders := [], compactionChunk := [],
            logChunk := [104, 101, 108, 108, 111] } ∧
    (writeResponse (smallEnv logStore)
        (writeLoop (smallEnv logStore) 2
          (Reactor.initial smallItem
            [inlineLog 1 [5], inlineLog 2 [104, 101, 108, 108, 111]])).2.2).2.currentLogIndex
      = 2 :=
  ⟨congrArg Prod.fst (inline_log_step (smallEnv logStore)
      (writeLoop (smallEnv logStore) 2
        (Reactor.initial smallItem
          [inlineLog 1 [5], inlineLog 2 [104, 101, 108, 108, 111]])).2.2
      (inlineLog 2 [104, 101, 108, 108, 111]) rfl rfl rfl rfl rfl).1,
    congrArg (fun r => r.2.currentLogIndex) (inline_log_step (smallEnv logStore)
      (writeLoop (smallEnv logStore) 2
        (Reactor.initial smallItem
          [inlineLog 1 [5], inlineLog 2 [104, 101, 108, 108, 111]])).2.2
      (inlineLog 2 [104, 101, 108, 108, 111]) rfl rfl rfl rfl rfl).1⟩

/-- C15: for a backup with no logs whose compaction is delivered as one
non-empty chunk and the sentinel with ok status, the chunk fitting in one frame
together with the backup id and attachment holders fields, the first call
emits the frame with the backup id, the attachment holders and the whole chunk
as compaction chunk, and the second call returns the status OK without a
frame: the run emits that single frame and ends with OK. -/
theorem small_compaction_no_logs (env : Env) (item : BackupItem) (chunk : Bytes) (n : Nat)
    (hblob : env.blobGet item.compactionHolder = { chunks := [chunk], status := none })
    (hne : chunk ≠ [])
    (hfit : chunk.length + (env.FIELD_BACKUP_ID.length + item.backupID.length
      + env.FIELD_ATTACHMENT_HOLDERS.length + item.attachmentHolders.length)
      ≤ env.chunkLimit) :
    (writeResponse env (Reactor.initial item [])).1
      = Outcome.nullptr
          { backupID := item.backupID, logID := [],
            attachmentHolders := item.attachmentHolders,
            compactionChunk := chunk, logChunk := [] } ∧
    (writeResponse env (writeResponse env (Reactor.initial item [])).2).1
      = Outcome.statusOK ∧
    (writeLoop env (n + 2) (Reactor.initial item [])).1
      = [{ backupID := item.backupID, logID := [],
           attachmentHolders := item.attachmentHolders,
           compactionChunk := chunk, logChunk := [] }] ∧
    (writeLoop env (n + 2) (Reactor.initial item [])).2.1 = Termination.ok := by
  have hpos : 0 < chunk.length := List.length_pos.mpr hne
  have hzero : 0 < env.chunkLimit := by omega
  have hprep := prepare_of_fit env.chunkLimit [] chunk
    (env.FIELD_BACKUP_ID.length + item.backupID.length
      + env.FIELD_ATTACHMENT_HOLDERS.length + item.attachmentHolders.length)
    (by omega) (by simp only [List.length_nil]; omega)
  rw [List.nil_append] at hprep
  have hw1 : writeResponse env (Reactor.initial item [])
      = (Outcome.nullptr
          { backupID := item.backupID, logID := [],
            attachmentHolders := item.attachmentHolders,
            compactionChunk := chunk, logChunk := [] },
         { Reactor.initial item [] with
            getReactor := some { holder := item.compactionHolder, status := none },
            dataChunks := [[]] }) := by
    simp only [writeResponse, Reactor.initial, writeCompaction, initializeGetReactor, hblob,
      readCompaction, List.length_nil, hzero, if_true, List.nil_append, List.cons_append,
      packCompaction, ne_eq, hne, not_false_eq_true, true_or, hprep, PullBackupResponse.fresh]
  have hsmall : ¬ env.chunkLimit ≤ env.FIELD_BACKUP_ID.length + item.backupID.length := by
    omega
  have hw2 : writeResponse env
        { Reactor.initial item [] with
          getReactor := some { holder := item.compactionHolder, status := none },
          dataChunks := [[]] }
      = (Outcome.statusOK,
         { Reactor.initial item [] with
            state := State.LOGS,
            getReactor := some { holder := item.compactionHolder, status := none } }) := by
    simp only [writeResponse, Reactor.initial, writeCompaction, readCompaction,
      List.length_nil, hzero, if_true, packCompaction, ne_eq, not_true_eq_false, Nat.zero_add,
      ge_iff_le, hsmall, or_self, if_false, writeLogs]
  have h1 : (writeResponse env (Reactor.initial item [])).1
      = Outcome.nullptr
          { backupID := item.backupID, logID := [],
            attachmentHolders := item.attachmentHolders,
            compactionChunk := chunk, logChunk := [] } := by rw [hw1]
  have h2 : (writeResponse env (Reactor.initial item [])).2
      = { Reactor.initial item [] with
          getReactor := some { holder := item.compactionHolder, status := none },
          dataChunks := [[]] } := by rw [hw1]
  refine ⟨h1, by rw [h2, hw2], ?_, ?_⟩
  · rw [writeLoop_of_nullptr (n + 1) h1, h2, writeLoop, hw2]
  · rw [writeLoop_of_nullptr (n + 1) h1, h2, writeLoop, hw2]

/-- C15 (witness): chunk limit 1024 with the same field names, and a compaction
of 50 bytes in one chunk: one frame, then OK. -/
theorem small_compaction_no_logs_witness :
    (writeLoop
        { smallEnv (fun _ => { chunks := [List.range 50], status := none }) with
          chunkLimit := 1024 }
        2 (Reactor.initial smallItem [])).1
      = [{ backupID := [1], logID := [], attachmentHolders := [],
           compactionChunk := List.range 50, logChunk := [] }] ∧
    (writeLoop
        { smallEnv (fun _ => { chunks := [List.range 50], status := none }) with
          chunkLimit := 1024 }
        2 (Reactor.initial smallItem [])).2.1 = Termination.ok :=
  (small_compaction_no_logs
    { smallEnv (fun _ => { chunks := [List.range 50], status := none }) with
      chunkLimit := 1024 }
    smallItem (List.range 50) 0 rfl (by decide) (by decide)).2.2

/-! ## The stash of the frame packer -/

/-- C20: for a padding no larger than the chunk limit, (1) when the internal
buffer is shorter than the chunk limit and the incoming chunk no longer than
it, `prepareDataChunkWithPadding` returns a body and leaves a buffer shorter
than chunk limit plus padding; (2) when the internal buffer has reached the
chunk limit and the incoming chunk is empty, it returns a body and leaves a
buffer of exactly buffer length plus padding minus chunk limit bytes, which is
no more than before. -/
theorem prepare_overflow_bound (chunkLimit : Nat) (internalBuffer dataChunk : Bytes)
    (padding : Nat) (hp : padding ≤ chunkLimit) :
    (internalBuffer.length < chunkLimit → dataChunk.length ≤ chunkLimit →
      (∃ body, (prepareDataChunkWithPadding chunkLimit internalBuffer dataChunk padding).1
        = Prepared.chunk body) ∧
      (prepareDataChunkWithPadding chunkLimit internalBuffer dataChunk padding).2.length
        < chunkLimit + padding) ∧
    (chunkLimit ≤ internalBuffer.length →
      (∃ body, (prepareDataChunkWithPadding chunkLimit internalBuffer [] padding).1
        = Prepared.chunk body) ∧
      (prepareDataChunkWithPadding chunkLimit internalBuffer [] padding).2.length
        = internalBuffer.length + padding - chunkLimit ∧
      (prepareDataChunkWithPadding chunkLimit internalBuffer [] padding).2.length
        ≤ internalBuffer.length) := by
  refine ⟨fun hb hd => ?_, fun hb => ?_⟩
  · by_cases hfit : internalBuffer.length + dataChunk.length + padding ≤ chunkLimit
    · rw [prepare_of_fit _ _ _ _ hd hfit]
      exact ⟨⟨_, rfl⟩, by simp only [List.length_nil]; omega⟩
    · rw [prepare_of_stash _ _ _ _ hd hfit hp]
      refine ⟨⟨_, rfl⟩, ?_⟩
      simp only [List.length_drop, List.length_append]
      omega
  · by_cases hfit : internalBuffer.length + ([] : Bytes).length + padding ≤ chunkLimit
    · rw [prepare_of_fit _ _ _ _ (Nat.zero_le _) hfit]
      simp only [List.length_nil] at hfit ⊢
      exact ⟨⟨_, rfl⟩, by omega, by omega⟩
    · rw [prepare_of_stash _ _ _ _ (Nat.zero_le _) hfit hp]
      refine ⟨⟨_, rfl⟩, ?_, ?_⟩
      · simp only [List.length_drop, List.length_append, List.length_nil]
        omega
      · simp only [List.length_drop, List.length_append, List.length_nil]
        omega

/-- C20 (witness): chunk limit 10 and padding 4: a buffer of 9 bytes and a chunk
of 10 bytes leave 13 bytes, and a buffer of 13 bytes without a chunk leaves 7
bytes. -/
theorem prepare_overflow_bound_witness :
    (prepareDataChunkWithPadding 10 (List.range 9) (List.range 10) 4).2.length < 10 + 4 ∧
      (prepareDataChunkWithPadding 10 (List.range 13) [] 4).2.length
        = (List.range 13).length + 4 - 10 :=
  ⟨((prepare_overflow_bound 10 (List.range 9) (List.range 10) 4 (by decide)).1
      (by decide) (by decide)).2,
    ((prepare_overflow_bound 10 (List.range 13) [] 4 (by decide)).2 (by decide)).2.1⟩

/-! ## The log cursor in every reachable state -/

theorem prepare_thrown {chunkLimit : Nat} {internalBuffer dataChunk : Bytes} {padding : Nat}
    {err : Error}
    (h : (prepareDataChunkWithPadding chunkLimit internalBuffer dataChunk padding).1
      = Prepared.thrown err) :
    err = Error.chunkBiggerThanLimit := by
  by_cases hd : dataChunk.length ≤ chunkLimit
  · rcases prepare_of_small chunkLimit internalBuffer dataChunk padding hd with ⟨body, hb⟩ | hr
    · rw [hb] at h
      exact Prepared.noConfusion h
    · rw [hr] at h
      exact Prepared.noConfusion h
  · rw [prepare_of_big _ _ _ _ (by omega)] at h
    simp only [Prepared.thrown.injEq] at h
    exact h.symm

theorem packLogChunk_thrown {env : Env} {r : PullBackupResponse} {e : Nat} {d : Bytes}
    {s : Reactor} {err : Error}
    (h : (packLogChunk env r e d s).1 = Outcome.thrown err) :
    err = Error.chunkBiggerThanLimit ∨ ∃ m, err = Error.upstream m := by
  simp only [packLogChunk, nextLog] at h
  rcases hp : prepareDataChunkWithPadding env.chunkLimit s.internalBuffer d e with ⟨p, buffer⟩
  have hp1 : (prepareDataChunkWithPadding env.chunkLimit s.internalBuffer d e).1 = p := by
    rw [hp]
  rw [hp] at h
  cases p with
  | thrown e' =>
    simp only [Outcome.thrown.injEq] at h
    rw [← h]
    exact Or.inl (prepare_thrown hp1)
  | outOfRange => simp at h
  | chunk body =>
    simp only at h
    cases hg : s.getReactor with
    | none => simp [hg] at h
    | some g =>
      cases hs : g.status with
      | some m =>
        simp only [hg, hs, Outcome.thrown.injEq] at h
        exact Or.inr ⟨m, h.symm⟩
      | none =>
        cases hc : s.currentLog with
        | none => by_cases hb : body = [] <;> simp [hg, hs, hc, hb] at h
        | some log => by_cases hb : body = [] <;> simp [hg, hs, hc, hb] at h

theorem writeLogChunk_thrown {env : Env} {r : PullBackupResponse} {e : Nat} {log : LogItem}
    {s : Reactor} {err : Error}
    (h : (writeLogChunk env r e log s).1 = Outcome.thrown err) :
    err = Error.chunkBiggerThanLimit ∨ ∃ m, err = Error.upstream m := by
  simp only [writeLogChunk] at h
  split at h
  · cases hq : s.dataChunks with
    | nil => simp [hq] at h
    | cons d rest =>
      simp only [hq] at h
      exact packLogChunk_thrown h
  · exact packLogChunk_thrown h

theorem writeLogs_thrown {env : Env} {r : PullBackupResponse} {e : Nat}
    {s : Reactor} {err : Error}
    (h : (writeLogs env r e s).1 = Outcome.thrown err) :
    err ≠ Error.atOutOfRange ∧
    (err = Error.logIndexOutOfBound → s.logs.length < s.currentLogIndex) := by
  simp only [writeLogs] at h
  by_cases h0 : s.logs = []
  · simp [h0] at h
  simp only [h0, if_false] at h
  by_cases h1 : s.currentLogIndex = s.logs.length
  · rw [if_pos h1] at h
    by_cases h2 : s.dataChunks = []
    · by_cases h3 : s.internalBuffer = [] <;> simp [h2, h3] at h
    · simp only [h2, ne_eq, not_false_eq_true, if_true, Outcome.thrown.injEq] at h
      rw [← h]
      exact ⟨by simp, by simp⟩
  · simp only [h1, if_false] at h
    by_cases h2 : s.currentLogIndex > s.logs.length
    · simp only [h2, if_true, Outcome.thrown.injEq] at h
      rw [← h]
      exact ⟨by simp, fun _ => h2⟩
    · simp only [h2, if_false] at h
      have hlt : s.currentLogIndex < s.logs.length := by omega
      have hfrom : (err = Error.chunkBiggerThanLimit ∨ ∃ m, err = Error.upstream m) →
          err ≠ Error.atOutOfRange ∧
          (err = Error.logIndexOutOfBound → s.logs.length < s.currentLogIndex) := by
        rintro (rfl | ⟨m, rfl⟩)
        · exact ⟨by simp, by simp⟩
        · exact ⟨by simp, by simp⟩
      cases hc : s.currentLog with
      | some log =>
        simp only [hc] at h
        exact hfrom (writeLogChunk_thrown h)
      | none =>
        simp only [hc] at h
        obtain ⟨log, hl⟩ : ∃ log, s.logs[s.currentLogIndex]? = some log :=
          ⟨s.logs[s.currentLogIndex], List.getElem?_eq_getElem hlt⟩
        simp only [hl] at h
        cases hp : log.persistedInBlob with
        | true =>
          simp only [hp, if_true, initializeGetReactor] at h
          cases hb : s.backupItem with
          | none =>
            simp only [hb, Outcome.thrown.injEq] at h
            rw [← h]
            exact ⟨by simp, by simp⟩
          | some item =>
            simp only [hb] at h
            exact hfrom (writeLogChunk_thrown h)
        | false =>
          simp [hp, nextLog] at h

theorem packCompaction_thrown {env : Env} {r : PullBackupResponse} {e : Nat} {d : Bytes}
    {s : Reactor} {err : Error}
    (h : (packCompaction env r e d s).1 = Outcome.thrown err) :
    err ≠ Error.atOutOfRange ∧
    (err = Error.logIndexOutOfBound → s.logs.length < s.currentLogIndex) := by
  simp only [packCompaction] at h
  by_cases hc : d ≠ [] ∨ s.internalBuffer.length + e ≥ env.chunkLimit
  · rw [if_pos hc] at h
    rcases hp : prepareDataChunkWithPadding env.chunkLimit s.internalBuffer d e with ⟨p, buffer⟩
    have hp1 : (prepareDataChunkWithPadding env.chunkLimit s.internalBuffer d e).1 = p := by
      rw [hp]
    rw [hp] at h
    cases p with
    | thrown e' =>
      simp only [Outcome.thrown.injEq] at h
      rw [← h, prepare_thrown hp1]
      exact ⟨by simp, by simp⟩
    | outOfRange => simp at h
    | chunk body => simp at h
  · rw [if_neg hc] at h
    by_cases hq : s.dataChunks = []
    · rw [if_neg (not_not.mpr hq)] at h
      cases hg : s.getReactor with
      | none => simp [hg] at h
      | some g =>
        cases hs : g.status with
        | some m =>
          simp only [hg, hs, Outcome.thrown.injEq] at h
          rw [← h]
          exact ⟨by simp, by simp⟩
        | none =>
          by_cases hb : s.internalBuffer = []
          · simp only [hg, hs, hb, ne_eq, not_true_eq_false, if_false] at h
            have hh := writeLogs_thrown h
            exact hh
          · simp only [hg, hs] at h
            rw [if_pos hb] at h
            simp at h
    · simp only [hq, ne_eq, not_false_eq_true, if_true, Outcome.thrown.injEq] at h
      rw [← h]
      exact ⟨by simp, by simp⟩

theorem readCompaction_thrown {env : Env} {r : PullBackupResponse} {e : Nat}
    {s : Reactor} {err : Error}
    (h : (readCompaction env r e s).1 = Outcome.thrown err) :
    err ≠ Error.atOutOfRange ∧
    (err = Error.logIndexOutOfBound → s.logs.length < s.currentLogIndex) := by
  simp only [readCompaction] at h
  split at h
  · cases hq : s.dataChunks with
    | nil => simp [hq] at h
    | cons d rest =>
      simp only [hq] at h
      have hh := packCompaction_thrown h
      exact hh
  · exact packCompaction_thrown h

theorem writeResponse_thrown {env : Env} {s : Reactor} {err : Error}
    (h : (writeResponse env s).1 = Outcome.thrown err) :
    err ≠ Error.atOutOfRange ∧
    (err = Error.logIndexOutOfBound → s.logs.length < s.currentLogIndex) := by
  rcases writeResponse_dispatch env s with ⟨-, hd⟩ | ⟨-, hd⟩
  · rw [hd] at h
    simp only [writeCompaction, initializeGetReactor] at h
    cases hb : s.backupItem with
    | none => simp [hb] at h
    | some item =>
      simp only [hb] at h
      cases hg : s.getReactor with
      | none =>
        simp only [hg] at h
        have hh := readCompaction_thrown h
        exact hh
      | some g =>
        simp only [hg] at h
        have hh := readCompaction_thrown h
        exact hh
  · rw [hd] at h
    exact writeLogs_thrown h

theorem run_logCursorInv (env : Env) :
    ∀ (n : Nat) (s t : Reactor), LogCursorInv s →
      (writeLoop env n s).2 = (Termination.running, t) →
      LogCursorInv t ∧ t.logs = s.logs := by
  intro n
  induction n with
  | zero =>
    intro s t hinv h
    simp only [writeLoop, Prod.mk.injEq, true_and] at h
    rw [← h]
    exact ⟨hinv, rfl⟩
  | succ n ih =>
    intro s t hinv h
    rcases hw : writeResponse env s with ⟨o, s'⟩
    cases o with
    | nullptr f =>
      have hf : (writeResponse env s).1 = Outcome.nullptr f := by rw [hw]
      have hs' : (writeResponse env s).2 = s' := by rw [hw]
      rw [writeLoop_of_nullptr n hf, hs'] at h
      obtain ⟨hinv', hlogs, -⟩ := writeResponse_step hinv hw
      obtain ⟨h1, h2⟩ := ih s' t hinv' h
      exact ⟨h1, h2.trans hlogs⟩
    | statusOK => simp [writeLoop, hw] at h
    | thrown e => simp [writeLoop, hw] at h
    | blocked => simp [writeLoop, hw] at h
    | undefined => simp [writeLoop, hw] at h

/-- C18: in every state reached from the initial state by calls that returned
"continue", the log index is at most the number of logs, a non-null current
log is the log at the index, which is then below the number of logs, and the
next call throws neither "log index out of bound" nor the `out_of_range` of
`logs.at(currentLogIndex)`. -/
theorem log_index_invariant (env : Env) (item : BackupItem) (logs : List LogItem) (n : Nat)
    (s : Reactor)
    (h : (writeLoop env n (Reactor.initial item logs)).2 = (Termination.running, s)) :
    s.logs = logs ∧ s.currentLogIndex ≤ logs.length ∧
    (∀ log, s.currentLog = some log →
      s.currentLogIndex < logs.length ∧ logs[s.currentLogIndex]? = some log) ∧
    (writeResponse env s).1 ≠ Outcome.thrown Error.logIndexOutOfBound ∧
    (writeResponse env s).1 ≠ Outcome.thrown Error.atOutOfRange := by
  obtain ⟨⟨hle, hcur, -⟩, hlogs⟩ :=
    run_logCursorInv env n _ s (logCursorInv_initial item logs) h
  have hlogs' : s.logs = logs := hlogs
  rw [hlogs'] at hle hcur
  refine ⟨hlogs', hle, fun log hl => ?_, fun hthrown => ?_, fun hthrown => ?_⟩
  · have hget := hcur log hl
    exact ⟨(List.getElem?_eq_some_iff.mp hget).1, hget⟩
  · have := (writeResponse_thrown hthrown).2 rfl
    rw [hlogs'] at this
    omega
  · exact (writeResponse_thrown hthrown).1 rfl

/-- C18 (witness): after three calls of the run over the 123-byte blob-backed log
the log is open at index 0, within the one log. -/
theorem log_index_invariant_witness :
    (writeLoop (smallEnv logStore) 3 (Reactor.initial smallItem [blobLog 1 101])).2.1
      = Termination.running ∧
    (writeLoop (smallEnv logStore) 3
        (Reactor.initial smallItem [blobLog 1 101])).2.2.currentLogIndex
      ≤ [blobLog 1 101].length ∧
    (writeResponse (smallEnv logStore)
        (writeLoop (smallEnv logStore) 3 (Reactor.initial smallItem [blobLog 1 101])).2.2).1
      ≠ Outcome.thrown Error.logIndexOutOfBound :=
  ⟨rfl,
    (log_index_invariant (smallEnv logStore) smallItem [blobLog 1 101] 3
      (writeLoop (smallEnv logStore) 3 (Reactor.initial smallItem [blobLog 1 101])).2.2
      rfl).2.1,
    (log_index_invariant (smallEnv logStore) smallItem [blobLog 1 101] 3
      (writeLoop (smallEnv logStore) 3 (Reactor.initial smallItem [blobLog 1 101])).2.2
      rfl).2.2.2.1⟩

/-! ## A failing compaction source, and the skipped queue read -/

theorem initial_first_call_of_status {env : Env} {item : BackupItem} (logs : List LogItem)
    {chunk : Bytes} {queue : List Bytes} {status : Option Bytes}
    (hblob : env.blobGet item.compactionHolder = { chunks := chunk :: queue, status := status })
    (hchunk : chunk.length = env.chunkLimit)
    (hpos : 0 < env.FIELD_BACKUP_ID.length + item.backupID.length)
    (hlt : env.FIELD_BACKUP_ID.length + item.backupID.length
      + env.FIELD_ATTACHMENT_HOLDERS.length + item.attachmentHolders.length < env.chunkLimit) :
    (∃ f, (writeResponse env (Reactor.initial item logs)).1 = Outcome.nullptr f) ∧
      ReadingCompaction item
        (env.FIELD_BACKUP_ID.length + item.backupID.length
          + env.FIELD_ATTACHMENT_HOLDERS.length + item.attachmentHolders.length)
        (queue ++ [[]]) (writeResponse env (Reactor.initial item logs)).2 := by
  have hne : chunk ≠ [] := by
    intro h
    rw [h] at hchunk
    simp only [List.length_nil] at hchunk
    omega
  have hprep := prepare_of_stash env.chunkLimit [] chunk
    (env.FIELD_BACKUP_ID.length + item.backupID.length
      + env.FIELD_ATTACHMENT_HOLDERS.length + item.attachmentHolders.length)
    (by omega) (by simp only [List.length_nil]; omega) (by omega)
  have hw : writeResponse env (Reactor.initial item logs)
      = (Outcome.nullptr
          { PullBackupResponse.fresh with
            backupID := item.backupID,
            attachmentHolders := item.attachmentHolders,
            compactionChunk := ([] ++ chunk).take
              (env.chunkLimit - (env.FIELD_BACKUP_ID.length + item.backupID.length
                + env.FIELD_ATTACHMENT_HOLDERS.length + item.attachmentHolders.length)) },
         { Reactor.initial item logs with
            getReactor := some { holder := item.compactionHolder, status := status },
            dataChunks := queue ++ [[]],
            internalBuffer := ([] ++ chunk).drop
              (env.chunkLimit - (env.FIELD_BACKUP_ID.length + item.backupID.length
                + env.FIELD_ATTACHMENT_HOLDERS.length + item.attachmentHolders.length)) }) := by
    have hzero : 0 < env.chunkLimit := by omega
    simp only [writeResponse, Reactor.initial, writeCompaction, initializeGetReactor, hblob,
      readCompaction, List.length_nil, hzero, if_true, List.nil_append, List.cons_append,
      packCompaction, hne, ne_eq, not_false_eq_true, true_or, hprep]
  rw [hw]
  refine ⟨⟨_, rfl⟩, rfl, rfl, by simp, rfl, ?_⟩
  simp only [List.length_drop, List.length_append, List.length_nil]
  omega

/-- C13 (code at the failing inputs): a compaction whose source ends with a
non-ok status of message `message`, for every chunk limit and all field names.
With `b` the size of the backup id field (name and value, positive) and `a`
that of the backup id and attachment holders fields together (below the chunk
limit), let the source deliver `(chunkLimit - a - 1) / b + 1` chunks of
exactly `chunkLimit` bytes before the sentinel. The chunks are well formed,
and the run is blocked in `blockingRead` after the sentinel was read, however
many calls are allowed: it does not end with the error of the source. -/
theorem compaction_error_not_reported (env : Env) (item : BackupItem)
    (logs : List LogItem) (message : Bytes) (n : Nat)
    (hpos : 0 < env.FIELD_BACKUP_ID.length + item.backupID.length)
    (hlt : env.FIELD_BACKUP_ID.length + item.backupID.length
      + env.FIELD_ATTACHMENT_HOLDERS.length + item.attachmentHolders.length < env.chunkLimit)
    (hblob : env.blobGet item.compactionHolder
      = { chunks := List.replicate
            ((env.chunkLimit - (env.FIELD_BACKUP_ID.length + item.backupID.length
                + env.FIELD_ATTACHMENT_HOLDERS.length + item.attachmentHolders.length) - 1)
              / (env.FIELD_BACKUP_ID.length + item.backupID.length) + 1)
            (List.replicate env.chunkLimit 0),
          status := some message }) :
    (∀ c ∈ (env.blobGet item.compactionHolder).chunks, c ≠ [] ∧ c.length ≤ env.chunkLimit) ∧
    (writeLoop env
        ((env.chunkLimit - (env.FIELD_BACKUP_ID.length + item.backupID.length
              + env.FIELD_ATTACHMENT_HOLDERS.length + item.attachmentHolders.length) - 1)
            / (env.FIELD_BACKUP_ID.length + item.backupID.length) + 3 + n)
        (Reactor.initial item logs)).2.1 = Termination.blocked ∧
    (writeLoop env
        ((env.chunkLimit - (env.FIELD_BACKUP_ID.length + item.backupID.length
              + env.FIELD_ATTACHMENT_HOLDERS.length + item.attachmentHolders.length) - 1)
            / (env.FIELD_BACKUP_ID.length + item.backupID.length) + 3 + n)
        (Reactor.initial item logs)).2.1 ≠ Termination.error (Error.upstream message) := by
  generalize hb : env.FIELD_BACKUP_ID.length + item.backupID.length = b at *
  generalize ha : b + env.FIELD_ATTACHMENT_HOLDERS.length + item.attachmentHolders.length
    = a at *
  generalize hk : (env.chunkLimit - a - 1) / b = k at *
  have hmul : k * b ≤ env.chunkLimit - a - 1 := by
    rw [← hk]
    exact Nat.div_mul_le_self _ _
  have hsucc : env.chunkLimit - a - 1 < (k + 1) * b := by
    rw [← hk, Nat.mul_comm]
    exact Nat.lt_mul_div_succ _ hpos
  have hblocked : (writeLoop env (k + 3 + n) (Reactor.initial item logs)).2.1
      = Termination.blocked := by
    rw [List.replicate_succ] at hblob
    have hchunk : (List.replicate env.chunkLimit 0 : Bytes).length = env.chunkLimit :=
      List.length_replicate _ _
    have hfirst := initial_first_call_of_status logs hblob hchunk (by omega) (by omega)
    rw [hb, ha] at hfirst
    obtain ⟨⟨f, hf⟩, hs⟩ := hfirst
    have hfuel : k + 3 + n = (k + 2 + n) + 1 := by omega
    rw [hfuel, writeLoop_of_nullptr (k + 2 + n) hf]
    have hrun := readingCompaction_blocks env item (List.replicate env.chunkLimit 0) n hchunk
      (by omega) (by omega) k a _ hs
    rw [hb] at hrun
    exact hrun (by omega) (by omega)
  refine ⟨?_, hblocked, ?_⟩
  · intro c hc
    rw [hblob] at hc
    have hc' := List.eq_of_mem_replicate hc
    rw [hc', List.length_replicate]
    refine ⟨?_, Nat.le_refl _⟩
    intro hnil
    have hlen := congrArg List.length hnil
    simp only [List.length_replicate, List.length_nil] at hlen
    omega
  · rw [hblocked]
    simp

/-- C13 (witness): chunk limit 40, a one-byte backup id, no attachment holders,
and a source that delivers two chunks of 40 bytes and ends with the error
"BOOM": after three frames the run is blocked, and the state is still
`COMPACTION`. -/
theorem compaction_error_not_reported_witness :
    (writeLoop (smallEnv failingStore) 4 (Reactor.initial smallItem [])).2.1
        = Termination.blocked ∧
      (writeLoop (smallEnv failingStore) 4 (Reactor.initial smallItem [])).1.length = 3 ∧
      (writeLoop (smallEnv failingStore) 4 (Reactor.initial smallItem [])).2.2.state
        = State.COMPACTION :=
  ⟨(compaction_error_not_reported (smallEnv failingStore) smallItem [] [66, 79, 79, 77] 0
      (by decide) (by decide) rfl).2.1, rfl, rfl⟩

/-- C19 (code at the failing inputs): while a blob-backed log is being read with
the end-of-queue flag false, a call that finds the internal buffer at or above
the chunk limit skips the queue read, returns "continue", and leaves the flag
true with the queue exactly as it was: nothing, and no sentinel, was read. -/
theorem skipped_read_sets_end_of_queue (env : Env) (s : Reactor) (log : LogItem)
    (index size : Nat) (queue : List Bytes)
    (hs : ReadingLog log index size queue false s)
    (hfull : env.chunkLimit ≤ size)
    (hlt : env.FIELD_LOG_ID.length + log.logID.length < env.chunkLimit) :
    (∃ f, (writeResponse env s).1 = Outcome.nullptr f) ∧
    (writeResponse env s).2.endOfQueue = true ∧
    (writeResponse env s).2.dataChunks = queue ∧
    s.dataChunks = queue := by
  obtain ⟨hf, hs'⟩ := readingLog_skip env hs (Or.inl hfull) (by omega) hlt
  obtain ⟨-, -, -, -, -, hq', -, hflag⟩ := hs'
  obtain ⟨-, -, -, -, -, hq, -, -⟩ := hs
  exact ⟨hf, hflag, hq', hq⟩

/-- C19 (witness): chunk limit 40, a one-byte compaction and one blob-backed log
of three chunks of 40 bytes and a chunk of one byte. After four calls, all
returning "continue", the internal buffer holds 44 bytes, the flag is false
and the queue holds the log's last chunk and its sentinel; the fifth call
reads nothing and sets the flag. -/
theorem skipped_read_sets_end_of_queue_witness :
    (writeLoop (smallEnv spillStore) 4 (Reactor.initial smallItem [blobLog 1 101])).2.1
        = Termination.running ∧
      (writeLoop (smallEnv spillStore) 4
          (Reactor.initial smallItem [blobLog 1 101])).2.2.endOfQueue = false ∧
      (writeLoop (smallEnv spillStore) 4
          (Reactor.initial smallItem [blobLog 1 101])).2.2.dataChunks = [[0], []] ∧
      (writeResponse (smallEnv spillStore)
          (writeLoop (smallEnv spillStore) 4
            (Reactor.initial smallItem [blobLog 1 101])).2.2).2.endOfQueue = true ∧
      (writeResponse (smallEnv spillStore)
          (writeLoop (smallEnv spillStore) 4
            (Reactor.initial smallItem [blobLog 1 101])).2.2).2.dataChunks = [[0], []] :=
  ⟨rfl, rfl, rfl,
    (skipped_read_sets_end_of_queue (smallEnv spillStore)
      (writeLoop (smallEnv spillStore) 4 (Reactor.initial smallItem [blobLog 1 101])).2.2
      (blobLog 1 101) 0 44 [[0], []]
      ⟨rfl, rfl, by decide, rfl, ⟨_, rfl, rfl⟩, rfl, rfl, rfl⟩ (by decide) (by decide)).2.1,
    (skipped_read_sets_end_of_queue (smallEnv spillStore)
      (writeLoop (smallEnv spillStore) 4 (Reactor.initial smallItem [blobLog 1 101])).2.2
      (blobLog 1 101) 0 44 [[0], []]
      ⟨rfl, rfl, by decide, rfl, ⟨_, rfl, rfl⟩, rfl, rfl, rfl⟩ (by decide) (by decide)).2.2.1⟩

/-! ## The size of the internal buffer between frames -/

theorem le_foldr_max {l : List Nat} {a : Nat} (h : a ∈ l) : a ≤ l.foldr max 0 := by
  induction l with
  | nil => cases h
  | cons b l ih =>
    simp only [List.foldr_cons]
    rcases List.mem_cons.mp h with rfl | hmem
    · exact Nat.le_max_left _ _
    · exact Nat.le_trans (ih hmem) (Nat.le_max_right _ _)

theorem logExtraBytes_le {env : Env} {item : BackupItem} {logs : List LogItem} {log : LogItem}
    (h : log ∈ logs) :
    env.FIELD_BACKUP_ID.length + item.backupID.length
      + env.FIELD_ATTACHMENT_HOLDERS.length + item.attachmentHolders.length
      + logExtraBytes env log ≤ maxExtraBytes env item logs := by
  unfold maxExtraBytes
  have := le_foldr_max (List.mem_map_of_mem (logExtraBytes env) h)
  omega

theorem prepare_buffer_bound {chunkLimit : Nat} {internalBuffer dataChunk : Bytes}
    {padding : Nat} {body buffer : Bytes} {bound : Nat}
    (h : prepareDataChunkWithPadding chunkLimit internalBuffer dataChunk padding
      = (Prepared.chunk body, buffer))
    (hp : padding ≤ bound) (hb : internalBuffer.length < chunkLimit + min bound chunkLimit)
    (hread : dataChunk ≠ [] → internalBuffer.length < chunkLimit) :
    buffer.length < chunkLimit + min bound chunkLimit := by
  by_cases hd : dataChunk.length ≤ chunkLimit
  · by_cases hf : internalBuffer.length + dataChunk.length + padding ≤ chunkLimit
    · rw [prepare_of_fit _ _ _ _ hd hf] at h
      simp only [Prod.mk.injEq, Prepared.chunk.injEq] at h
      rw [← h.2, List.length_nil]
      omega
    · by_cases hpl : padding ≤ chunkLimit
      · rw [prepare_of_stash _ _ _ _ hd hf hpl] at h
        simp only [Prod.mk.injEq, Prepared.chunk.injEq] at h
        rw [← h.2, List.length_drop, List.length_append]
        by_cases hnil : dataChunk = []
        · rw [hnil, List.length_nil]
          omega
        · have := hread hnil
          omega
      · rw [prepare_of_range _ _ _ _ hd hf (by omega)] at h
        simp at h
  · rw [prepare_of_big _ _ _ _ (by omega)] at h
    simp at h

theorem writeLogChunk_buffer {env : Env} {r : PullBackupResponse} {e : Nat} {log : LogItem}
    {s : Reactor} {f : PullBackupResponse} {s' : Reactor} {bound : Nat}
    (h : writeLogChunk env r e log s = (Outcome.nullptr f, s'))
    (he : e ≤ bound) (hb : s.internalBuffer.length < env.chunkLimit + min bound env.chunkLimit) :
    s'.internalBuffer.length < env.chunkLimit + min bound env.chunkLimit ∧ s'.backupItem = s.backupItem := by
  obtain ⟨d, queue, body, buffer, hread, hprep, hout⟩ := writeLogChunk_frame h
  have hbuf : buffer.length < env.chunkLimit + min bound env.chunkLimit := by
    refine prepare_buffer_bound hprep he hb ?_
    intro hd
    rcases hread with ⟨hlt, -, -⟩ | ⟨-, hnil, -⟩
    · exact hlt
    · exact absurd hnil hd
  rcases hout with ⟨-, -, current, -, rfl⟩ | ⟨-, -, rfl⟩
  · exact ⟨hbuf, rfl⟩
  · exact ⟨hbuf, rfl⟩

theorem writeLogs_buffer {env : Env} {r : PullBackupResponse} {e : Nat}
    {s : Reactor} {f : PullBackupResponse} {s' : Reactor} {bound : Nat}
    (h : writeLogs env r e s = (Outcome.nullptr f, s'))
    (hinv : LogCursorInv s)
    (he : ∀ log ∈ s.logs, e + logExtraBytes env log ≤ bound)
    (hb : s.internalBuffer.length < env.chunkLimit + min bound env.chunkLimit) :
    s'.internalBuffer.length < env.chunkLimit + min bound env.chunkLimit ∧ s'.backupItem = s.backupItem := by
  obtain ⟨-, hcases⟩ := writeLogs_nullptr h
  obtain ⟨-, hcur, -⟩ := hinv
  rcases hcases with ⟨-, -, -, -, rfl⟩ | ⟨-, -, log, -, -, -, rfl⟩ |
      ⟨-, -, log, s1, hlog, -, hinit, hchunk⟩ | ⟨-, log, hsome, hchunk⟩
  · exact ⟨by simp only [List.length_nil]; omega, rfl⟩
  · exact ⟨hb, rfl⟩
  · obtain ⟨-, rfl⟩ := initializeGetReactor_ok hinit
    have hmem : log ∈ s.logs := List.getElem?_mem hlog
    have := he log hmem
    unfold logExtraBytes at this
    have hh := writeLogChunk_buffer hchunk (Nat.le_trans (by omega) this) hb
    exact hh
  · have hmem : log ∈ s.logs := List.getElem?_mem (hcur log hsome)
    have := he log hmem
    unfold logExtraBytes at this
    have hh := writeLogChunk_buffer hchunk (Nat.le_trans (by omega) this) hb
    exact hh

theorem run_invariant (env : Env) (P : Reactor → Prop)
    (hstep : ∀ (s : Reactor) (f : PullBackupResponse) (s' : Reactor),
      P s → writeResponse env s = (Outcome.nullptr f, s') → P s') :
    ∀ (n : Nat) (s t : Reactor), P s →
      (writeLoop env n s).2 = (Termination.running, t) → P t := by
  intro n
  induction n with
  | zero =>
    intro s t hP h
    simp only [writeLoop, Prod.mk.injEq, true_and] at h
    rw [← h]
    exact hP
  | succ n ih =>
    intro s t hP h
    rcases hw : writeResponse env s with ⟨o, s'⟩
    cases o with
    | nullptr f =>
      have hf : (writeResponse env s).1 = Outcome.nullptr f := by rw [hw]
      have hs' : (writeResponse env s).2 = s' := by rw [hw]
      rw [writeLoop_of_nullptr n hf, hs'] at h
      exact ih s' t (hstep s f s' hP hw) h
    | statusOK => simp [writeLoop, hw] at h
    | thrown e => simp [writeLoop, hw] at h
    | blocked => simp [writeLoop, hw] at h
    | undefined => simp [writeLoop, hw] at h

theorem readCompaction_buffer {env : Env} {r : PullBackupResponse} {e : Nat}
    {s : Reactor} {f : PullBackupResponse} {s' : Reactor} {bound : Nat}
    (h : readCompaction env r e s = (Outcome.nullptr f, s'))
    (hinv : LogCursorInv s)
    (he : ∀ log ∈ s.logs, e + logExtraBytes env log ≤ bound) (he0 : e ≤ bound)
    (hb : s.internalBuffer.length < env.chunkLimit + min bound env.chunkLimit) :
    s'.internalBuffer.length < env.chunkLimit + min bound env.chunkLimit ∧ s'.backupItem = s.backupItem := by
  obtain ⟨d, s1, hread, hpack⟩ := readCompaction_nullptr h
  have h1 : s1.internalBuffer = s.internalBuffer ∧ s1.backupItem = s.backupItem ∧
      s1.logs = s.logs ∧ s1.currentLogIndex = s.currentLogIndex ∧
      s1.currentLog = s.currentLog ∧ s1.previousLogID = s.previousLogID ∧
      (d ≠ [] → s.internalBuffer.length < env.chunkLimit) := by
    rcases hread with ⟨hlt, rest, -, rfl⟩ | ⟨-, hd, rfl⟩
    · exact ⟨rfl, rfl, rfl, rfl, rfl, rfl, fun _ => hlt⟩
    · exact ⟨rfl, rfl, rfl, rfl, rfl, rfl, fun hne => absurd hd hne⟩
  obtain ⟨hbuf, hitem, hlogs, hidx, hcur, hprev, hd⟩ := h1
  rcases packCompaction_nullptr hpack with
    ⟨-, body, buffer, hprep, -, rfl⟩ | ⟨-, -, -, ⟨-, -, rfl⟩ | ⟨-, hlog⟩⟩
  · rw [hbuf] at hprep
    exact ⟨prepare_buffer_bound hprep he0 hb hd, hitem⟩
  · exact ⟨by simp only [List.length_nil]; omega, hitem⟩
  · have hinv1 : LogCursorInv { s1 with state := State.LOGS } :=
      logCursorInv_of_eq hinv hlogs hidx hcur hprev
    have hh := writeLogs_buffer hlog hinv1 (by rw [← hlogs] at he; exact he)
      (by rw [← hbuf] at hb; exact hb)
    exact ⟨hh.1, hh.2.trans hitem⟩

theorem writeResponse_buffer {env : Env} {item : BackupItem}
    {s : Reactor} {f : PullBackupResponse} {s' : Reactor}
    (h : writeResponse env s = (Outcome.nullptr f, s'))
    (hinv : LogCursorInv s) (hitem : s.backupItem = some item)
    (hb : s.internalBuffer.length < env.chunkLimit + min (maxExtraBytes env item s.logs) env.chunkLimit) :
    s'.internalBuffer.length < env.chunkLimit + min (maxExtraBytes env item s.logs) env.chunkLimit ∧
      s'.backupItem = some item := by
  have hmax : ∀ log ∈ s.logs,
      env.FIELD_BACKUP_ID.length + item.backupID.length
        + env.FIELD_ATTACHMENT_HOLDERS.length + item.attachmentHolders.length
        + logExtraBytes env log ≤ maxExtraBytes env item s.logs :=
    fun log hmem => logExtraBytes_le hmem
  have hmax0 : env.FIELD_BACKUP_ID.length + item.backupID.length
        + env.FIELD_ATTACHMENT_HOLDERS.length + item.attachmentHolders.length
        ≤ maxExtraBytes env item s.logs := by
    unfold maxExtraBytes
    omega
  rcases writeResponse_dispatch env s with ⟨hs, hw⟩ | ⟨hs, hw⟩
  · rw [hw] at h
    obtain ⟨item', hitem', hcases⟩ := writeCompaction_nullptr h
    rw [hitem] at hitem'
    cases hitem'
    rcases hcases with ⟨-, s1, hinit, hread⟩ | ⟨-, hread⟩
    · obtain ⟨-, rfl⟩ := initializeGetReactor_ok hinit
      have hh := readCompaction_buffer hread
        (logCursorInv_of_eq hinv rfl rfl rfl rfl) hmax hmax0 hb
      exact ⟨hh.1, hh.2.trans hitem⟩
    · have hh := readCompaction_buffer hread hinv
        (fun log hmem => Nat.le_trans (by omega) (hmax log hmem))
        (Nat.le_trans (by omega) hmax0) hb
      exact ⟨hh.1, hh.2.trans hitem⟩
  · rw [hw] at h
    have hh := writeLogs_buffer h hinv
      (fun log hmem => Nat.le_trans (by omega) (hmax log hmem)) hb
    exact ⟨hh.1, hh.2.trans hitem⟩

/-- C17 as stated fails: with chunk limit 40 and a blob-backed log whose blob
arrives as two chunks of 40 bytes and one of 1 byte (each within the chunk
limit), the fourth call returns "continue" and leaves 44 bytes in the internal
buffer, which started empty. -/
theorem buffer_exceeds_chunk_limit :
    (∀ chunk ∈ (spillStore [101]).chunks, chunk.length ≤ (smallEnv spillStore).chunkLimit) ∧
    (Reactor.initial smallItem [blobLog 1 101]).internalBuffer = [] ∧
    (writeLoop (smallEnv spillStore) 4 (Reactor.initial smallItem [blobLog 1 101])).2.1
      = Termination.running ∧
    (writeLoop (smallEnv spillStore) 4
      (Reactor.initial smallItem [blobLog 1 101])).2.2.internalBuffer.length = 44 ∧
    ¬ (writeLoop (smallEnv spillStore) 4
      (Reactor.initial smallItem [blobLog 1 101])).2.2.internalBuffer.length
        ≤ (smallEnv spillStore).chunkLimit := by
  refine ⟨by decide, rfl, rfl, rfl, by decide⟩

/-- C17, amended: starting from the empty internal buffer, after every call
that returned "continue", in both phases, the internal buffer holds fewer
than `chunkLimit + maxExtraBytes` bytes, where `maxExtraBytes` is the largest
extra byte count of a frame (the backup id and attachment holders fields, plus
the largest log id and attachment holders fields of a log), and fewer than
twice the chunk limit. -/
theorem internal_buffer_bound (env : Env) (item : BackupItem) (logs : List LogItem) (n : Nat)
    (s : Reactor) (hpos : 0 < env.chunkLimit)
    (h : (writeLoop env n (Reactor.initial item logs)).2 = (Termination.running, s)) :
    s.internalBuffer.length < env.chunkLimit + maxExtraBytes env item logs ∧
      s.internalBuffer.length < 2 * env.chunkLimit := by
  have hrun := run_invariant env
    (fun t => LogCursorInv t ∧ t.logs = logs ∧ t.backupItem = some item ∧
      t.internalBuffer.length
        < env.chunkLimit + min (maxExtraBytes env item logs) env.chunkLimit)
    (fun t f t' hP hw => by
      obtain ⟨hinv, hlogs, hitem, hb⟩ := hP
      obtain ⟨hinv', hlogs', -⟩ := writeResponse_step hinv hw
      rw [← hlogs] at hb
      have hh := writeResponse_buffer hw hinv hitem hb
      rw [hlogs] at hh
      exact ⟨hinv', hlogs'.trans hlogs, hh.2, hh.1⟩)
    n (Reactor.initial item logs) s
    ⟨logCursorInv_initial item logs, rfl, rfl, by
      show (0 : Nat) < env.chunkLimit + min (maxExtraBytes env item logs) env.chunkLimit
      omega⟩ h
  have hlt := hrun.2.2.2
  constructor
  · exact Nat.lt_of_lt_of_le hlt (Nat.add_le_add_left (Nat.min_le_left _ _) _)
  · have := Nat.min_le_right (maxExtraBytes env item logs) env.chunkLimit
    omega

/-- C17, amended (witness): in the run of the counterexample the chunk limit is
40 and the largest extra byte count is 49; after the fourth call the buffer
holds 44 bytes, fewer than 89 and fewer than 80. -/
theorem internal_buffer_bound_witness :
    0 < (smallEnv spillStore).chunkLimit ∧
    (writeLoop (smallEnv spillStore) 4 (Reactor.initial smallItem [blobLog 1 101])).2.1
      = Termination.running ∧
    maxExtraBytes (smallEnv spillStore) smallItem [blobLog 1 101] = 49 ∧
    ((writeLoop (smallEnv spillStore) 4
        (Reactor.initial smallItem [blobLog 1 101])).2.2.internalBuffer.length
      < (smallEnv spillStore).chunkLimit
        + maxExtraBytes (smallEnv spillStore) smallItem [blobLog 1 101] ∧
     (writeLoop (smallEnv spillStore) 4
        (Reactor.initial smallItem [blobLog 1 101])).2.2.internalBuffer.length
      < 2 * (smallEnv spillStore).chunkLimit) :=
  ⟨by decide, rfl, rfl,
    internal_buffer_bound (smallEnv spillStore) smallItem [blobLog 1 101] 4
      (writeLoop (smallEnv spillStore) 4 (Reactor.initial smallItem [blobLog 1 101])).2.2
      (by decide) rfl⟩

/-! ## The attachment holders of a frame -/

theorem writeLogChunk_holders {env : Env} {r : PullBackupResponse} {e : Nat} {log : LogItem}
    {s : Reactor} {f : PullBackupResponse} {s' : Reactor}
    (h : writeLogChunk env r e log s = (Outcome.nullptr f, s')) :
    f.attachmentHolders = r.attachmentHolders ∧ f.compactionChunk = r.compactionChunk ∧
      s'.backupItem = s.backupItem ∧ s'.logs = s.logs ∧ s'.state = s.state ∧
      s'.getReactor = s.getReactor := by
  obtain ⟨d, queue, body, buffer, -, -, hout⟩ := writeLogChunk_frame h
  rcases hout with ⟨-, rfl, current, -, rfl⟩ | ⟨-, rfl, rfl⟩
  · exact ⟨rfl, rfl, rfl, rfl, rfl, rfl⟩
  · exact ⟨rfl, rfl, rfl, rfl, rfl, rfl⟩

theorem writeLogs_holders {env : Env} {r : PullBackupResponse} {e : Nat}
    {s : Reactor} {f : PullBackupResponse} {s' : Reactor}
    (h : writeLogs env r e s = (Outcome.nullptr f, s')) :
    s.logs ≠ [] ∧
    (∀ log, s.currentLog = none → s.logs[s.currentLogIndex]? = some log →
      f.attachmentHolders = log.attachmentHolders) ∧
    (s.currentLog ≠ none → f.attachmentHolders = r.attachmentHolders) ∧
    (s.currentLogIndex = s.logs.length → f.attachmentHolders = r.attachmentHolders) ∧
    f.compactionChunk = r.compactionChunk ∧
    s'.backupItem = s.backupItem ∧ s'.logs = s.logs ∧ s'.state = s.state ∧
    (s.getReactor ≠ none → s'.getReactor ≠ none) := by
  obtain ⟨hne, hcases⟩ := writeLogs_nullptr h
  refine ⟨hne, ?_⟩
  rcases hcases with ⟨hidx, -, -, rfl, rfl⟩ | ⟨hidx, hcur, log, hlog, -, rfl, rfl⟩ |
      ⟨hidx, hcur, log, s1, hlog, -, hinit, hchunk⟩ | ⟨hidx, log, hsome, hchunk⟩
  · refine ⟨fun log _ hl => ?_, fun _ => rfl, fun _ => rfl, rfl, rfl, rfl, rfl, fun hg => hg⟩
    rw [hidx, List.getElem?_eq_none (Nat.le_refl _)] at hl
    cases hl
  · refine ⟨fun log' _ hl => ?_, fun hc => absurd hcur hc, fun he => ?_,
      rfl, rfl, rfl, rfl, fun hg => hg⟩
    · rw [hlog] at hl
      cases hl
      rfl
    · omega
  · obtain ⟨-, rfl⟩ := initializeGetReactor_ok hinit
    obtain ⟨h1, h2, h3, h4, h5, h6⟩ := writeLogChunk_holders hchunk
    refine ⟨fun log' _ hl => ?_, fun hc => absurd hcur hc, fun he => ?_,
      h2, h3, h4, h5, fun _ => ?_⟩
    · rw [hlog] at hl
      cases hl
      exact h1
    · omega
    · rw [h6]
      simp
  · obtain ⟨h1, h2, h3, h4, h5, h6⟩ := writeLogChunk_holders hchunk
    refine ⟨fun log' hc _ => ?_, fun _ => h1, fun he => ?_, h2, h3, h4, h5, fun hg => ?_⟩
    · rw [hsome] at hc
      cases hc
    · omega
    · rw [h6]
      exact hg

theorem readCompaction_holders {env : Env} {r : PullBackupResponse} {e : Nat}
    {s : Reactor} {f : PullBackupResponse} {s' : Reactor}
    (h : readCompaction env r e s = (Outcome.nullptr f, s'))
    (hr : r.compactionChunk = []) (hstate : s.state = State.COMPACTION)
    (hcur : s.currentLog = none) (hidx : s.currentLogIndex = 0) :
    ((f.compactionChunk ≠ [] ∨ s'.state = State.COMPACTION) →
      f.attachmentHolders = r.attachmentHolders) ∧
    (f.compactionChunk = [] → s'.state = State.LOGS →
      s.logs ≠ [] ∧
      ∀ log, s.logs[s.currentLogIndex]? = some log →
        f.attachmentHolders = log.attachmentHolders) ∧
    s'.backupItem = s.backupItem ∧ s'.logs = s.logs ∧
    (s'.state = State.COMPACTION → s'.currentLog = none ∧ s'.currentLogIndex = 0) ∧
    (s.getReactor ≠ none → s'.getReactor ≠ none) := by
  obtain ⟨d, s1, hread, hpack⟩ := readCompaction_nullptr h
  have h1 : s1.backupItem = s.backupItem ∧ s1.logs = s.logs ∧ s1.state = s.state ∧
      s1.currentLogIndex = s.currentLogIndex ∧ s1.currentLog = s.currentLog ∧
      s1.getReactor = s.getReactor := by
    rcases hread with ⟨-, rest, -, rfl⟩ | ⟨-, -, rfl⟩
    · exact ⟨rfl, rfl, rfl, rfl, rfl, rfl⟩
    · exact ⟨rfl, rfl, rfl, rfl, rfl, rfl⟩
  obtain ⟨hitem, hlogs, hst, hi, hc, hg⟩ := h1
  rcases packCompaction_nullptr hpack with
    ⟨-, body, buffer, -, rfl, rfl⟩ | ⟨-, -, -, ⟨hne, rfl, rfl⟩ | ⟨-, hlog⟩⟩
  · refine ⟨fun _ => rfl, fun _ hl => ?_, hitem, hlogs, fun _ => ⟨hc.trans hcur, hi.trans hidx⟩,
      fun hn => by rw [hg]; exact hn⟩
    rw [show ({ s1 with internalBuffer := buffer } : Reactor).state = s1.state from rfl,
      hst, hstate] at hl
    cases hl
  · refine ⟨fun _ => rfl, fun hnil _ => absurd hnil hne, hitem, hlogs,
      fun hl => State.noConfusion hl, fun hn => by rw [hg]; exact hn⟩
  · obtain ⟨k0, k1, -, -, k4, k5, k6, k7, k8⟩ := writeLogs_holders hlog
    have k7' : s'.state = State.LOGS := k7
    refine ⟨fun hor => ?_, fun _ _ => ⟨by rw [← hlogs]; exact k0, fun log hl => ?_⟩,
      k5.trans hitem, k6.trans hlogs, fun hl => ?_, fun hn => k8 (by rw [← hg] at hn; exact hn)⟩
    · rcases hor with hne | hl
      · exact absurd (k4.trans hr) hne
      · rw [k7'] at hl
        cases hl
    · refine k1 log (hc.trans hcur) ?_
      rw [← hlogs, ← hi] at hl
      exact hl
    · rw [k7'] at hl
      cases hl

theorem writeResponse_holders {env : Env} {item : BackupItem} {logs : List LogItem}
    {s : Reactor} {f : PullBackupResponse} {s' : Reactor}
    (hP : PhaseInv item logs s) (h : writeResponse env s = (Outcome.nullptr f, s')) :
    (PhaseInv item logs s' ∧ s'.getReactor ≠ none) ∧
    ((f.compactionChunk ≠ [] ∨ s'.state = State.COMPACTION) →
      (s.getReactor = none → f.attachmentHolders = item.attachmentHolders) ∧
      (s.getReactor ≠ none → f.attachmentHolders = [])) ∧
    (f.compactionChunk = [] → s'.state = State.LOGS →
      (∀ log, s.currentLog = none → logs[s.currentLogIndex]? = some log →
        f.attachmentHolders = log.attachmentHolders) ∧
      (s.currentLog ≠ none → f.attachmentHolders = []) ∧
      (s.currentLogIndex = logs.length → f.attachmentHolders = [])) := by
  obtain ⟨hitem, hlogs, hcomp, hlog⟩ := hP
  rcases writeResponse_dispatch env s with ⟨hs, hw⟩ | ⟨hs, hw⟩
  · rw [hw] at h
    obtain ⟨hcur, hidx⟩ := hcomp hs
    obtain ⟨item', hitem', hcases⟩ := writeCompaction_nullptr h
    rw [hitem] at hitem'
    cases hitem'
    rcases hcases with ⟨hnone, s1, hinit, hread⟩ | ⟨hsome, hread⟩
    · obtain ⟨-, rfl⟩ := initializeGetReactor_ok hinit
      obtain ⟨k1, k2, k3, k4, k5, k6⟩ := readCompaction_holders hread rfl hs hcur hidx
      have hg : s'.getReactor ≠ none := k6 (by simp)
      refine ⟨⟨⟨k3.trans hitem, k4.trans hlogs, k5, fun _ => hg⟩, hg⟩,
        fun hor => ⟨fun _ => k1 hor, fun hn => absurd hnone hn⟩, fun hnil hl => ?_⟩
      obtain ⟨k20, k21⟩ := k2 hnil hl
      refine ⟨fun log _ hget => k21 log (by rw [← hlogs] at hget; exact hget),
        fun hc => absurd hcur hc, fun he => ?_⟩
      exfalso
      apply k20
      apply List.eq_nil_of_length_eq_zero
      rw [← hlogs] at he
      rw [← hidx]
      exact he.symm
    · obtain ⟨k1, k2, k3, k4, k5, k6⟩ := readCompaction_holders hread rfl hs hcur hidx
      have hg : s'.getReactor ≠ none := k6 hsome
      refine ⟨⟨⟨k3.trans hitem, k4.trans hlogs, k5, fun _ => hg⟩, hg⟩,
        fun hor => ⟨fun hn => absurd hn hsome, fun _ => k1 hor⟩, fun hnil hl => ?_⟩
      obtain ⟨k20, k21⟩ := k2 hnil hl
      refine ⟨fun log _ hget => k21 log (by rw [← hlogs] at hget; exact hget),
        fun hc => absurd hcur hc, fun he => ?_⟩
      exfalso
      apply k20
      apply List.eq_nil_of_length_eq_zero
      rw [← hlogs] at he
      rw [← hidx]
      exact he.symm
  · rw [hw] at h
    obtain ⟨-, k1, k2, k3, k4, k5, k6, k7, k8⟩ := writeLogs_holders h
    have hg : s'.getReactor ≠ none := k8 (hlog hs)
    have hs' : s'.state = State.LOGS := k7.trans hs
    refine ⟨⟨⟨k5.trans hitem, k6.trans hlogs, fun hl => ?_, fun _ => hg⟩, hg⟩,
      fun hor => ?_, fun _ _ => ⟨fun log hc hget => k1 log hc (by rw [hlogs]; exact hget),
        fun hc => k2 hc, fun he => k3 (by rw [hlogs]; exact he)⟩⟩
    · rw [hs'] at hl
      cases hl
    · rcases hor with hne | hl
      · exact absurd k4 hne
      · rw [hs'] at hl
        cases hl

theorem run_phaseInv (env : Env) (item : BackupItem) (logs : List LogItem) :
    ∀ (n : Nat) (s : Reactor),
      (writeLoop env n (Reactor.initial item logs)).2 = (Termination.running, s) →
      PhaseInv item logs s ∧ (n = 0 → s.getReactor = none) ∧
        (n ≠ 0 → s.getReactor ≠ none) := by
  have hinit : PhaseInv item logs (Reactor.initial item logs) :=
    ⟨rfl, rfl, fun _ => ⟨rfl, rfl⟩, fun hl => State.noConfusion hl⟩
  intro n s h
  cases n with
  | zero =>
    simp only [writeLoop, Prod.mk.injEq, true_and] at h
    rw [← h]
    exact ⟨hinit, fun _ => rfl, fun hn => absurd rfl hn⟩
  | succ n =>
    rcases hw : writeResponse env (Reactor.initial item logs) with ⟨o, s'⟩
    cases o with
    | nullptr f =>
      have hf : (writeResponse env (Reactor.initial item logs)).1 = Outcome.nullptr f := by
        rw [hw]
      have hs' : (writeResponse env (Reactor.initial item logs)).2 = s' := by rw [hw]
      rw [writeLoop_of_nullptr n hf, hs'] at h
      have hrun := run_invariant env
        (fun t => PhaseInv item logs t ∧ t.getReactor ≠ none)
        (fun t g t' hP hstep => (writeResponse_holders hP.1 hstep).1)
        n s' s (writeResponse_holders hinit hw).1 h
      exact ⟨hrun.1, fun hn => absurd hn (Nat.succ_ne_zero n), fun _ => hrun.2⟩
    | statusOK => simp [writeLoop, hw] at h
    | thrown e => simp [writeLoop, hw] at h
    | blocked => simp [writeLoop, hw] at h
    | undefined => simp [writeLoop, hw] at h

/-- C16: in a run from the initial state, a frame of the compaction (a packed
or flushed compaction chunk) carries the backup item's attachment holders when
it is the frame of the first call and empty attachment holders otherwise; a
frame of the logs carries the log's attachment holders when its call opens the
log (no current log at entry), and empty attachment holders when its call
continues an open blob-backed log or flushes the buffer after the last log. -/
theorem attachment_holders_first_frame_only (env : Env) (item : BackupItem)
    (logs : List LogItem) (n : Nat) (s : Reactor) (f : PullBackupResponse)
    (h : (writeLoop env n (Reactor.initial item logs)).2 = (Termination.running, s))
    (hf : (writeResponse env s).1 = Outcome.nullptr f) :
    ((f.compactionChunk ≠ [] ∨ (writeResponse env s).2.state = State.COMPACTION) →
      f.attachmentHolders = if n = 0 then item.attachmentHolders else []) ∧
    (f.compactionChunk = [] → (writeResponse env s).2.state = State.LOGS →
      (∀ log, s.currentLog = none → logs[s.currentLogIndex]? = some log →
        f.attachmentHolders = log.attachmentHolders) ∧
      (s.currentLog ≠ none → f.attachmentHolders = []) ∧
      (s.currentLogIndex = logs.length → f.attachmentHolders = [])) := by
  obtain ⟨hP, h0, h1⟩ := run_phaseInv env item logs n s h
  obtain ⟨-, k1, k2⟩ := writeResponse_holders hP (writeResponse_eq hf)
  refine ⟨fun hor => ?_, k2⟩
  by_cases hn : n = 0
  · rw [if_pos hn]
    exact (k1 hor).1 (h0 hn)
  · rw [if_neg hn]
    exact (k1 hor).2 (h1 hn)

/-- C16 (witness): with a one-byte compaction and a blob-backed log, the second
call ends the compaction and opens the log; its frame is a log frame and
carries the log's attachment holders `[8]`. -/
theorem attachment_holders_first_frame_only_witness :
    (writeLoop (smallEnv logStore) 1 (Reactor.initial holderItem [holderLog 101])).2.1
      = Termination.running ∧
    (writeResponse (smallEnv logStore)
      (writeLoop (smallEnv logStore) 1 (Reactor.initial holderItem [holderLog 101])).2.2).1
      = Outcome.nullptr
        { backupID := [1], logID := [1], attachmentHolders := [8], compactionChunk := [],
          logChunk := List.range 7 } ∧
    (writeLoop (smallEnv logStore) 1
      (Reactor.initial holderItem [holderLog 101])).2.2.currentLog = none ∧
    [holderLog 101][(writeLoop (smallEnv logStore) 1
      (Reactor.initial holderItem [holderLog 101])).2.2.currentLogIndex]? = some (holderLog 101) ∧
    ([8] : Bytes) = (holderLog 101).attachmentHolders :=
  ⟨rfl, rfl, rfl, rfl,
    ((attachment_holders_first_frame_only (smallEnv logStore) holderItem [holderLog 101] 1
      (writeLoop (smallEnv logStore) 1 (Reactor.initial holderItem [holderLog 101])).2.2
      { backupID := [1], logID := [1], attachmentHolders := [8], compactionChunk := [],
        logChunk := List.range 7 }
      rfl rfl).2 rfl rfl).1 (holderLog 101) rfl rfl⟩

/-- The attachment holders of the frames of a whole run, with a one-byte
compaction and a blob-backed log of two bytes: the backup item's on the first
frame, the log's on the frame that opens the log, and empty on the frame of
the call that reads the end of the log's blob. -/
theorem holders_of_concrete_run :
    (writeLoop (smallEnv logStore) 10 (Reactor.initial holderItem [holderLog 102])).2.1
      = Termination.ok ∧
    (writeLoop (smallEnv logStore) 10 (Reactor.initial holderItem [holderLog 102])).1.map
      (fun f => f.attachmentHolders) = [[9], [8], []] := by
  exact ⟨rfl, rfl⟩

end PullBackup
